import Mathlib

/-!
kexec for arm64: image validation, segment planning, device-tree patching, the
page list and the hand-off.

A shallow embedding of

* `arch/arm64/kernel/kexec_image.c` (`image_probe`, `image_load`),
* `arch/arm64/kernel/machine_kexec_file.c` (`setup_dtb`, `create_dtb`,
  `prepare_elf_headers`, `load_other_segments`),
* `lib/fdt_addresses.c` (`cpu64_to_fdt_cells`, `fdt_setprop_reg`),
* `arch/arm64/kernel/machine_kexec.c` (`kexec_list_walk`, `kexec_list_flush`,
  `fill_bypass`, `machine_kexec_prepare`, `machine_kexec`,
  `arch_kexec_protect_crashkres`, `arch_kexec_unprotect_crashkres`,
  `crash_is_nosave`).

Conventions.  `unsigned long`, `u64` and `size_t` are 64-bit: they are natural
numbers and every C operation that can wrap is written with an explicit
`% 2 ^ 64`.  `int` results are integers.  Buffers are byte functions or byte
lists.  Code outside these files (the buffer allocator, libfdt, vmalloc, the
random pool) is a parameter of the definitions.
-/

namespace Kexec

/-! ## Constants -/

/-- Modelled from the spec: errno `EINVAL` ("format-invalid" / "fatal"); the
value is the one of `errno-base.h`, which is not under src/. -/
def EINVAL : Int := 22

/-- Modelled from the spec: errno `ENOMEM` ("out-of-memory" / "retry with
bigger buffer"); the value is the one of `errno-base.h`, not under src/. -/
def ENOMEM : Int := 12

/-- Modelled from the spec: libfdt error "not found"; value as in the
`libfdt.h` of libfdt, which is not under src/. -/
def FDT_ERR_NOTFOUND : Int := 1

/-- Modelled from the spec: libfdt error "no space"; value as in the
`libfdt.h` of libfdt, which is not under src/. -/
def FDT_ERR_NOSPACE : Int := 3

/-- Modelled from the spec: libfdt error for an offset that is not a node;
value as in the `libfdt.h` of libfdt, which is not under src/. -/
def FDT_ERR_BADOFFSET : Int := 4

/-- Modelled from the spec: libfdt error for an address or size that does not fit its
cells (doc comment of `fdt_setprop_reg` in
`include/linux/libfdt.h`); value as in the `libfdt.h` of libfdt. -/
def FDT_ERR_BADVALUE : Int := 15

/-- Largest `u32`. -/
def U32_MAX : Nat := 2 ^ 32 - 1

/-- Largest `unsigned long` (64-bit on arm64). -/
def ULONG_MAX : Nat := 2 ^ 64 - 1

/-- The value of `SZ_64K` (`linux/sizes.h`). -/
def SZ_64K : Nat := 0x10000

/-- The value of `SZ_2M` (`linux/sizes.h`). -/
def SZ_2M : Nat := 0x200000

/-- The value of `SZ_1G` (`linux/sizes.h`). -/
def SZ_1G : Nat := 0x40000000

/-- Modelled from the spec: the image type of an ordinary ("warm re-exec")
image, `KEXEC_TYPE_DEFAULT` of `linux/kexec.h`, which is not under src/. -/
def KEXEC_TYPE_DEFAULT : Nat := 0

/-- Modelled from the spec: the image type of the "dump-image variant",
`KEXEC_TYPE_CRASH` of `linux/kexec.h`, which is not under src/. -/
def KEXEC_TYPE_CRASH : Nat := 1

/-- The define `DTB_EXTRA_SPACE` of machine_kexec_file.c:160. -/
def DTB_EXTRA_SPACE : Nat := 0x1000

/-- The string `FDT_PSTR_KEXEC_ELFHDR`. -/
def FDT_PSTR_KEXEC_ELFHDR : String := "linux,elfcorehdr"

/-- The string `FDT_PSTR_MEM_RANGE`. -/
def FDT_PSTR_MEM_RANGE : String := "linux,usable-memory-range"

/-- The string `FDT_PSTR_INITRD_STA`. -/
def FDT_PSTR_INITRD_STA : String := "linux,initrd-start"

/-- The string `FDT_PSTR_INITRD_END`. -/
def FDT_PSTR_INITRD_END : String := "linux,initrd-end"

/-- The string `FDT_PSTR_BOOTARGS`. -/
def FDT_PSTR_BOOTARGS : String := "bootargs"

/-- The string `FDT_PSTR_KASLR_SEED`. -/
def FDT_PSTR_KASLR_SEED : String := "kaslr-seed"

/-! ## Outcomes, memory, C strings -/

/-- Outcome of running a function of the source: it returned a value, it hit
undefined behaviour (a NULL dereference, an out-of-bounds access), or the run
was cut off because the step budget of the embedding was used up. -/
inductive Res (α : Type) where
  | ret : α → Res α
  | fault : Res α
  | fuel : Res α
deriving DecidableEq, Repr

/-- A readable buffer seen through a non-NULL pointer: the byte at each offset. -/
abbrev Mem := Nat → Nat

/-- The `unsigned char` stored at offset `i`. -/
def byte_at (m : Mem) (i : Nat) : Nat := m i % 256

/-- The `n` bytes starting at offset `off`. -/
def bytes_at (m : Mem) (off n : Nat) : List Nat :=
  (List.range n).map (fun i => byte_at m (off + i))

/-- Little-endian value of a byte list (`le64_to_cpu` on eight bytes). -/
def le_to_cpu : List Nat → Nat
  | [] => 0
  | b :: bs => b + 256 * le_to_cpu bs

/-- C `memcmp` over two byte lists of the compared length: zero iff they
agree, otherwise the difference of the first differing bytes. -/
def memcmp : List Nat → List Nat → Int
  | a :: as, b :: bs => if a = b then memcmp as bs else (a : Int) - (b : Int)
  | _, _ => 0

/-- The C string a `char *` points at: the bytes before the first NUL. -/
def cstring (p : List Nat) : List Nat := p.takeWhile (fun c => c ≠ 0)

/-- C `strlen`: it reads through its argument, so a NULL argument is a NULL
dereference (`none`). -/
def strlen (s : Option (List Nat)) : Option Nat :=
  match s with
  | none => none
  | some p => some (cstring p).length

/-! ## Image header (kexec_image.c) -/

/-- Fields of `struct arm64_image_header` read by the loader.  The layout
(64 bytes: two code words, `text_offset` at 8, `image_size` at 16, `flags` at
24, three reserved words, `magic` at 56, a last word at 60) is the one of the
local copy of the struct in machine_kexec.c:60-69; `asm/image.h` itself is not
under src/. -/
structure arm64_image_header where
  text_offset : Nat
  image_size : Nat
  flags : Nat
  magic : List Nat
deriving DecidableEq, Repr

/-- Size of `struct arm64_image_header`: 2 + 6 + 8 + 8 + 8 + 24 + 4 + 4. -/
def sizeof_arm64_image_header : Nat := 64

/-- The four bytes `"ARM\x64"`. -/
def ARM64_IMAGE_MAGIC : List Nat := [0x41, 0x52, 0x4d, 0x64]

/-- The header seen through `(struct arm64_image_header *)kernel`, with the
`__le64` fields already passed through `le64_to_cpu`. -/
def header_of (kernel : Mem) : arm64_image_header :=
  { text_offset := le_to_cpu (bytes_at kernel 8 8)
    image_size := le_to_cpu (bytes_at kernel 16 8)
    flags := le_to_cpu (bytes_at kernel 24 8)
    magic := bytes_at kernel 56 4 }

/-- The function `image_probe` of kexec_image.c:21-33.  `kernel_buf` is `none`
for a NULL pointer.  The function has no other input and writes nothing but
its local `h`. -/
def image_probe (kernel_buf : Option Mem) (kernel_len : Nat) : Int :=
  match kernel_buf with
  | none => -EINVAL
  | some h =>
    if kernel_len < sizeof_arm64_image_header ∨
        memcmp (header_of h).magic ARM64_IMAGE_MAGIC ≠ 0 then
      -EINVAL
    else
      0

/-! ## Device-tree library interface (libfdt) and lib/fdt_addresses.c -/

/-- Remainder of a `u64` addition. -/
def u64_add (a b : Nat) : Nat := (a + b) % 2 ^ 64

/-- Remainder of a `u64` subtraction. -/
def u64_sub (a b : Nat) : Nat := (a % 2 ^ 64 + 2 ^ 64 - b % 2 ^ 64) % 2 ^ 64

/-- The primitives of libfdt used by the loader (scripts/dtc/libfdt is not
under src/; the spec treats it as a trusted external library), over an
arbitrary blob type.  A call that edits the blob returns its `int` result and
the blob afterwards; a property value is the list of its bytes.
`fdt_open_into b size` is `fdt_open_into(b, buf, size)` for a fresh `buf` and
returns the content of `buf`. -/
structure FdtLib (β : Type) where
  fdt_path_offset : β → String → Int
  fdt_address_cells : β → Int → Int
  fdt_size_cells : β → Int → Int
  fdt_setprop : β → Int → String → List Nat → Int × β
  fdt_delprop : β → Int → String → Int × β
  fdt_getprop : β → Int → String → Option (List Nat)
  fdt_open_into : β → Nat → Int × β
  fdt_pack : β → Int × β
  fdt_totalsize : β → Nat

/-- Big-endian bytes of a 32-bit cell (`cpu_to_fdt32` applied to a value cast
to `u32`). -/
def cpu_to_fdt32 (x : Nat) : List Nat :=
  [x / 2 ^ 24 % 256, x / 2 ^ 16 % 256, x / 2 ^ 8 % 256, x % 256]

/-- Big-endian bytes of a 64-bit value (`cpu_to_fdt64`). -/
def cpu_to_fdt64 (x : Nat) : List Nat :=
  cpu_to_fdt32 (x / 2 ^ 32) ++ cpu_to_fdt32 x

/-- Big-endian value of a byte list (`fdt32_to_cpu`, `fdt64_to_cpu`). -/
def be_to_cpu (bs : List Nat) : Nat :=
  bs.foldl (fun acc b => acc * 256 + b) 0

/-- The function `cpu64_to_fdt_cells` of lib/fdt_addresses.c:11-21: the loop
`while (cells) { val32 = cpu_to_fdt32(val64 >> (32 * (--cells))); ... }`,
returning the bytes it appends to `buf`. -/
def cpu64_to_fdt_cells (val64 : Nat) : Nat → List Nat
  | 0 => []
  | cells + 1 => cpu_to_fdt32 (val64 >>> (32 * cells)) ++ cpu64_to_fdt_cells val64 cells

/-- The function `fdt_setprop_reg` of lib/fdt_addresses.c:23-56.  The local
`buf` holds four cells and `cpu64_to_fdt_cells` shifts a `u64` by
`32 * (cells - 1)` bits, so a cell count above 2 (which the source assumes
away) is undefined behaviour: `none`. -/
def fdt_setprop_reg {β : Type} (L : FdtLib β) (fdt : β) (nodeoffset : Int) (name : String)
    (addr size : Nat) : Option (Int × β) :=
  let addr_cells := L.fdt_address_cells fdt 0
  if addr_cells < 0 then some (addr_cells, fdt)
  else
    let size_cells := L.fdt_size_cells fdt 0
    if size_cells < 0 then some (size_cells, fdt)
    else if addr_cells = 1 ∧ (addr > U32_MAX ∨ u64_add addr size > U32_MAX) then
      some (-FDT_ERR_BADVALUE, fdt)
    else if size_cells = 1 ∧ size > U32_MAX then
      some (-FDT_ERR_BADVALUE, fdt)
    else if 2 < addr_cells ∨ 2 < size_cells then
      none
    else
      some (L.fdt_setprop fdt nodeoffset name
        (cpu64_to_fdt_cells addr addr_cells.toNat ++ cpu64_to_fdt_cells size size_cells.toNat))

/-- Modelled from the spec: the libfdt.h wrapper `fdt_setprop_string` (not
under src/) that "sets the boot command-line property": the value stored is
the C string with its terminating NUL, `strlen(str) + 1` bytes. -/
def fdt_setprop_string {β : Type} (L : FdtLib β) (fdt : β) (nodeoffset : Int) (name : String)
    (str : List Nat) : Int × β :=
  L.fdt_setprop fdt nodeoffset name (cstring str ++ [0])

/-- Modelled from the spec: the libfdt.h wrapper `fdt_setprop_u64` (not under
src/) that "writes a 64-bit property": the value stored is the eight
big-endian bytes of `val`. -/
def fdt_setprop_u64 {β : Type} (L : FdtLib β) (fdt : β) (nodeoffset : Int) (name : String)
    (val : Nat) : Int × β :=
  L.fdt_setprop fdt nodeoffset name (cpu_to_fdt64 val)

/-- Reading a string property back: the bytes before the first NUL. -/
def fdt_getprop_string {β : Type} (L : FdtLib β) (fdt : β) (nodeoffset : Int) (name : String) :
    Option (List Nat) :=
  (L.fdt_getprop fdt nodeoffset name).map cstring

/-- Reading a 64-bit property back. -/
def fdt_getprop_u64 {β : Type} (L : FdtLib β) (fdt : β) (nodeoffset : Int) (name : String) :
    Option Nat :=
  (L.fdt_getprop fdt nodeoffset name).map be_to_cpu

/-- Reading an (address, size) property back for given cell counts. -/
def fdt_getprop_reg {β : Type} (L : FdtLib β) (fdt : β) (nodeoffset : Int) (name : String)
    (addr_cells size_cells : Nat) : Option (Nat × Nat) :=
  (L.fdt_getprop fdt nodeoffset name).map
    (fun v => (be_to_cpu (v.take (4 * addr_cells)),
      be_to_cpu ((v.drop (4 * addr_cells)).take (4 * size_cells))))

/-! ## Image state -/

/-- The `struct resource` fields used (`crashk_res`); `end_` is the inclusive
`end` field. -/
structure resource where
  start : Nat
  end_ : Nat
deriving DecidableEq, Repr

/-- Which buffer a `kexec_buf.buffer` / `kexec_segment.kbuf` pointer designates. -/
inductive Buffer where
  | kernel
  | elf_headers
  | initrd
  | dtb
deriving DecidableEq, Repr

/-- The `struct kexec_buf` fields set by the loader. -/
structure kexec_buf where
  buffer : Buffer
  bufsz : Nat
  mem : Nat
  memsz : Nat
  buf_align : Nat
  buf_min : Nat
  buf_max : Nat
  top_down : Bool
deriving DecidableEq, Repr

/-- The `struct kexec_segment`. -/
structure kexec_segment where
  kbuf : Buffer
  bufsz : Nat
  mem : Nat
  memsz : Nat
deriving DecidableEq, Repr

/-- The `struct kimage_arch` of arm64. -/
structure kimage_arch (β : Type) where
  dtb : Option β
  dtb_mem : Nat
  elf_headers : Option (List Nat)
  elf_headers_mem : Nat
  elf_headers_sz : Nat

/-- The `struct kimage` fields used by the loader; `nr_segments` is the length
of `segment`. -/
structure kimage (β : Type) where
  type : Nat
  start : Nat
  segment : List kexec_segment
  arch : kimage_arch β

/-! ## setup_dtb (machine_kexec_file.c:77-154) -/

/-- The functions `setup_dtb` calls, as parameters: the behaviour of each
call (its `int` result and the blob afterwards) is arbitrary.
`fdt_setprop_reg` may be undefined (`none`), see `Kexec.fdt_setprop_reg`. -/
structure SetupOps (β : Type) where
  fdt_path_offset : β → String → Int
  fdt_setprop_reg : β → Int → String → Nat → Nat → Option (Int × β)
  fdt_setprop_string : β → Int → String → List Nat → Int × β
  fdt_setprop_u64 : β → Int → String → Nat → Int × β
  fdt_delprop : β → Int → String → Int × β

/-- The callees of `setup_dtb` as the repository implements them on top of
the libfdt primitives. -/
def FdtLib.ops {β : Type} (L : FdtLib β) : SetupOps β where
  fdt_path_offset := L.fdt_path_offset
  fdt_setprop_reg := fdt_setprop_reg L
  fdt_setprop_string := fdt_setprop_string L
  fdt_setprop_u64 := fdt_setprop_u64 L
  fdt_delprop := L.fdt_delprop

/-- Lines 89-103 of `setup_dtb`: the two properties of a crash image.  The
first component is 0 when control falls through to the next block, otherwise
the value `setup_dtb` returns. -/
def setup_dtb_crash {β : Type} (O : SetupOps β) (image : kimage β) (crashk_res : resource)
    (nodeoffset : Int) (dtb : β) : Option (Int × β) :=
  if image.type = KEXEC_TYPE_CRASH then
    match O.fdt_setprop_reg dtb nodeoffset FDT_PSTR_KEXEC_ELFHDR
        image.arch.elf_headers_mem image.arch.elf_headers_sz with
    | none => none
    | some r =>
      if r.1 ≠ 0 then
        some (if r.1 = -FDT_ERR_NOSPACE then -ENOMEM else -EINVAL, r.2)
      else
        match O.fdt_setprop_reg r.2 nodeoffset FDT_PSTR_MEM_RANGE
            crashk_res.start (u64_add (u64_sub crashk_res.end_ crashk_res.start) 1) with
        | none => none
        | some r =>
          if r.1 ≠ 0 then
            some (if r.1 = -FDT_ERR_NOSPACE then -ENOMEM else -EINVAL, r.2)
          else
            some (0, r.2)
  else
    some (0, dtb)

/-- Lines 105-115 of `setup_dtb`: bootargs. -/
def setup_dtb_bootargs {β : Type} (O : SetupOps β) (cmdline : Option (List Nat))
    (nodeoffset : Int) (dtb : β) : Int × β :=
  match cmdline with
  | some str =>
    let r := O.fdt_setprop_string dtb nodeoffset FDT_PSTR_BOOTARGS str
    if r.1 ≠ 0 then
      (if r.1 = -FDT_ERR_NOSPACE then -ENOMEM else -EINVAL, r.2)
    else
      (0, r.2)
  | none =>
    let r := O.fdt_delprop dtb nodeoffset FDT_PSTR_BOOTARGS
    if r.1 ≠ 0 ∧ r.1 ≠ -FDT_ERR_NOTFOUND then
      (-EINVAL, r.2)
    else
      (0, r.2)

/-- Lines 117-136 of `setup_dtb`: initrd-start and initrd-end. -/
def setup_dtb_initrd {β : Type} (O : SetupOps β) (initrd_load_addr initrd_len : Nat)
    (nodeoffset : Int) (dtb : β) : Int × β :=
  if initrd_load_addr ≠ 0 then
    let r := O.fdt_setprop_u64 dtb nodeoffset FDT_PSTR_INITRD_STA initrd_load_addr
    if r.1 ≠ 0 then
      (if r.1 = -FDT_ERR_NOSPACE then -ENOMEM else -EINVAL, r.2)
    else
      let r := O.fdt_setprop_u64 r.2 nodeoffset FDT_PSTR_INITRD_END
        (u64_add initrd_load_addr initrd_len)
      if r.1 ≠ 0 then
        (if r.1 = -FDT_ERR_NOSPACE then -ENOMEM else -EINVAL, r.2)
      else
        (0, r.2)
  else
    let r := O.fdt_delprop dtb nodeoffset FDT_PSTR_INITRD_STA
    if r.1 ≠ 0 ∧ r.1 ≠ -FDT_ERR_NOTFOUND then
      (-EINVAL, r.2)
    else
      let r := O.fdt_delprop r.2 nodeoffset FDT_PSTR_INITRD_END
      if r.1 ≠ 0 ∧ r.1 ≠ -FDT_ERR_NOTFOUND then
        (-EINVAL, r.2)
      else
        (0, r.2)

/-- Lines 138-153 of `setup_dtb`, up to its `return 0`: kaslr-seed.  `value`
is what `get_random_bytes(&value, sizeof(value))` stores when it is called. -/
def setup_dtb_kaslr {β : Type} (O : SetupOps β) (random_ready : Int) (value : Nat)
    (nodeoffset : Int) (dtb : β) : Int × β :=
  let r := O.fdt_delprop dtb nodeoffset FDT_PSTR_KASLR_SEED
  if r.1 ≠ 0 ∧ r.1 ≠ -FDT_ERR_NOTFOUND then
    (-EINVAL, r.2)
  else if random_ready ≠ 0 then
    let r := O.fdt_setprop_u64 r.2 nodeoffset FDT_PSTR_KASLR_SEED value
    if r.1 ≠ 0 then
      (if r.1 = -FDT_ERR_NOSPACE then -ENOMEM else -EINVAL, r.2)
    else
      (0, r.2)
  else
    (0, r.2)

/-- The function `setup_dtb` of machine_kexec_file.c:77-154.  The globals
`crashk_res` and `random_ready` and the value drawn by `get_random_bytes` are
arguments.  Returns the `int` result and the content of `dtb` afterwards, or
`none` when a call is undefined. -/
def setup_dtb {β : Type} (O : SetupOps β) (image : kimage β) (crashk_res : resource)
    (random_ready : Int) (value : Nat) (initrd_load_addr initrd_len : Nat)
    (cmdline : Option (List Nat)) (dtb : β) : Option (Int × β) :=
  let nodeoffset := O.fdt_path_offset dtb "/chosen"
  if nodeoffset < 0 then some (-EINVAL, dtb)
  else
    match setup_dtb_crash O image crashk_res nodeoffset dtb with
    | none => none
    | some r1 =>
      if r1.1 ≠ 0 then some r1
      else
        let r2 := setup_dtb_bootargs O cmdline nodeoffset r1.2
        if r2.1 ≠ 0 then some r2
        else
          let r3 := setup_dtb_initrd O initrd_load_addr initrd_len nodeoffset r2.2
          if r3.1 ≠ 0 then some r3
          else some (setup_dtb_kaslr O random_ready value nodeoffset r3.2)

/-- One call made by `setup_dtb` with the `int` it returned: `set` for
`fdt_setprop_reg`, `fdt_setprop_string` and `fdt_setprop_u64`, `del` for
`fdt_delprop`. -/
inductive SetupCall where
  | set (name : String) (ret : Int)
  | del (name : String) (ret : Int)
deriving DecidableEq, Repr

/-- The same callees, recording every set and delete call (oldest first)
next to the blob. -/
def SetupOps.logged {β : Type} (O : SetupOps β) : SetupOps (β × List SetupCall) where
  fdt_path_offset := fun b path => O.fdt_path_offset b.1 path
  fdt_setprop_reg := fun b n name addr size =>
    (O.fdt_setprop_reg b.1 n name addr size).map
      (fun r => (r.1, (r.2, b.2 ++ [SetupCall.set name r.1])))
  fdt_setprop_string := fun b n name str =>
    let r := O.fdt_setprop_string b.1 n name str
    (r.1, (r.2, b.2 ++ [SetupCall.set name r.1]))
  fdt_setprop_u64 := fun b n name val =>
    let r := O.fdt_setprop_u64 b.1 n name val
    (r.1, (r.2, b.2 ++ [SetupCall.set name r.1]))
  fdt_delprop := fun b n name =>
    let r := O.fdt_delprop b.1 n name
    (r.1, (r.2, b.2 ++ [SetupCall.del name r.1]))

/-- A call after which `setup_dtb` returns an error: a set call with a
non-zero result, a delete call with a result other than 0 and
`-FDT_ERR_NOTFOUND`. -/
def SetupCall.fails : SetupCall → Bool
  | SetupCall.set _ ret => decide (ret ≠ 0)
  | SetupCall.del _ ret => decide (ret ≠ 0 ∧ ret ≠ -FDT_ERR_NOTFOUND)

/-- What `setup_dtb` returns right after a failing call: for a set call
`ret == -FDT_ERR_NOSPACE ? -ENOMEM : -EINVAL`, for a delete call `-EINVAL`. -/
def SetupCall.errno : SetupCall → Int
  | SetupCall.set _ ret => if ret = -FDT_ERR_NOSPACE then -ENOMEM else -EINVAL
  | SetupCall.del _ _ => -EINVAL

/-- The property a call is about. -/
def SetupCall.name : SetupCall → String
  | SetupCall.set name _ => name
  | SetupCall.del name _ => name

/-- The same image for another blob type: every field is kept but
`arch.dtb`, which the functions here never read. -/
def kimage.retype {β γ : Type} (image : kimage β) : kimage γ where
  type := image.type
  start := image.start
  segment := image.segment
  arch := { dtb := none, dtb_mem := image.arch.dtb_mem, elf_headers := image.arch.elf_headers,
            elf_headers_mem := image.arch.elf_headers_mem,
            elf_headers_sz := image.arch.elf_headers_sz }

/-! ## The environment of the loader -/

/-- One `struct crash_mem_range`: `end_` is the inclusive `end` field. -/
structure crash_mem_range where
  start : Nat
  end_ : Nat
deriving DecidableEq, Repr

/-- The `struct crash_mem`: `nr_ranges` is the length of `ranges`. -/
structure crash_mem where
  max_nr_ranges : Nat
  ranges : List crash_mem_range
deriving DecidableEq, Repr

/-- Globals read by the loader and the kernel services it calls that are not
under src/, as parameters.
* `fdt`: libfdt; `initial_boot_params`: the template blob;
* `crashk_res`, `random_ready`: the globals of these names;
* `get_random_bytes n`: the value drawn in attempt `n` of `create_dtb`;
* `vmalloc n size`: whether `vmalloc(size)` of attempt `n` returns a buffer;
* `kexec_locate_mem_hole image kbuf`: the allocator, the spec's
  `reserve(min_addr, max_addr, alignment, size, direction) ->
  physical_address | out_of_memory`: an `int` result and the address chosen;
* `MIN_KIMG_ALIGN`: the constant of `asm/boot.h`;
* `memblock_memory`: what `for_each_mem_range` enumerates, as (start, end)
  with `end` exclusive; `kmalloc size`: whether the allocation succeeds;
* `crash_exclude_mem_range`, `crash_prepare_elf64_headers`: the helpers of
  kernel/kexec_file.c (result, then the range table resp. the header buffer
  and its size). -/
structure kexec_env (β : Type) where
  fdt : FdtLib β
  initial_boot_params : β
  crashk_res : resource
  random_ready : Int
  get_random_bytes : Nat → Nat
  vmalloc : Nat → Nat → Bool
  kexec_locate_mem_hole : kimage β → kexec_buf → Int × Nat
  MIN_KIMG_ALIGN : Nat
  memblock_memory : List (Nat × Nat)
  kmalloc : Nat → Bool
  crash_exclude_mem_range : crash_mem → Nat → Nat → Int × crash_mem
  crash_prepare_elf64_headers : crash_mem → Bool → Int × List Nat × Nat

/-! ## create_dtb (machine_kexec_file.c:162-202) -/

/-- The `for (;;)` loop of `create_dtb`, lines 173-201, entered for attempt
number `n` with the current `buf_size`.  Returns the outcome (the `int`
result and `*dtb`) and the sizes passed to `vmalloc`, oldest first.  `fuel`
bounds the number of iterations of the embedding. -/
def create_dtb_loop {β : Type} (E : kexec_env β) (image : kimage β)
    (initrd_load_addr initrd_len : Nat) (cmdline : Option (List Nat)) :
    Nat → Nat → Nat → Res (Int × Option β) × List Nat
  | 0, _, _ => (Res.fuel, [])
  | fuel + 1, n, buf_size =>
    if E.vmalloc n buf_size = false then
      (Res.ret (-ENOMEM, none), [buf_size])
    else
      let o := E.fdt.fdt_open_into E.initial_boot_params buf_size
      if o.1 ≠ 0 then
        (Res.ret (-EINVAL, none), [buf_size])
      else
        match setup_dtb E.fdt.ops image E.crashk_res E.random_ready (E.get_random_bytes n)
            initrd_load_addr initrd_len cmdline o.2 with
        | none => (Res.fault, [buf_size])
        | some r =>
          if r.1 ≠ 0 then
            if r.1 = -ENOMEM then
              let rest := create_dtb_loop E image initrd_load_addr initrd_len cmdline
                fuel (n + 1) (u64_add buf_size DTB_EXTRA_SPACE)
              (rest.1, buf_size :: rest.2)
            else
              (Res.ret (r.1, none), [buf_size])
          else
            (Res.ret (0, some (E.fdt.fdt_pack r.2).2), [buf_size])

/-- The function `create_dtb` of machine_kexec_file.c:162-202; `*dtb` is
`none` (NULL, as the caller initialises it) unless the function stores a
buffer.  Line 171 evaluates `strlen(cmdline)` before anything else. -/
def create_dtb {β : Type} (E : kexec_env β) (fuel : Nat) (image : kimage β)
    (initrd_load_addr initrd_len : Nat) (cmdline : Option (List Nat)) :
    Res (Int × Option β) × List Nat :=
  match strlen cmdline with
  | none => (Res.fault, [])
  | some len =>
    create_dtb_loop E image initrd_load_addr initrd_len cmdline fuel 0
      (u64_add (u64_add (E.fdt.fdt_totalsize E.initial_boot_params) len) DTB_EXTRA_SPACE)

/-! ## prepare_elf_headers, load_other_segments, image_load -/

/-- The function `prepare_elf_headers` of machine_kexec_file.c:204-239:
the `int` result, then `*addr` and `*sz`.  `sizeof(struct crash_mem)` is 8 and
`sizeof(struct crash_mem_range)` is 16. -/
def prepare_elf_headers {β : Type} (E : kexec_env β) : Int × List Nat × Nat :=
  let nr_ranges := 1 + E.memblock_memory.length
  if E.kmalloc (8 + 16 * nr_ranges) = false then
    (-ENOMEM, [], 0)
  else
    let cmem : crash_mem :=
      { max_nr_ranges := nr_ranges
        ranges := E.memblock_memory.map (fun r => { start := r.1, end_ := u64_sub r.2 1 }) }
    let x := E.crash_exclude_mem_range cmem E.crashk_res.start E.crashk_res.end_
    if x.1 = 0 then
      E.crash_prepare_elf64_headers x.2 true
    else
      (x.1, [], 0)

/-- What the loader does to the kernel state: the image, and every
`kexec_add_buffer` call made so far (oldest first) with the `int` it
returned. -/
structure LoadState (β : Type) where
  image : kimage β
  requests : List (kexec_buf × Int)

/-- Modelled from the spec: `kexec_add_buffer` of kernel/kexec_file.c, which
is not under src/.  It asks the allocator (`reserve(...) -> physical_address |
out_of_memory`) for an address; on failure it returns the error and adds no
segment; on success it stores the address in `kbuf.mem` and appends a segment
with "a requested size, a final physical address (filled in by the external
allocator)". -/
def kexec_add_buffer {β : Type} (E : kexec_env β) (kbuf : kexec_buf) (s : LoadState β) :
    Int × kexec_buf × LoadState β :=
  let r := E.kexec_locate_mem_hole s.image kbuf
  if r.1 ≠ 0 then
    (r.1, kbuf, { s with requests := s.requests ++ [(kbuf, r.1)] })
  else
    (0, { kbuf with mem := r.2 },
      { image := { s.image with
          segment := s.image.segment ++
            [{ kbuf := kbuf.buffer, bufsz := kbuf.bufsz, mem := r.2, memsz := kbuf.memsz }] }
        requests := s.requests ++ [(kbuf, 0)] })

/-- Lines 256-283 of `load_other_segments`: the elf core header of a crash
image.  The first component is 0 when control falls through, otherwise the
value returned through `out_err`. -/
def load_elf_headers {β : Type} (E : kexec_env β) (buf_min : Nat) (s : LoadState β) :
    Int × LoadState β :=
  if s.image.type = KEXEC_TYPE_CRASH then
    let h := prepare_elf_headers E
    if h.1 ≠ 0 then (h.1, s)
    else
      let kbuf : kexec_buf :=
        { buffer := Buffer.elf_headers, bufsz := h.2.2, mem := 0, memsz := h.2.2,
          buf_align := SZ_64K, buf_min := buf_min, buf_max := ULONG_MAX, top_down := true }
      let r := kexec_add_buffer E kbuf s
      if r.1 ≠ 0 then (r.1, r.2.2)
      else
        (0, { r.2.2 with
          image := { r.2.2.image with
            arch := { r.2.2.image.arch with
              elf_headers := some h.2.1
              elf_headers_mem := r.2.1.mem
              elf_headers_sz := h.2.2 } } })
  else
    (0, s)

/-- Lines 285-304 of `load_other_segments`: the initrd.  Returns the result,
the local `initrd_load_addr` and the state. -/
def load_initrd {β : Type} (E : kexec_env β) (buf_min kernel_load_addr : Nat)
    (initrd : Option Mem) (initrd_len : Nat) (s : LoadState β) : Int × Nat × LoadState β :=
  match initrd with
  | some _ =>
    let kbuf : kexec_buf :=
      { buffer := Buffer.initrd, bufsz := initrd_len, mem := 0, memsz := initrd_len,
        buf_align := 0, buf_min := buf_min,
        buf_max := u64_add (kernel_load_addr - kernel_load_addr % SZ_1G) (SZ_1G * 32),
        top_down := false }
    let r := kexec_add_buffer E kbuf s
    if r.1 ≠ 0 then (r.1, 0, r.2.2)
    else (0, r.2.1.mem, r.2.2)
  | none => (0, 0, s)

/-- The function `load_other_segments` of machine_kexec_file.c:241-337: the
outcome (the `int` returned) and the state at that point. -/
def load_other_segments {β : Type} (E : kexec_env β) (fuel : Nat) (s : LoadState β)
    (kernel_load_addr kernel_size : Nat) (initrd : Option Mem) (initrd_len : Nat)
    (cmdline : Option (List Nat)) : Res Int × LoadState β :=
  let buf_min := u64_add kernel_load_addr kernel_size
  let r1 := load_elf_headers E buf_min s
  if r1.1 ≠ 0 then (Res.ret r1.1, r1.2)
  else
    let r2 := load_initrd E buf_min kernel_load_addr initrd initrd_len r1.2
    if r2.1 ≠ 0 then (Res.ret r2.1, r2.2.2)
    else
      match (create_dtb E fuel r2.2.2.image r2.2.1 initrd_len cmdline).1 with
      | Res.fault => (Res.fault, r2.2.2)
      | Res.fuel => (Res.fuel, r2.2.2)
      | Res.ret (ret, dtb) =>
        if ret ≠ 0 then (Res.ret ret, r2.2.2)
        else
          match dtb with
          | none => (Res.fault, r2.2.2)
          | some d =>
            let dtb_len := E.fdt.fdt_totalsize d
            let kbuf : kexec_buf :=
              { buffer := Buffer.dtb, bufsz := dtb_len, mem := 0, memsz := dtb_len,
                buf_align := SZ_2M, buf_min := buf_min, buf_max := ULONG_MAX, top_down := true }
            let r := kexec_add_buffer E kbuf r2.2.2
            if r.1 ≠ 0 then (Res.ret r.1, r.2.2)
            else
              (Res.ret 0, { r.2.2 with
                image := { r.2.2.image with
                  arch := { r.2.2.image.arch with dtb := some d, dtb_mem := r.2.1.mem } } })

/-- The function `image_load` of kexec_image.c:35-99: the outcome (the `int`
wrapped by `ERR_PTR`) and the state at that point.  The flag fields read at
lines 58-62 are not used afterwards. -/
def image_load {β : Type} (E : kexec_env β) (fuel : Nat) (s : LoadState β)
    (kernel : Mem) (kernel_len : Nat) (initrd : Option Mem) (initrd_len : Nat)
    (cmdline : Option (List Nat)) (_cmdline_len : Nat) : Res Int × LoadState β :=
  let h := header_of kernel
  if h.image_size = 0 then (Res.ret (-EINVAL), s)
  else
    let text_offset := h.text_offset
    let kbuf : kexec_buf :=
      { buffer := Buffer.kernel, bufsz := kernel_len, mem := 0,
        memsz := u64_add h.image_size text_offset,
        buf_align := E.MIN_KIMG_ALIGN, buf_min := 0, buf_max := ULONG_MAX, top_down := false }
    let r := kexec_add_buffer E kbuf s
    if r.1 ≠ 0 then (Res.ret r.1, r.2.2)
    else
      match r.2.2.image.segment.getLast? with
      | none => (Res.fault, r.2.2)
      | some last =>
        let kernel_segment : kexec_segment :=
          { last with mem := u64_add last.mem text_offset
                      memsz := u64_sub last.memsz text_offset }
        let s1 : LoadState β :=
          { r.2.2 with
            image := { r.2.2.image with
              segment := r.2.2.image.segment.dropLast ++ [kernel_segment]
              start := kernel_segment.mem } }
        load_other_segments E fuel s1 kernel_segment.mem kernel_segment.memsz
          initrd initrd_len cmdline

/-! ## Reference instances -/

/-- Lookup in a property list. -/
def prop_get (name : String) : List (String × List Nat) → Option (List Nat)
  | [] => none
  | p :: ps => if p.1 = name then some p.2 else prop_get name ps

/-- Removal from a property list. -/
def prop_del (name : String) : List (String × List Nat) → List (String × List Nat)
  | [] => []
  | p :: ps => if p.1 = name then prop_del name ps else p :: prop_del name ps

/-- A blob reduced to what the loader touches: the properties of its /chosen
node and its total size. -/
structure RefFdt where
  chosen : List (String × List Nat)
  totalsize : Nat
deriving DecidableEq, Repr

/-- A reference device-tree library over `RefFdt`: /chosen sits at offset 8,
the root has two address cells and two size cells, and there is always room. -/
def refLib : FdtLib RefFdt where
  fdt_path_offset := fun _ path => if path = "/chosen" then 8 else -FDT_ERR_NOTFOUND
  fdt_address_cells := fun _ _ => 2
  fdt_size_cells := fun _ _ => 2
  fdt_setprop := fun b n name v =>
    if n = 8 then (0, { b with chosen := (name, v) :: prop_del name b.chosen })
    else (-FDT_ERR_BADOFFSET, b)
  fdt_delprop := fun b n name =>
    if n = 8 then
      match prop_get name b.chosen with
      | none => (-FDT_ERR_NOTFOUND, b)
      | some _ => (0, { b with chosen := prop_del name b.chosen })
    else (-FDT_ERR_BADOFFSET, b)
  fdt_getprop := fun b n name => if n = 8 then prop_get name b.chosen else none
  fdt_open_into := fun b size => (0, { b with totalsize := size })
  fdt_pack := fun b => (0, b)
  fdt_totalsize := fun b => b.totalsize

/-- A device-tree library whose blob is just its buffer size and that has
room for a property only in a buffer of at least `room` bytes. -/
def tightLib (room : Nat) : FdtLib Nat where
  fdt_path_offset := fun _ _ => 8
  fdt_address_cells := fun _ _ => 2
  fdt_size_cells := fun _ _ => 2
  fdt_setprop := fun b _ _ _ => if b < room then (-FDT_ERR_NOSPACE, b) else (0, b)
  fdt_delprop := fun b _ _ => (-FDT_ERR_NOTFOUND, b)
  fdt_getprop := fun _ _ _ => none
  fdt_open_into := fun _ size => (0, size)
  fdt_pack := fun b => (0, b)
  fdt_totalsize := fun b => b

/-- An environment around a library and a template: no crash region, entropy
ready, every draw is `seed`, every allocation succeeds, the allocator places
each buffer 1 GiB above its `buf_min`, one memory range. -/
def envOf {β : Type} (L : FdtLib β) (template : β) (seed : Nat) : kexec_env β where
  fdt := L
  initial_boot_params := template
  crashk_res := { start := 0, end_ := 0 }
  random_ready := 1
  get_random_bytes := fun _ => seed
  vmalloc := fun _ _ => true
  kexec_locate_mem_hole := fun _ kbuf => (0, kbuf.buf_min + SZ_1G)
  MIN_KIMG_ALIGN := SZ_2M
  memblock_memory := [(0, 0x80000000)]
  kmalloc := fun _ => true
  crash_exclude_mem_range := fun cmem _ _ => (0, cmem)
  crash_prepare_elf64_headers := fun _ _ => (0, [], 0)

/-- An image of the given type with no segment yet. -/
def kimage_empty (β : Type) (type : Nat) : kimage β where
  type := type
  start := 0
  segment := []
  arch := { dtb := none, dtb_mem := 0, elf_headers := none, elf_headers_mem := 0,
            elf_headers_sz := 0 }

/-- Modelled from the spec: the "get-or-set / delete-property" operations of
the external hardware-description library (libfdt, scripts/dtc/libfdt, not
under src/), which the spec treats as trusted.  A successful set makes the
property read back as the value and leaves the other properties of the node
and the root cell counts alone; a successful delete removes the property and
leaves the others alone; a delete that reports not-found changes nothing and
the property is indeed absent. -/
structure FdtLaws {β : Type} (L : FdtLib β) : Prop where
  setprop_get : ∀ b n name v b1, L.fdt_setprop b n name v = (0, b1) →
    L.fdt_getprop b1 n name = some v
  setprop_other : ∀ b n name v b1 other, L.fdt_setprop b n name v = (0, b1) →
    other ≠ name → L.fdt_getprop b1 n other = L.fdt_getprop b n other
  setprop_cells : ∀ b n name v b1, L.fdt_setprop b n name v = (0, b1) →
    name ≠ "#address-cells" → name ≠ "#size-cells" →
    L.fdt_address_cells b1 0 = L.fdt_address_cells b 0 ∧
    L.fdt_size_cells b1 0 = L.fdt_size_cells b 0
  delprop_get : ∀ b n name b1, L.fdt_delprop b n name = (0, b1) →
    L.fdt_getprop b1 n name = none
  delprop_other : ∀ b n name b1 other, L.fdt_delprop b n name = (0, b1) →
    other ≠ name → L.fdt_getprop b1 n other = L.fdt_getprop b n other
  delprop_notfound : ∀ b n name b1, L.fdt_delprop b n name = (-FDT_ERR_NOTFOUND, b1) →
    b1 = b ∧ L.fdt_getprop b n name = none

/-- A header with a non-zero `image_size` (the byte at offset 16 is 1) and a
magic field of four zero bytes. -/
def hdr_size1_nomagic : Mem := fun i => if i = 16 then 1 else 0

/-- A header with `text_offset` 0x80000, `image_size` 0x10000 and the magic
`"ARM\x64"`. -/
def hdr_good : Mem := fun i =>
  if i = 10 then 0x08 else if i = 18 then 0x01
  else if i = 56 then 0x41 else if i = 57 then 0x52 else if i = 58 then 0x4d
  else if i = 59 then 0x64 else 0

/-- A reference environment: `refLib`, a template with an empty /chosen node
and total size 0x100, every draw is 7. -/
def refEnv : kexec_env RefFdt := envOf refLib { chosen := [], totalsize := 0x100 } 7

/-- A template whose /chosen node has an old bootargs and an old kaslr-seed. -/
def ref_template : RefFdt :=
  { chosen := [("bootargs", [0x6f, 0x6c, 0x64, 0]), ("kaslr-seed", [1, 2, 3, 4, 5, 6, 7, 8])],
    totalsize := 0x2000 }

/-- A crash image whose elf core header was placed at 0x50000000 and is
0x1000 bytes long. -/
def ref_image_crash : kimage RefFdt :=
  { type := KEXEC_TYPE_CRASH, start := 0, segment := [],
    arch := { dtb := none, dtb_mem := 0, elf_headers := some [], elf_headers_mem := 0x50000000,
              elf_headers_sz := 0x1000 } }

/-- A reserved crash region of 128 MiB at 0x60000000. -/
def ref_crashk_res : resource := { start := 0x60000000, end_ := 0x67ffffff }

/-- What `setup_dtb` makes of `ref_template` for `ref_image_crash`,
`ref_crashk_res`, entropy ready with draw 7, an initrd of 0x1000 bytes at
0x48000000 and the command line "a". -/
def ref_patched : RefFdt :=
  { chosen := [("kaslr-seed", [0, 0, 0, 0, 0, 0, 0, 7]),
               ("linux,initrd-end", [0, 0, 0, 0, 72, 0, 16, 0]),
               ("linux,initrd-start", [0, 0, 0, 0, 72, 0, 0, 0]),
               ("bootargs", [97, 0]),
               ("linux,usable-memory-range", [0, 0, 0, 0, 96, 0, 0, 0, 0, 0, 0, 0, 8, 0, 0, 0]),
               ("linux,elfcorehdr", [0, 0, 0, 0, 80, 0, 0, 0, 0, 0, 0, 0, 0, 0, 16, 0])],
    totalsize := 0x2000 }

/-- A load state with an empty image of the given type and no call made. -/
def state_empty (β : Type) (type : Nat) : LoadState β where
  image := kimage_empty β type
  requests := []

/-- The state `s1` comes from `s` by the `kexec_add_buffer` calls `new`: the
calls are appended to the log, one segment is appended per successful call,
and the type and the entry address of the image are untouched. -/
structure Grows {β : Type} (s s1 : LoadState β) (new : List (kexec_buf × Int)) : Prop where
  requests : s1.requests = s.requests ++ new
  start : s1.image.start = s.image.start
  type : s1.image.type = s.image.type
  segment : ∃ segs, s1.image.segment = s.image.segment ++ segs ∧
    segs.length = (new.filter (fun q => decide (q.2 = 0))).length

/-- The calls `new` made by a block of `setup_dtb` account for the value
`code` it hands on: a failing call is the last one and `code` is its error;
if no call fails, `code` is 0. -/
def SetupTrace (new : List SetupCall) (code : Int) : Prop :=
  (∀ pre c post, new = pre ++ c :: post → c.fails = true → post = [] ∧ code = c.errno) ∧
  ((∀ c ∈ new, c.fails = false) → code = 0)

/-- Attempt number `n` of `create_dtb`, made with buffer size `buf_size`,
takes the retry branch of line 187: `vmalloc` returns a buffer, the template
is cloned into it and `setup_dtb` returns `-ENOMEM`. -/
def AttemptNoSpace {β : Type} (E : kexec_env β) (image : kimage β)
    (initrd_load_addr initrd_len : Nat) (cmdline : Option (List Nat)) (n buf_size : Nat) :
    Prop :=
  E.vmalloc n buf_size = true ∧
  (E.fdt.fdt_open_into E.initial_boot_params buf_size).1 = 0 ∧
  ∃ b, setup_dtb E.fdt.ops image E.crashk_res E.random_ready (E.get_random_bytes n)
    initrd_load_addr initrd_len cmdline
    (E.fdt.fdt_open_into E.initial_boot_params buf_size).2 = some (-ENOMEM, b)

/-- A failed call in `new` is the last one of `new`, and then its error is
what was returned. -/
def FailFast (new : List (kexec_buf × Int)) (out : Res Int) : Prop :=
  ∀ pre q post, new = pre ++ q :: post → q.2 ≠ 0 → post = [] ∧ out = Res.ret q.2

/-! ## machine_kexec.c: the page list -/

/-- Modelled from the spec: errno `EBUSY`; the value is the one of
`errno-base.h`, which is not under src/. -/
def EBUSY : Int := 16

/-- Modelled from the spec: the role tag "destination" of a page-list entry;
the value is the one of `linux/kexec.h`, which is not under src/. -/
def IND_DESTINATION : Nat := 0x1

/-- Modelled from the spec: the role tag "indirection"; value as in
`linux/kexec.h`, not under src/. -/
def IND_INDIRECTION : Nat := 0x2

/-- Modelled from the spec: the role tag "done"; value as in `linux/kexec.h`,
not under src/. -/
def IND_DONE : Nat := 0x4

/-- Modelled from the spec: the role tag "source"; value as in
`linux/kexec.h`, not under src/. -/
def IND_SOURCE : Nat := 0x8

/-- Modelled from the spec: the mask of the four role tags, as `linux/kexec.h`
(not under src/) defines it. -/
def IND_FLAGS : Nat := IND_DESTINATION ||| IND_INDIRECTION ||| IND_DONE ||| IND_SOURCE

/-- The size of a `kimage_entry_t` (an `unsigned long`). -/
def sizeof_kimage_entry_t : Nat := 8

/-- What the page-list traversals read, as parameters.
* `PAGE_SHIFT`, `phys_to_virt`: the constant of `asm/page.h` and the address
  translation of `asm/memory.h`, which are not under src/;
* `head`: the address `&kimage->head`, where both traversals start;
* `load`: the `kimage_entry_t` stored at an address, `*entry`. -/
structure kexec_list where
  PAGE_SHIFT : Nat
  phys_to_virt : Nat → Nat
  head : Nat
  load : Nat → Nat

/-- The value of `PAGE_SIZE`, `1UL << PAGE_SHIFT`. -/
def kexec_list.PAGE_SIZE (M : kexec_list) : Nat := 2 ^ M.PAGE_SHIFT

/-- The value of `PAGE_MASK`, `~(PAGE_SIZE - 1)` in 64 bits. -/
def kexec_list.PAGE_MASK (M : kexec_list) : Nat := 2 ^ 64 - M.PAGE_SIZE

/-- The local `flag` of both traversals: `*entry & IND_FLAGS`. -/
def kexec_list.flag (M : kexec_list) (entry : Nat) : Nat := M.load entry &&& IND_FLAGS

/-- The local `addr` of both traversals: `phys_to_virt(*entry & PAGE_MASK)`,
a 64-bit pointer. -/
def kexec_list.addr (M : kexec_list) (entry : Nat) : Nat :=
  M.phys_to_virt (M.load entry &&& M.PAGE_MASK) % 2 ^ 64

/-- How a run ends: the function returns, it hits the `BUG()` or `BUG_ON()`
of the given source line, or the embedding runs out of fuel. -/
inductive Halt (α : Type) where
  | ret (a : α)
  | bug (line : Nat)
  | fuel
deriving DecidableEq, Repr

/-- One call `cb(ctx, flag, addr, dest)` of the visitor; `NULL` is 0. -/
structure cb_call where
  flag : Nat
  addr : Nat
  dest : Nat
deriving DecidableEq, Repr

/-- The loop of `kexec_list_walk`, machine_kexec.c:162-185, entered with the
pointer `entry` and the copy target `dest`.  Every iteration is recorded with
the pointer it reads and the call of `cb` it makes (`none` in the `default`
case).  `entry = (kimage_entry_t *)addr - 1` followed by the `entry++` of the
loop header is `u64_add (u64_sub addr 8) 8`. -/
def kexec_list_walk_loop (M : kexec_list) :
    Nat → Nat → Nat → List (Nat × Option cb_call) × Halt Unit
  | 0, _, _ => ([], Halt.fuel)
  | fuel + 1, entry, dest =>
    let flag := M.flag entry
    let addr := M.addr entry
    if flag = IND_INDIRECTION then
      let r := kexec_list_walk_loop M fuel
        (u64_add (u64_sub addr sizeof_kimage_entry_t) sizeof_kimage_entry_t) dest
      ((entry, some { flag := flag, addr := addr, dest := 0 }) :: r.1, r.2)
    else if flag = IND_DESTINATION then
      let r := kexec_list_walk_loop M fuel (u64_add entry sizeof_kimage_entry_t) addr
      ((entry, some { flag := flag, addr := addr, dest := 0 }) :: r.1, r.2)
    else if flag = IND_SOURCE then
      let r := kexec_list_walk_loop M fuel (u64_add entry sizeof_kimage_entry_t)
        (u64_add dest M.PAGE_SIZE)
      ((entry, some { flag := flag, addr := addr, dest := dest }) :: r.1, r.2)
    else if flag = IND_DONE then
      ([(entry, some { flag := flag, addr := 0, dest := 0 })], Halt.ret ())
    else
      let r := kexec_list_walk_loop M fuel (u64_add entry sizeof_kimage_entry_t) dest
      ((entry, none) :: r.1, r.2)

/-- The function `kexec_list_walk` of machine_kexec.c:156-186: the iterations
made from `&kimage->head` with `dest = NULL`, and how the walk ends. -/
def kexec_list_walk (M : kexec_list) (fuel : Nat) : List (Nat × Option cb_call) × Halt Unit :=
  kexec_list_walk_loop M fuel M.head 0

/-- One cache maintenance call of machine_kexec.c, by call site:
* `entry p`: `__flush_dcache_area(entry, sizeof(kimage_entry_t))`, line 343;
* `page a`: `__flush_dcache_area(addr, PAGE_SIZE)`, line 358;
* `segment a n`: `__flush_dcache_area(phys_to_virt(mem), memsz)`, line 385;
* `reboot_code a n`: `__flush_dcache_area(reboot_code_buffer, size)`, line 440;
* `icache a n`: `flush_icache_range(reboot_code_buffer, size)`, line 447. -/
inductive cache_flush where
  | entry (p : Nat)
  | page (a : Nat)
  | segment (a n : Nat)
  | reboot_code (a n : Nat)
  | icache (a n : Nat)
deriving DecidableEq, Repr

/-- The loop of `kexec_list_flush`, machine_kexec.c:338-365, entered with the
pointer `entry`: the flush calls made, oldest first, and how the loop ends
(`BUG()` of line 363 in the `default` case). -/
def kexec_list_flush_loop (M : kexec_list) : Nat → Nat → List cache_flush × Halt Unit
  | 0, _ => ([], Halt.fuel)
  | fuel + 1, entry =>
    let flag := M.flag entry
    if flag = IND_DONE then
      ([cache_flush.entry entry], Halt.ret ())
    else
      let addr := M.addr entry
      if flag = IND_INDIRECTION then
        let r := kexec_list_flush_loop M fuel
          (u64_add (u64_sub addr sizeof_kimage_entry_t) sizeof_kimage_entry_t)
        (cache_flush.entry entry :: r.1, r.2)
      else if flag = IND_SOURCE then
        let r := kexec_list_flush_loop M fuel (u64_add entry sizeof_kimage_entry_t)
        (cache_flush.entry entry :: cache_flush.page addr :: r.1, r.2)
      else if flag = IND_DESTINATION then
        let r := kexec_list_flush_loop M fuel (u64_add entry sizeof_kimage_entry_t)
        (cache_flush.entry entry :: r.1, r.2)
      else
        ([cache_flush.entry entry], Halt.bug 363)

/-- The function `kexec_list_flush` of machine_kexec.c:334-366. -/
def kexec_list_flush (M : kexec_list) (fuel : Nat) : List cache_flush × Halt Unit :=
  kexec_list_flush_loop M fuel M.head

/-- The list entries a run of `kexec_list_flush` has flushed, that is the
entries it has visited, in order. -/
def flushed_entries : List cache_flush → List Nat
  | [] => []
  | cache_flush.entry p :: l => p :: flushed_entries l
  | _ :: l => flushed_entries l

/-- The pages a run of `kexec_list_flush` has flushed, in order. -/
def flushed_pages : List cache_flush → List Nat
  | [] => []
  | cache_flush.page a :: l => a :: flushed_pages l
  | _ :: l => flushed_pages l

/-- The traversal contract of the page list: `Path M entry l` says that `l`
lists the pointers of the entries from `entry` up to and including the first
done entry, where an indirection entry is followed by the first entry of the
page it links to and any other entry by the next entry in memory. -/
def Path (M : kexec_list) : Nat → List Nat → Prop
  | _, [] => False
  | entry, p :: l =>
    p = entry ∧
    if M.flag entry = IND_DONE then l = []
    else if M.flag entry = IND_INDIRECTION then Path M (M.addr entry) l
    else Path M (u64_add entry sizeof_kimage_entry_t) l

/-- A well-formed page list: the entries from the head up to the done entry
are `l` and each of them carries exactly one role. -/
def WellFormed (M : kexec_list) (l : List Nat) : Prop :=
  Path M M.head l ∧
  ∀ p ∈ l, M.flag p = IND_DESTINATION ∨ M.flag p = IND_INDIRECTION ∨ M.flag p = IND_DONE ∨
    M.flag p = IND_SOURCE

/-- Spec side, "the k-th source after a destination D is reported with target
D + k*PAGE_SIZE": the copy target once the entries `pre` have been visited,
where `D` is the address of the last destination entry of `pre` (`NULL` when
there is none) and `k` the number of source entries after it. -/
def copy_target_spec (M : kexec_list) (pre : List Nat) : Nat :=
  let after := pre.reverse.takeWhile (fun p => decide (M.flag p ≠ IND_DESTINATION))
  let D := match pre.reverse.dropWhile (fun p => decide (M.flag p ≠ IND_DESTINATION)) with
    | [] => 0
    | d :: _ => M.addr d
  let k := after.countP (fun p => decide (M.flag p = IND_SOURCE))
  (D + k * M.PAGE_SIZE) % 2 ^ 64

/-- Spec side: what the visitor is told about the entry at `p` once the
entries `pre` have been visited: the role and the address of the entry, and
for a source entry the current copy target; nothing for an entry that carries
no single role. -/
def visit_spec (M : kexec_list) (pre : List Nat) (p : Nat) : Option cb_call :=
  if M.flag p = IND_DESTINATION then
    some { flag := IND_DESTINATION, addr := M.addr p, dest := 0 }
  else if M.flag p = IND_SOURCE then
    some { flag := IND_SOURCE, addr := M.addr p, dest := copy_target_spec M pre }
  else if M.flag p = IND_INDIRECTION then
    some { flag := IND_INDIRECTION, addr := M.addr p, dest := 0 }
  else if M.flag p = IND_DONE then
    some { flag := IND_DONE, addr := 0, dest := 0 }
  else none

/-- Spec side: the reports for the entries `l`, visited in this order after
the entries `pre`. -/
def walk_spec (M : kexec_list) : List Nat → List Nat → List (Nat × Option cb_call)
  | _, [] => []
  | pre, p :: l => (p, visit_spec M pre p) :: walk_spec M (pre ++ [p]) l

/-- The number of entries of a walk that were reported to the visitor with
the role `flag`. -/
def visits (flag : Nat) (trace : List (Nat × Option cb_call)) : Nat :=
  trace.countP (fun it => decide (it.2.map cb_call.flag = some flag))

/-- The flush calls the contract asks for on the entries `l`: each entry
itself, and after a source entry the page it names. -/
def flush_spec (M : kexec_list) : List Nat → List cache_flush
  | [] => []
  | p :: l =>
    if M.flag p = IND_SOURCE then
      cache_flush.entry p :: cache_flush.page (M.addr p) :: flush_spec M l
    else cache_flush.entry p :: flush_spec M l

/-- A page list whose head entry carries no role and is followed by a done
entry; pages of 4 KiB, identity address translation, head at 0x1000. -/
def list_norole : kexec_list where
  PAGE_SHIFT := 12
  phys_to_virt := fun a => a
  head := 0x1000
  load := fun p => if p = 0x1008 then IND_DONE else 0

/-- A well-formed page list with one indirection: the head page at 0x1000
holds a destination entry for 0x80000 and a link to the page at 0x3000, which
holds two source entries (pages 0x5000 and 0x6000) and the done entry. -/
def list_two_pages : kexec_list where
  PAGE_SHIFT := 12
  phys_to_virt := fun a => a
  head := 0x1000
  load := fun p =>
    if p = 0x1000 then 0x80001 else if p = 0x1008 then 0x3002
    else if p = 0x3000 then 0x5008 else if p = 0x3008 then 0x6008
    else if p = 0x3010 then 0x4 else 0

/-- Whether `l` is the path from `entry` can be computed. -/
instance Path.decidable (M : kexec_list) : (entry : Nat) → (l : List Nat) →
    Decidable (Path M entry l)
  | _, [] => isFalse (fun h => h)
  | entry, p :: l =>
    have _i1 : Decidable (Path M (M.addr entry) l) := Path.decidable M _ l
    have _i2 : Decidable (Path M (u64_add entry sizeof_kimage_entry_t) l) :=
      Path.decidable M _ l
    decidable_of_iff
      (p = entry ∧
        if M.flag entry = IND_DONE then l = []
        else if M.flag entry = IND_INDIRECTION then Path M (M.addr entry) l
        else Path M (u64_add entry sizeof_kimage_entry_t) l) Iff.rfl

/-- Whether a page list is well formed along `l` can be computed. -/
instance WellFormed.decidable (M : kexec_list) (l : List Nat) : Decidable (WellFormed M l) :=
  inferInstanceAs (Decidable (Path M M.head l ∧
    ∀ p ∈ l, M.flag p = IND_DESTINATION ∨ M.flag p = IND_INDIRECTION ∨ M.flag p = IND_DONE ∨
      M.flag p = IND_SOURCE))

/-! ## machine_kexec.c: prepare, hand-off, crash region -/

/-- Modelled from the spec: the magic number of a flattened device tree,
`OF_DT_HEADER` of `linux/of_fdt.h`, which is not under src/. -/
def OF_DT_HEADER : Nat := 0xd00dfeed

/-- User-space access (`linux/uaccess.h`, not under src/), as parameters:
`copy_from_user buf` is what the copy of a header from the user pointer `buf`
yields and `get_user buf` what the read of the first word at `buf` yields,
`none` when the access fails. -/
structure uaccess where
  copy_from_user : Buffer → Option Mem
  get_user : Buffer → Option Mem

/-- The function `kexec_is_kernel` of machine_kexec.c:58-81. -/
def kexec_is_kernel (U : uaccess) (image : Buffer) : Bool :=
  match U.copy_from_user image with
  | none => false
  | some m =>
    let h := header_of m
    if h.text_offset = 0 then false
    else decide (h.magic = [0x41, 0x52, 0x4d, 0x64])

/-- The loop of `kexec_find_kernel_seg`, machine_kexec.c:91-96, over the
segments not yet looked at. -/
def kexec_find_kernel_seg_loop (U : uaccess) : List kexec_segment → Halt kexec_segment
  | [] => Halt.bug 96
  | s :: rest =>
    if kexec_is_kernel U s.kbuf = true then Halt.ret s else kexec_find_kernel_seg_loop U rest

/-- The function `kexec_find_kernel_seg` of machine_kexec.c:86-98. -/
def kexec_find_kernel_seg {β : Type} (U : uaccess) (image : kimage β) : Halt kexec_segment :=
  kexec_find_kernel_seg_loop U image.segment

/-- The function `kexec_is_dtb` of machine_kexec.c:103-111. -/
def kexec_is_dtb (U : uaccess) (dtb_buf : Buffer) : Bool :=
  match U.get_user dtb_buf with
  | none => false
  | some m => decide (be_to_cpu (bytes_at m 0 4) = OF_DT_HEADER)

/-- The loop of `kexec_find_dtb_seg`, machine_kexec.c:121-126. -/
def kexec_find_dtb_seg_loop (U : uaccess) : List kexec_segment → Halt kexec_segment
  | [] => Halt.bug 126
  | s :: rest =>
    if kexec_is_dtb U s.kbuf = true then Halt.ret s else kexec_find_dtb_seg_loop U rest

/-- The function `kexec_find_dtb_seg` of machine_kexec.c:116-128. -/
def kexec_find_dtb_seg {β : Type} (U : uaccess) (image : kimage β) : Halt kexec_segment :=
  kexec_find_dtb_seg_loop U image.segment

/-- The `struct bypass` of machine_kexec.c:130-133. -/
structure bypass where
  kernel : Nat
  dtb : Nat
deriving DecidableEq, Repr

/-- The function `fill_bypass` of machine_kexec.c:135-150: the value it leaves
in the global `bypass`, or the `BUG()` it stops in. -/
def fill_bypass {β : Type} (U : uaccess) (image : kimage β) : Halt bypass :=
  match kexec_find_kernel_seg U image with
  | Halt.bug n => Halt.bug n
  | Halt.fuel => Halt.fuel
  | Halt.ret seg =>
    if seg.mem = 0 then Halt.bug 140
    else
      match kexec_find_dtb_seg U image with
      | Halt.bug n => Halt.bug n
      | Halt.fuel => Halt.fuel
      | Halt.ret seg2 =>
        if seg2.mem = 0 then Halt.bug 144
        else Halt.ret { kernel := seg.mem, dtb := seg2.mem }

/-- The globals `machine_kexec_prepare` writes. -/
structure prepare_globals where
  kimage_start : Nat
  bypass : bypass
deriving DecidableEq, Repr

/-- The function `machine_kexec_prepare` of machine_kexec.c:316-328: its `int`
result and the globals it has written.  `cpus_are_stuck_in_kernel` is the
result of the function of this name (`asm/smp.h`, not under src/). -/
def machine_kexec_prepare {β : Type} (U : uaccess) (cpus_are_stuck_in_kernel : Bool)
    (image : kimage β) : Halt (Int × prepare_globals) :=
  match fill_bypass U image with
  | Halt.bug n => Halt.bug n
  | Halt.fuel => Halt.fuel
  | Halt.ret b =>
    if image.type ≠ KEXEC_TYPE_CRASH ∧ cpus_are_stuck_in_kernel = true then
      Halt.ret (-EBUSY, { kimage_start := image.start, bypass := b })
    else
      Halt.ret (0, { kimage_start := image.start, bypass := b })

/-- The function `kexec_segment_flush` of machine_kexec.c:371-388 for the
page list parameters `M`: one flush per segment. -/
def kexec_segment_flush {β : Type} (M : kexec_list) (image : kimage β) : List cache_flush :=
  image.segment.map (fun s => cache_flush.segment (M.phys_to_virt s.mem % 2 ^ 64) s.memsz)

/-- What `machine_kexec` reads besides the image and its page list, as
parameters: the number of online CPUs, the global `in_crash_kexec`, the
physical and the mapped address of `kimage->control_code_page`, the size of
the relocation routine, and whether `cpu_soft_restart` (cpu-reset.h, not
under src/) comes back to its caller. -/
structure handoff_env where
  num_online_cpus : Nat
  in_crash_kexec : Bool
  reboot_code_buffer_phys : Nat
  reboot_code_buffer : Nat
  arm64_relocate_new_kernel_size : Nat
  cpu_soft_restart_returns : Bool

/-- What a run of `machine_kexec` does: the `pr_warn` calls of line 402 (with
the number of CPUs printed), the cache maintenance calls, and how it ends;
`Halt.ret (entry, arg0, arg1, arg2)` stands for the call of `cpu_soft_restart`
with these arguments, from which control does not come back. -/
structure handoff where
  warned : List Nat
  flushed : List cache_flush
  halt : Halt (Nat × Nat × Nat × Nat)
deriving DecidableEq, Repr

/-- Lines 408-482 of `machine_kexec`: the dump of the page list
(`kexec_list_dump` is a `kexec_list_walk`, as `DEBUG` is defined in line 11),
the copy and flush of the relocation routine, `kexec_list_flush`, the segment
flush when the head entry has the done bit, then `cpu_soft_restart`. -/
def machine_kexec_handoff {β : Type} (H : handoff_env) (M : kexec_list) (image : kimage β)
    (fuel : Nat) : handoff :=
  match (kexec_list_walk M fuel).2 with
  | Halt.bug n => { warned := [], flushed := [], halt := Halt.bug n }
  | Halt.fuel => { warned := [], flushed := [], halt := Halt.fuel }
  | Halt.ret _ =>
    let code := [cache_flush.reboot_code H.reboot_code_buffer H.arm64_relocate_new_kernel_size,
      cache_flush.icache H.reboot_code_buffer H.arm64_relocate_new_kernel_size]
    let f := kexec_list_flush M fuel
    match f.2 with
    | Halt.bug n => { warned := [], flushed := code ++ f.1, halt := Halt.bug n }
    | Halt.fuel => { warned := [], flushed := code ++ f.1, halt := Halt.fuel }
    | Halt.ret _ =>
      let segs := if M.load M.head &&& IND_DONE ≠ 0 then kexec_segment_flush M image else []
      { warned := []
        flushed := code ++ f.1 ++ segs
        halt :=
          if H.cpu_soft_restart_returns = true then Halt.bug 482
          else Halt.ret (H.reboot_code_buffer_phys, M.load M.head, image.start,
            image.arch.dtb_mem) }

/-- The function `machine_kexec` of machine_kexec.c:395-483. -/
def machine_kexec {β : Type} (H : handoff_env) (M : kexec_list) (image : kimage β)
    (fuel : Nat) : handoff :=
  if H.num_online_cpus > 1 then
    if H.in_crash_kexec = true then
      { machine_kexec_handoff H M image fuel with warned := [H.num_online_cpus] }
    else
      { warned := [], flushed := [], halt := Halt.bug 405 }
  else
    machine_kexec_handoff H M image fuel

/-- The value of `__pfn_to_phys(pfn)`, `(phys_addr_t)pfn << PAGE_SHIFT` in 64
bits. -/
def pfn_to_phys (PAGE_SHIFT pfn : Nat) : Nat := (pfn * 2 ^ PAGE_SHIFT) % 2 ^ 64

/-- The loop of `crash_is_nosave`, machine_kexec.c:623-629, over the segments
not yet looked at; `mem + memsz` is a 64-bit sum. -/
def crash_is_nosave_loop (addr : Nat) : List kexec_segment → Bool
  | [] => true
  | s :: rest =>
    if s.mem ≤ addr ∧ addr < u64_add s.mem s.memsz then false
    else crash_is_nosave_loop addr rest

/-- The function `crash_is_nosave` of machine_kexec.c:606-630.  `PAGE_SHIFT`
is the constant of `asm/page.h`; `crashk_res` and `kexec_crash_image` are the
globals of these names, the latter `none` when no crash image is loaded. -/
def crash_is_nosave {β : Type} (PAGE_SHIFT : Nat) (crashk_res : resource)
    (kexec_crash_image : Option (kimage β)) (pfn : Nat) : Bool :=
  if crashk_res.end_ = 0 then false
  else
    let addr := pfn_to_phys PAGE_SHIFT pfn
    if addr < crashk_res.start ∨ crashk_res.end_ < addr then false
    else
      match kexec_crash_image with
      | none => true
      | some image => crash_is_nosave_loop addr image.segment

/-- A device-tree library like `refLib` whose root node has `ac` address
cells and `sc` size cells. -/
def cellsLib (ac sc : Int) : FdtLib RefFdt :=
  { refLib with fdt_address_cells := fun _ _ => ac, fdt_size_cells := fun _ _ => sc }

/-- A hand-off in the crash path with two CPUs online; the control code page
is at 0x9000 (mapped at the same address) and `cpu_soft_restart` does not
return. -/
def ref_handoff_env : handoff_env where
  num_online_cpus := 2
  in_crash_kexec := true
  reboot_code_buffer_phys := 0x9000
  reboot_code_buffer := 0x9000
  arm64_relocate_new_kernel_size := 0x100
  cpu_soft_restart_returns := false

/-- User memory in which the kernel buffer holds `hdr_good` and the device
tree buffer starts with the bytes d0 0d fe ed; other buffers cannot be
read. -/
def ref_uaccess : uaccess where
  copy_from_user := fun b => if b = Buffer.kernel then some hdr_good else none
  get_user := fun b =>
    if b = Buffer.dtb then
      some (fun i => if i = 0 then 0xd0 else if i = 1 then 0x0d else if i = 2 then 0xfe
        else if i = 3 then 0xed else 0)
    else none

/-- An image with a kernel segment at 0x40080000 and a device tree segment at
0x48000000. -/
def ref_image_loaded : kimage RefFdt :=
  { type := KEXEC_TYPE_DEFAULT, start := 0x40080000,
    segment := [{ kbuf := Buffer.kernel, bufsz := 0x10000, mem := 0x40080000, memsz := 0x10000 },
                { kbuf := Buffer.dtb, bufsz := 0x100, mem := 0x48000000, memsz := 0x100 }],
    arch := { dtb := none, dtb_mem := 0x48000000, elf_headers := none, elf_headers_mem := 0,
              elf_headers_sz := 0 } }

/-! ## The page list: encoding (spec side) -/

/-- Modelled from the spec: the entries `encode` makes for one-page segments,
"for each segment, appends a destination entry for its final address followed
by one source entry per page of staged data"; a segment is given as its final
address and the address of its staged page.  The encoder of the kernel
(kernel/kexec_core.c) is not under src/. -/
def segment_entries : List (Nat × Nat) → List Nat
  | [] => []
  | s :: rest => (s.1 ||| IND_DESTINATION) :: (s.2 ||| IND_SOURCE) :: segment_entries rest

/-- Modelled from the spec: the layout `encode` gives the entries `es` in list
pages of `cap` entries, from slot `slot` of the list page at address `page`
on: "when the list itself grows past one page, an indirection entry links to
a freshly allocated page to continue the list; terminates with one done
entry".  The last slot of a page is used for the link when entries are still
to come; `fresh` are the physical addresses of the pages the allocator hands
out.  The result lists the words stored, in list order, and is `none` when
"the allocator [is] running out of list pages".  The encoder of the kernel
(kernel/kexec_core.c) is not under src/. -/
def encode_pages (phys_to_virt : Nat → Nat) (cap : Nat) :
    Nat → Nat → List Nat → List Nat → Option (List (Nat × Nat))
  | page, slot, _, [] => some [(page + sizeof_kimage_entry_t * slot, IND_DONE)]
  | page, slot, fresh, e :: es =>
    if slot + 1 < cap then
      (encode_pages phys_to_virt cap page (slot + 1) fresh es).map
        (fun r => (page + sizeof_kimage_entry_t * slot, e) :: r)
    else
      match fresh with
      | [] => none
      | pg :: fresh1 =>
        (encode_pages phys_to_virt cap (phys_to_virt pg) 1 fresh1 es).map
          (fun r => (page + sizeof_kimage_entry_t * slot, pg ||| IND_INDIRECTION) ::
            (phys_to_virt pg, e) :: r)

/-- Modelled from the spec: `encode(segments, staging_buffers) -> page-list`
for one-page segments, into a list whose first page is the one `M.head`
points to; a list page holds `PAGE_SIZE / sizeof(kimage_entry_t)` entries. -/
def encode (M : kexec_list) (segs : List (Nat × Nat)) (fresh : List Nat) :
    Option (List (Nat × Nat)) :=
  encode_pages M.phys_to_virt (M.PAGE_SIZE / sizeof_kimage_entry_t) M.head 0 fresh
    (segment_entries segs)

/-- The memory that holds the words `stores` and zero elsewhere, as a page
list with identity address translation. -/
def list_of_stores (PAGE_SHIFT head : Nat) (stores : List (Nat × Nat)) : kexec_list where
  PAGE_SHIFT := PAGE_SHIFT
  phys_to_virt := fun a => a
  head := head
  load := fun p =>
    match stores.find? (fun pv => decide (pv.1 = p)) with
    | some pv => pv.2
    | none => 0

/-- Two one-page segments encoded into the list page at 0x1000 (pages of
4 KiB): no link is needed. -/
def list_encoded_small : kexec_list :=
  list_of_stores 12 0x1000
    [(0x1000, 0x80001), (0x1008, 0x5008), (0x1010, 0x81001), (0x1018, 0x6008), (0x1020, 0x4)]

/-- One one-page segment encoded with list pages of two entries (pages of 16
bytes) at 0x100 and 0x200: the first page ends with a link. -/
def list_encoded_linked : kexec_list :=
  list_of_stores 4 0x100 [(0x100, 0x80001), (0x108, 0x202), (0x200, 0x5008), (0x208, 0x4)]

/-! ## Crash memory ranges: exclusion (spec side) -/

/-- Modelled from the spec: what is left of the ranges (inclusive ends) once
the region `[mstart, mend]` is taken out, "split or truncation depending on
overlap geometry": a range that does not meet the region stays, of a range
that meets it the part below `mstart` and the part above `mend` stay, when
there are any. -/
def exclude_range (mstart mend : Nat) : List crash_mem_range → List crash_mem_range
  | [] => []
  | r :: rest =>
    if mend < r.start ∨ r.end_ < mstart then r :: exclude_range mstart mend rest
    else
      (if r.start < mstart then [{ start := r.start, end_ := mstart - 1 }] else []) ++
      (if mend < r.end_ then [{ start := mend + 1, end_ := r.end_ }] else []) ++
      exclude_range mstart mend rest

/-- Modelled from the spec: `crash_exclude_mem_range` of kernel/kexec_file.c,
which is not under src/: it "excludes the reserved crash region from that
set"; the table is "capped at a pre-declared maximum range count", so a
result that does not fit the declared capacity is an out-of-memory error and
leaves the table alone. -/
def crash_exclude_mem_range (cmem : crash_mem) (mstart mend : Nat) : Int × crash_mem :=
  if cmem.max_nr_ranges < (exclude_range mstart mend cmem.ranges).length then (-ENOMEM, cmem)
  else (0, { cmem with ranges := exclude_range mstart mend cmem.ranges })

/-- The live range `[start, end)` as the inclusive range `[start, end - 1]`. -/
def inclusive (r : Nat × Nat) : crash_mem_range := { start := r.1, end_ := r.2 - 1 }

/-- An environment for `prepare_elf_headers` with the live ranges `[0, 1000)`
and `[2000, 3000)`, the reserved region `[500, 700)`, the exclusion of the
spec, and a header builder that returns the bounds of the ranges it is given
and their number. -/
def rangeEnv : kexec_env RefFdt :=
  { refEnv with
    crashk_res := { start := 500, end_ := 699 }
    memblock_memory := [(0, 1000), (2000, 3000)]
    crash_exclude_mem_range := crash_exclude_mem_range
    crash_prepare_elf64_headers := fun cmem _ =>
      (0, (cmem.ranges.map (fun r => [r.start, r.end_])).flatten, cmem.ranges.length) }

/-! ## Two builds that differ in the random draw -/

/-- Modelled from the spec: further behaviour of the trusted external
hardware-description library (libfdt, not under src/) when a value is
written: the result code of a set depends on the blob, the node, the name and
the length of the value, not on its bytes; two successful sets of values of
equal length at the same place of the same blob give blobs that differ at
most in that property; packing ("compacts the blob") changes no property. -/
structure FdtValueLaws {β : Type} (L : FdtLib β) : Prop where
  setprop_code : ∀ b n name v w, v.length = w.length →
    (L.fdt_setprop b n name v).1 = (L.fdt_setprop b n name w).1
  setprop_frame : ∀ b n name v w node other, v.length = w.length →
    (L.fdt_setprop b n name v).1 = 0 → (node ≠ n ∨ other ≠ name) →
    L.fdt_getprop (L.fdt_setprop b n name v).2 node other =
      L.fdt_getprop (L.fdt_setprop b n name w).2 node other
  pack_getprop : ∀ b node name,
    L.fdt_getprop (L.fdt_pack b).2 node name = L.fdt_getprop b node name

/-- Two blobs with the same set of properties and the same value for every
property but kaslr-seed. -/
def AgreeButSeed {β : Type} (L : FdtLib β) (b1 b2 : β) : Prop :=
  (∀ node name, (L.fdt_getprop b1 node name).isSome = (L.fdt_getprop b2 node name).isSome) ∧
  (∀ node name, name ≠ FDT_PSTR_KASLR_SEED →
    L.fdt_getprop b1 node name = L.fdt_getprop b2 node name)

/-- Two outcomes of `create_dtb` that are identical except for the value of
the kaslr-seed property: they end the same way, with the same return code,
and either store no blob or store blobs that agree but for the seed. -/
def SameButSeed {β : Type} (L : FdtLib β) :
    Res (Int × Option β) → Res (Int × Option β) → Prop
  | Res.ret (c1, some b1), Res.ret (c2, some b2) => c1 = c2 ∧ AgreeButSeed L b1 b2
  | Res.ret (c1, none), Res.ret (c2, none) => c1 = c2
  | Res.fault, Res.fault => True
  | Res.fuel, Res.fuel => True
  | _, _ => False

/-! ## Placement requests of load_other_segments -/

/-- The constraints `load_other_segments` puts on a payload request for the
kernel load address `K` and the kernel size `S`: the fields of the
`kexec_buf` that lines 252-321 set for the buffer it carries. -/
def PayloadRequest (K S : Nat) (kb : kexec_buf) : Prop :=
  kb.buf_min = u64_add K S ∧ kb.mem = 0 ∧ kb.bufsz = kb.memsz ∧
  match kb.buffer with
  | Buffer.kernel => False
  | Buffer.elf_headers =>
    kb.top_down = true ∧ kb.buf_align = SZ_64K ∧ kb.buf_max = ULONG_MAX
  | Buffer.initrd =>
    kb.top_down = false ∧ kb.buf_align = 0 ∧
    kb.buf_max = u64_add (K - K % SZ_1G) (SZ_1G * 32)
  | Buffer.dtb =>
    kb.top_down = true ∧ kb.buf_align = SZ_2M ∧ kb.buf_max = ULONG_MAX

/-- An environment with a reserved crash region of 128 MiB at 0x60000000 and
one live range that holds it; the header builder returns a buffer of 0x400
bytes. -/
def crashEnv : kexec_env RefFdt :=
  { refEnv with
    crashk_res := { start := 0x60000000, end_ := 0x67ffffff }
    crash_exclude_mem_range := crash_exclude_mem_range
    crash_prepare_elf64_headers := fun _ _ => (0, [], 0x400) }

/-! ## Cell encoding (spec side) -/

/-- Spec side: a value as `cells` big-endian 32-bit cells, "most significant
cell first": byte `i` of the `4 * cells` bytes is the digit of weight
`256 ^ (4 * cells - 1 - i)`. -/
def be_cells_spec (x cells : Nat) : List Nat :=
  (List.range (4 * cells)).map (fun i => x / 256 ^ (4 * cells - 1 - i) % 256)

/-! ## machine_kexec.c: protecting the crash image -/

/-- The page attributes, as parameters: `set_memory_valid st addr numpages
enable` is the state of the page tables after the call of the function of
this name (arch/arm64/mm/pageattr.c, not under src/) in the state `st`, and
`valid st p` tells whether the page number `p` (the page of the virtual
addresses from `p * PAGE_SIZE` on) is valid in a state. -/
structure page_attr (σ : Type) where
  set_memory_valid : σ → Nat → Nat → Nat → σ
  valid : σ → Nat → Bool

/-- Modelled from the spec: what `set_memory_valid` (not under src/) does to
the explicit per-page state, "flips the [...] pages between
valid-and-inaccessible-to-normal-paths and normal-read/write": the `numpages`
pages from the page of `addr` on become valid for a non-zero `enable` and
invalid for 0, and no other page changes. -/
structure PageLaws {σ : Type} (P : page_attr σ) (PAGE_SHIFT : Nat) : Prop where
  set_valid : ∀ st addr numpages enable p,
    P.valid (P.set_memory_valid st addr numpages enable) p =
      if addr / 2 ^ PAGE_SHIFT ≤ p ∧ p < addr / 2 ^ PAGE_SHIFT + numpages then
        decide (enable ≠ 0)
      else P.valid st p

/-- The loop of `arch_kexec_protect_crashkres` (machine_kexec.c:559-562, with
`enable` 0) and of `arch_kexec_unprotect_crashkres` (lines 569-572, with
`enable` 1) over the segments not yet handled: one call
`set_memory_valid(__phys_to_virt(mem), memsz >> PAGE_SHIFT, enable)` each. -/
def set_segments_valid {σ : Type} (P : page_attr σ) (M : kexec_list) (enable : Nat) :
    List kexec_segment → σ → σ
  | [], st => st
  | s :: rest, st =>
    set_segments_valid P M enable rest
      (P.set_memory_valid st (M.phys_to_virt s.mem % 2 ^ 64) (s.memsz >>> M.PAGE_SHIFT) enable)

/-- The function `arch_kexec_protect_crashkres` of machine_kexec.c:553-563:
the cache flushes made and the page state afterwards; `none` when the global
`kexec_crash_image` is NULL, which the function dereferences. -/
def arch_kexec_protect_crashkres {β σ : Type} (P : page_attr σ) (M : kexec_list)
    (kexec_crash_image : Option (kimage β)) (st : σ) : Option (List cache_flush × σ) :=
  match kexec_crash_image with
  | none => none
  | some image => some (kexec_segment_flush M image, set_segments_valid P M 0 image.segment st)

/-- The function `arch_kexec_unprotect_crashkres` of machine_kexec.c:565-573:
the page state afterwards; `none` when `kexec_crash_image` is NULL. -/
def arch_kexec_unprotect_crashkres {β σ : Type} (P : page_attr σ) (M : kexec_list)
    (kexec_crash_image : Option (kimage β)) (st : σ) : Option σ :=
  match kexec_crash_image with
  | none => none
  | some image => some (set_segments_valid P M 1 image.segment st)

/-- Whether the page number `p` is one of the `memsz >> PAGE_SHIFT` pages from
the start of one of the segments `segs`. -/
def segment_page (M : kexec_list) (segs : List kexec_segment) (p : Nat) : Bool :=
  segs.any (fun s =>
    decide ((M.phys_to_virt s.mem % 2 ^ 64) / 2 ^ M.PAGE_SHIFT ≤ p ∧
      p < (M.phys_to_virt s.mem % 2 ^ 64) / 2 ^ M.PAGE_SHIFT + (s.memsz >>> M.PAGE_SHIFT)))

/-- A page state that is just the validity of each page, with
`set_memory_valid` as the spec describes it. -/
def refPages (PAGE_SHIFT : Nat) : page_attr (Nat → Bool) where
  set_memory_valid := fun st addr numpages enable p =>
    if addr / 2 ^ PAGE_SHIFT ≤ p ∧ p < addr / 2 ^ PAGE_SHIFT + numpages then
      decide (enable ≠ 0)
    else st p
  valid := fun st p => st p

theorem memcmp_eq_zero_iff : ∀ (a b : List Nat), a.length = b.length →
    (memcmp a b = 0 ↔ a = b)
  | [], [], _ => by simp [memcmp]
  | [], _ :: _, h => by simp at h
  | _ :: _, [], h => by simp at h
  | x :: xs, y :: ys, h => by
    have ih := memcmp_eq_zero_iff xs ys (by simpa using h)
    by_cases hxy : x = y
    · simp [memcmp, hxy, ih]
    · have : (x : Int) - (y : Int) ≠ 0 := by
        intro h0
        exact hxy (by omega)
      simp [memcmp, hxy, this]

theorem header_magic_bytes (h : Mem) :
    (header_of h).magic = [byte_at h 56, byte_at h 57, byte_at h 58, byte_at h 59] := by
  simp [header_of, bytes_at, List.range_succ]

/-- C1: `image_probe` returns 0 exactly for a non-NULL buffer whose length is
at least the 64 bytes of the header and whose magic field (the four bytes at
offset 56) is 'A','R','M',0x64; every other call returns -EINVAL, in
particular every call with a length below 64 whatever the buffer holds.  The
function is a function of its two arguments only: it has no state to change. -/
theorem image_probe_spec (kernel_buf : Option Mem) (kernel_len : Nat) :
    (image_probe kernel_buf kernel_len = 0 ↔
      ∃ h, kernel_buf = some h ∧ 64 ≤ kernel_len ∧
        [byte_at h 56, byte_at h 57, byte_at h 58, byte_at h 59] = [0x41, 0x52, 0x4d, 0x64]) ∧
    (image_probe kernel_buf kernel_len ≠ 0 → image_probe kernel_buf kernel_len = -EINVAL) ∧
    (kernel_len < 64 → image_probe kernel_buf kernel_len = -EINVAL) := by
  cases kernel_buf with
  | none => simp [image_probe, EINVAL]
  | some h =>
    have hm : memcmp (header_of h).magic ARM64_IMAGE_MAGIC = 0 ↔
        [byte_at h 56, byte_at h 57, byte_at h 58, byte_at h 59] = [0x41, 0x52, 0x4d, 0x64] := by
      rw [memcmp_eq_zero_iff _ _ (by simp [header_magic_bytes, ARM64_IMAGE_MAGIC]),
        header_magic_bytes]
      rfl
    simp only [image_probe, sizeof_arm64_image_header]
    refine ⟨?_, ?_, ?_⟩
    · constructor
      · intro h0
        by_cases hc : kernel_len < 64 ∨ memcmp (header_of h).magic ARM64_IMAGE_MAGIC ≠ 0
        · rw [if_pos hc] at h0
          simp [EINVAL] at h0
        · push_neg at hc
          exact ⟨h, rfl, hc.1, hm.1 hc.2⟩
      · rintro ⟨h1, he, hl, hmag⟩
        cases he
        have : ¬ (kernel_len < 64 ∨ memcmp (header_of h).magic ARM64_IMAGE_MAGIC ≠ 0) := by
          push_neg
          exact ⟨hl, hm.2 hmag⟩
        rw [if_neg this]
    · intro hne
      by_cases hc : kernel_len < 64 ∨ memcmp (header_of h).magic ARM64_IMAGE_MAGIC ≠ 0
      · rw [if_pos hc]
      · rw [if_neg hc] at hne
        exact absurd rfl hne
    · intro hl
      rw [if_pos (Or.inl hl)]

theorem grows_refl {β : Type} (s : LoadState β) : Grows s s [] :=
  ⟨by simp, rfl, rfl, ⟨[], by simp, by simp⟩⟩

theorem grows_trans {β : Type} {s s1 s2 : LoadState β} {n1 n2 : List (kexec_buf × Int)}
    (h1 : Grows s s1 n1) (h2 : Grows s1 s2 n2) : Grows s s2 (n1 ++ n2) := by
  obtain ⟨g1, hg1, hl1⟩ := h1.segment
  obtain ⟨g2, hg2, hl2⟩ := h2.segment
  refine ⟨?_, ?_, ?_, ⟨g1 ++ g2, ?_, ?_⟩⟩
  · rw [h2.requests, h1.requests, List.append_assoc]
  · rw [h2.start, h1.start]
  · rw [h2.type, h1.type]
  · rw [hg2, hg1, List.append_assoc]
  · simp [hl1, hl2]

theorem grows_arch {β : Type} {s s1 : LoadState β} {n : List (kexec_buf × Int)}
    (h : Grows s s1 n) (a : kimage_arch β) :
    Grows s { s1 with image := { s1.image with arch := a } } n :=
  ⟨h.requests, h.start, h.type, h.segment⟩

theorem kexec_add_buffer_fst {β : Type} (E : kexec_env β) (kbuf : kexec_buf) (s : LoadState β) :
    (kexec_add_buffer E kbuf s).1 = (E.kexec_locate_mem_hole s.image kbuf).1 := by
  unfold kexec_add_buffer
  by_cases h : (E.kexec_locate_mem_hole s.image kbuf).1 = 0 <;> simp [h]

theorem kexec_add_buffer_grows {β : Type} (E : kexec_env β) (kbuf : kexec_buf)
    (s : LoadState β) :
    Grows s (kexec_add_buffer E kbuf s).2.2 [(kbuf, (kexec_add_buffer E kbuf s).1)] := by
  unfold kexec_add_buffer
  by_cases h : (E.kexec_locate_mem_hole s.image kbuf).1 = 0
  · simp only [h, ne_eq, not_true_eq_false, if_false]
    exact ⟨rfl, rfl, rfl, ⟨_, rfl, by simp⟩⟩
  · simp only [h, ne_eq, not_false_eq_true, if_true]
    exact ⟨rfl, rfl, rfl, ⟨[], by simp, by simp [h]⟩⟩

theorem kexec_add_buffer_ok {β : Type} (E : kexec_env β) (kbuf : kexec_buf)
    (s : LoadState β) (h : (E.kexec_locate_mem_hole s.image kbuf).1 = 0) :
    kexec_add_buffer E kbuf s =
      (0, { kbuf with mem := (E.kexec_locate_mem_hole s.image kbuf).2 },
        { image := { s.image with
            segment := s.image.segment ++
              [{ kbuf := kbuf.buffer, bufsz := kbuf.bufsz,
                 mem := (E.kexec_locate_mem_hole s.image kbuf).2, memsz := kbuf.memsz }] }
          requests := s.requests ++ [(kbuf, 0)] }) := by
  unfold kexec_add_buffer
  simp [h]

theorem failfast_nil (out : Res Int) : FailFast [] out := by
  intro pre q post h
  simp at h

theorem failfast_single (q : kexec_buf × Int) (out : Res Int)
    (h : q.2 ≠ 0 → out = Res.ret q.2) : FailFast [q] out := by
  intro pre q1 post he hq
  cases pre with
  | nil =>
    simp at he
    obtain ⟨rfl, rfl⟩ := he
    exact ⟨rfl, h hq⟩
  | cons a pre => simp at he

theorem failfast_append {A B : List (kexec_buf × Int)} {out : Res Int}
    (hA : ∀ q ∈ A, q.2 = 0) (hB : FailFast B out) : FailFast (A ++ B) out := by
  intro pre q post he hq
  rcases List.append_eq_append_iff.1 he with ⟨a1, h1, h2⟩ | ⟨c1, h1, h2⟩
  · exact hB a1 q post h2 hq
  · cases c1 with
    | nil =>
      simp at h1 h2
      exact hB [] q post (by simpa using h2.symm) hq
    | cons c c1 =>
      simp at h2
      have : q ∈ A := by
        rw [h1, ← h2.1]
        simp
      exact absurd (hA q this) hq

theorem failfast_of_zero {A : List (kexec_buf × Int)} {out : Res Int}
    (hA : ∀ q ∈ A, q.2 = 0) : FailFast A out := by
  intro pre q post he hq
  exact absurd (hA q (by rw [he]; simp)) hq

theorem add_buffer_stage {β : Type} (E : kexec_env β) (kbuf : kexec_buf) (s : LoadState β)
    (b : Buffer) (hb : kbuf.buffer = b) (f : LoadState β → kimage_arch β) :
    ∃ new,
      Grows s (if (kexec_add_buffer E kbuf s).1 ≠ 0 then
          ((kexec_add_buffer E kbuf s).1, (kexec_add_buffer E kbuf s).2.2)
        else
          ((0 : Int), { (kexec_add_buffer E kbuf s).2.2 with
            image := { (kexec_add_buffer E kbuf s).2.2.image with
              arch := f (kexec_add_buffer E kbuf s).2.2 } })).2 new ∧
      (new = [] ∨ ∃ kb, new = [(kb, (if (kexec_add_buffer E kbuf s).1 ≠ 0 then
          ((kexec_add_buffer E kbuf s).1, (kexec_add_buffer E kbuf s).2.2)
        else
          ((0 : Int), { (kexec_add_buffer E kbuf s).2.2 with
            image := { (kexec_add_buffer E kbuf s).2.2.image with
              arch := f (kexec_add_buffer E kbuf s).2.2 } })).1)] ∧ kb.buffer = b) := by
  have g := kexec_add_buffer_grows E kbuf s
  by_cases hr : (kexec_add_buffer E kbuf s).1 = 0
  · rw [if_neg (by simpa using hr)]
    refine ⟨[(kbuf, (kexec_add_buffer E kbuf s).1)], grows_arch g _, Or.inr ⟨kbuf, ?_, hb⟩⟩
    simp [hr]
  · rw [if_pos hr]
    exact ⟨[(kbuf, (kexec_add_buffer E kbuf s).1)], g, Or.inr ⟨kbuf, rfl, hb⟩⟩

theorem load_elf_headers_grows {β : Type} (E : kexec_env β) (buf_min : Nat) (s : LoadState β) :
    ∃ new, Grows s (load_elf_headers E buf_min s).2 new ∧
      (new = [] ∨ ∃ kbuf, new = [(kbuf, (load_elf_headers E buf_min s).1)] ∧
        kbuf.buffer = Buffer.elf_headers) := by
  unfold load_elf_headers
  by_cases ht : s.image.type = KEXEC_TYPE_CRASH
  · by_cases hp : (prepare_elf_headers E).1 = 0
    · simp only [ht, hp, if_true, ne_eq, not_true_eq_false, if_false]
      exact add_buffer_stage E _ s Buffer.elf_headers rfl
        (fun t => { t.image.arch with
          elf_headers := some (prepare_elf_headers E).2.1
          elf_headers_mem := (kexec_add_buffer E _ s).2.1.mem
          elf_headers_sz := (prepare_elf_headers E).2.2 })
    · simp only [ht, hp, if_true, ne_eq, not_false_eq_true]
      exact ⟨[], grows_refl s, Or.inl rfl⟩
  · simp only [ht, if_false]
    exact ⟨[], grows_refl s, Or.inl rfl⟩

theorem load_initrd_grows {β : Type} (E : kexec_env β) (buf_min kernel_load_addr : Nat)
    (initrd : Option Mem) (initrd_len : Nat) (s : LoadState β) :
    ∃ new, Grows s (load_initrd E buf_min kernel_load_addr initrd initrd_len s).2.2 new ∧
      (new = [] ∨ ∃ kbuf,
        new = [(kbuf, (load_initrd E buf_min kernel_load_addr initrd initrd_len s).1)] ∧
        kbuf.buffer = Buffer.initrd) := by
  unfold load_initrd
  cases initrd with
  | none => exact ⟨[], grows_refl s, Or.inl rfl⟩
  | some m =>
    obtain ⟨kb, hkb⟩ : ∃ kb : kexec_buf, kb =
        { buffer := Buffer.initrd, bufsz := initrd_len, mem := 0, memsz := initrd_len,
          buf_align := 0, buf_min := buf_min,
          buf_max := u64_add (kernel_load_addr - kernel_load_addr % SZ_1G) (SZ_1G * 32),
          top_down := false } := ⟨_, rfl⟩
    have hb : kb.buffer = Buffer.initrd := by rw [hkb]
    simp only [← hkb]
    have g := kexec_add_buffer_grows E kb s
    by_cases hr : (kexec_add_buffer E kb s).1 = 0
    · rw [if_neg (by simpa using hr)]
      exact ⟨[(kb, (kexec_add_buffer E kb s).1)], g, Or.inr ⟨kb, by simp [hr], hb⟩⟩
    · rw [if_pos hr]
      exact ⟨[(kb, (kexec_add_buffer E kb s).1)], g, Or.inr ⟨kb, rfl, hb⟩⟩

theorem stage_zero {new : List (kexec_buf × Int)} {r : Int} {b : Buffer}
    (h : new = [] ∨ ∃ kbuf, new = [(kbuf, r)] ∧ kbuf.buffer = b) (hr : r = 0) :
    ∀ q ∈ new, q.2 = 0 := by
  rcases h with rfl | ⟨k, rfl, _⟩
  · simp
  · simp [hr]

theorem stage_failfast {new : List (kexec_buf × Int)} {r : Int} {b : Buffer}
    (h : new = [] ∨ ∃ kbuf, new = [(kbuf, r)] ∧ kbuf.buffer = b) :
    FailFast new (Res.ret r) := by
  rcases h with rfl | ⟨k, rfl, _⟩
  · exact failfast_nil _
  · exact failfast_single _ _ (fun _ => rfl)

theorem stage_buffers {new : List (kexec_buf × Int)} {r : Int} {b : Buffer}
    (h : new = [] ∨ ∃ kbuf, new = [(kbuf, r)] ∧ kbuf.buffer = b) :
    List.Sublist (new.map (fun q => q.1.buffer)) [b] := by
  rcases h with rfl | ⟨k, rfl, hb⟩
  · simp
  · simp [hb]

theorem load_other_segments_grows {β : Type} (E : kexec_env β) (fuel : Nat) (s : LoadState β)
    (kernel_load_addr kernel_size : Nat) (initrd : Option Mem) (initrd_len : Nat)
    (cmdline : Option (List Nat)) :
    ∃ new,
      Grows s (load_other_segments E fuel s kernel_load_addr kernel_size
        initrd initrd_len cmdline).2 new ∧
      FailFast new (load_other_segments E fuel s kernel_load_addr kernel_size
        initrd initrd_len cmdline).1 ∧
      List.Sublist (new.map (fun q => q.1.buffer))
        [Buffer.elf_headers, Buffer.initrd, Buffer.dtb] := by
  obtain ⟨n1, g1, h1⟩ := load_elf_headers_grows E (u64_add kernel_load_addr kernel_size) s
  have sub1 := stage_buffers h1
  unfold load_other_segments
  simp only
  by_cases hr1 : (load_elf_headers E (u64_add kernel_load_addr kernel_size) s).1 = 0
  swap
  · simp only [ne_eq, hr1, not_false_eq_true, if_true]
    refine ⟨n1, g1, stage_failfast h1, ?_⟩
    exact sub1.trans (by decide)
  simp only [ne_eq, hr1, not_true_eq_false, if_false]
  have z1 := stage_zero h1 hr1
  obtain ⟨n2, g2, h2⟩ := load_initrd_grows E (u64_add kernel_load_addr kernel_size)
    kernel_load_addr initrd initrd_len (load_elf_headers E (u64_add kernel_load_addr kernel_size) s).2
  have sub2 := stage_buffers h2
  have sub12 : List.Sublist ((n1 ++ n2).map (fun q => q.1.buffer))
      [Buffer.elf_headers, Buffer.initrd] := by
    rw [List.map_append]
    exact List.Sublist.append sub1 sub2
  by_cases hr2 : (load_initrd E (u64_add kernel_load_addr kernel_size) kernel_load_addr initrd
      initrd_len (load_elf_headers E (u64_add kernel_load_addr kernel_size) s).2).1 = 0
  swap
  · simp only [hr2, not_false_eq_true, if_true]
    exact ⟨n1 ++ n2, grows_trans g1 g2, failfast_append z1 (stage_failfast h2),
      sub12.trans (by decide)⟩
  simp only [hr2, not_true_eq_false, if_false]
  have z2 := stage_zero h2 hr2
  have z12 : ∀ q ∈ n1 ++ n2, q.2 = 0 := by
    intro q hq
    rcases List.mem_append.1 hq with h | h
    · exact z1 q h
    · exact z2 q h
  split
  · exact ⟨n1 ++ n2, grows_trans g1 g2, failfast_of_zero z12, sub12.trans (by decide)⟩
  · exact ⟨n1 ++ n2, grows_trans g1 g2, failfast_of_zero z12, sub12.trans (by decide)⟩
  · rename_i ret dtb hc
    by_cases hret : ret = 0
    swap
    · simp only [hret, not_false_eq_true, if_true]
      exact ⟨n1 ++ n2, grows_trans g1 g2, failfast_of_zero z12, sub12.trans (by decide)⟩
    simp only [hret, not_true_eq_false, if_false]
    cases dtb with
    | none => exact ⟨n1 ++ n2, grows_trans g1 g2, failfast_of_zero z12, sub12.trans (by decide)⟩
    | some d =>
      obtain ⟨kb, hkb⟩ : ∃ kb : kexec_buf, kb =
          { buffer := Buffer.dtb, bufsz := E.fdt.fdt_totalsize d, mem := 0,
            memsz := E.fdt.fdt_totalsize d, buf_align := SZ_2M,
            buf_min := u64_add kernel_load_addr kernel_size, buf_max := ULONG_MAX,
            top_down := true } := ⟨_, rfl⟩
      have hb : kb.buffer = Buffer.dtb := by rw [hkb]
      simp only [← hkb]
      have g3 := kexec_add_buffer_grows E kb
        (load_initrd E (u64_add kernel_load_addr kernel_size) kernel_load_addr initrd initrd_len
          (load_elf_headers E (u64_add kernel_load_addr kernel_size) s).2).2.2
      have sub3 : List.Sublist
          (((n1 ++ n2) ++ [(kb, (kexec_add_buffer E kb
            (load_initrd E (u64_add kernel_load_addr kernel_size) kernel_load_addr initrd
              initrd_len (load_elf_headers E (u64_add kernel_load_addr kernel_size) s).2).2.2).1)]).map
            (fun q => q.1.buffer))
          [Buffer.elf_headers, Buffer.initrd, Buffer.dtb] := by
        rw [List.map_append]
        exact List.Sublist.append sub12 (by simp [hb])
      by_cases hr3 : (kexec_add_buffer E kb
          (load_initrd E (u64_add kernel_load_addr kernel_size) kernel_load_addr initrd
            initrd_len (load_elf_headers E (u64_add kernel_load_addr kernel_size) s).2).2.2).1 = 0
      · rw [if_neg (by simpa using hr3)]
        exact ⟨_, grows_arch (grows_trans (grows_trans g1 g2) g3) _,
          failfast_append z12 (failfast_single _ _ (fun h => absurd hr3 h)), sub3⟩
      · rw [if_pos hr3]
        exact ⟨_, grows_trans (grows_trans g1 g2) g3,
          failfast_append z12 (failfast_single _ _ (fun _ => rfl)), sub3⟩

theorem image_load_reject {β : Type} (E : kexec_env β) (fuel : Nat) (s : LoadState β)
    (kernel : Mem) (kernel_len : Nat) (initrd : Option Mem) (initrd_len : Nat)
    (cmdline : Option (List Nat)) (cmdline_len : Nat)
    (h0 : (header_of kernel).image_size = 0) :
    image_load E fuel s kernel kernel_len initrd initrd_len cmdline cmdline_len =
      (Res.ret (-EINVAL), s) := by
  unfold image_load
  simp [h0]

theorem image_load_alloc_fails {β : Type} (E : kexec_env β) (fuel : Nat) (s : LoadState β)
    (kernel : Mem) (kernel_len : Nat) (initrd : Option Mem) (initrd_len : Nat)
    (cmdline : Option (List Nat)) (cmdline_len : Nat)
    (h0 : (header_of kernel).image_size ≠ 0) (kb : kexec_buf)
    (hkb : kb =
      { buffer := Buffer.kernel, bufsz := kernel_len, mem := 0,
        memsz := u64_add (header_of kernel).image_size (header_of kernel).text_offset,
        buf_align := E.MIN_KIMG_ALIGN, buf_min := 0, buf_max := ULONG_MAX, top_down := false })
    (hf : (E.kexec_locate_mem_hole s.image kb).1 ≠ 0) :
    image_load E fuel s kernel kernel_len initrd initrd_len cmdline cmdline_len =
      (Res.ret (E.kexec_locate_mem_hole s.image kb).1,
        { s with requests := s.requests ++ [(kb, (E.kexec_locate_mem_hole s.image kb).1)] }) := by
  unfold image_load
  simp only [h0, if_false, ← hkb]
  have h1 : (kexec_add_buffer E kb s).1 ≠ 0 := by rw [kexec_add_buffer_fst]; exact hf
  rw [if_pos h1]
  unfold kexec_add_buffer
  simp [hf]

theorem image_load_alloc_ok {β : Type} (E : kexec_env β) (fuel : Nat) (s : LoadState β)
    (kernel : Mem) (kernel_len : Nat) (initrd : Option Mem) (initrd_len : Nat)
    (cmdline : Option (List Nat)) (cmdline_len : Nat)
    (h0 : (header_of kernel).image_size ≠ 0) (kb : kexec_buf)
    (hkb : kb =
      { buffer := Buffer.kernel, bufsz := kernel_len, mem := 0,
        memsz := u64_add (header_of kernel).image_size (header_of kernel).text_offset,
        buf_align := E.MIN_KIMG_ALIGN, buf_min := 0, buf_max := ULONG_MAX, top_down := false })
    (hf : (E.kexec_locate_mem_hole s.image kb).1 = 0) :
    image_load E fuel s kernel kernel_len initrd initrd_len cmdline cmdline_len =
      load_other_segments E fuel
        { image := { s.image with
            segment := s.image.segment ++
              [{ kbuf := Buffer.kernel, bufsz := kernel_len,
                 mem := u64_add (E.kexec_locate_mem_hole s.image kb).2
                   (header_of kernel).text_offset,
                 memsz := u64_sub
                   (u64_add (header_of kernel).image_size (header_of kernel).text_offset)
                   (header_of kernel).text_offset }]
            start := u64_add (E.kexec_locate_mem_hole s.image kb).2
              (header_of kernel).text_offset }
          requests := s.requests ++ [(kb, 0)] }
        (u64_add (E.kexec_locate_mem_hole s.image kb).2 (header_of kernel).text_offset)
        (u64_sub (u64_add (header_of kernel).image_size (header_of kernel).text_offset)
          (header_of kernel).text_offset)
        initrd initrd_len cmdline := by
  unfold image_load
  simp only [h0, if_false, ← hkb]
  rw [kexec_add_buffer_ok E kb s hf]
  simp only [ne_eq, not_true_eq_false, if_false, List.getLast?_concat, List.dropLast_concat]
  simp [hkb]

theorem image_load_requests {β : Type} (E : kexec_env β) (fuel : Nat) (s : LoadState β)
    (kernel : Mem) (kernel_len : Nat) (initrd : Option Mem) (initrd_len : Nat)
    (cmdline : Option (List Nat)) (cmdline_len : Nat)
    (h0 : (header_of kernel).image_size ≠ 0) :
    ∃ new,
      (image_load E fuel s kernel kernel_len initrd initrd_len cmdline cmdline_len).2.requests =
        s.requests ++
          (({ buffer := Buffer.kernel, bufsz := kernel_len, mem := 0,
              memsz := u64_add (header_of kernel).image_size (header_of kernel).text_offset,
              buf_align := E.MIN_KIMG_ALIGN, buf_min := 0, buf_max := ULONG_MAX,
              top_down := false } : kexec_buf),
            (E.kexec_locate_mem_hole s.image
              { buffer := Buffer.kernel, bufsz := kernel_len, mem := 0,
                memsz := u64_add (header_of kernel).image_size (header_of kernel).text_offset,
                buf_align := E.MIN_KIMG_ALIGN, buf_min := 0, buf_max := ULONG_MAX,
                top_down := false }).1) :: new ∧
      FailFast
        ((({ buffer := Buffer.kernel, bufsz := kernel_len, mem := 0,
              memsz := u64_add (header_of kernel).image_size (header_of kernel).text_offset,
              buf_align := E.MIN_KIMG_ALIGN, buf_min := 0, buf_max := ULONG_MAX,
              top_down := false } : kexec_buf),
            (E.kexec_locate_mem_hole s.image
              { buffer := Buffer.kernel, bufsz := kernel_len, mem := 0,
                memsz := u64_add (header_of kernel).image_size (header_of kernel).text_offset,
                buf_align := E.MIN_KIMG_ALIGN, buf_min := 0, buf_max := ULONG_MAX,
                top_down := false }).1) :: new)
        (image_load E fuel s kernel kernel_len initrd initrd_len cmdline cmdline_len).1 ∧
      List.Sublist (new.map (fun q => q.1.buffer))
        [Buffer.elf_headers, Buffer.initrd, Buffer.dtb] ∧
      (image_load E fuel s kernel kernel_len initrd initrd_len cmdline
          cmdline_len).2.image.segment.length =
        s.image.segment.length +
          (if (E.kexec_locate_mem_hole s.image
              { buffer := Buffer.kernel, bufsz := kernel_len, mem := 0,
                memsz := u64_add (header_of kernel).image_size (header_of kernel).text_offset,
                buf_align := E.MIN_KIMG_ALIGN, buf_min := 0, buf_max := ULONG_MAX,
                top_down := false }).1 = 0 then 1 else 0) +
          (new.filter (fun q => decide (q.2 = 0))).length := by
  obtain ⟨kb, hkb⟩ : ∃ kb : kexec_buf, kb =
      { buffer := Buffer.kernel, bufsz := kernel_len, mem := 0,
        memsz := u64_add (header_of kernel).image_size (header_of kernel).text_offset,
        buf_align := E.MIN_KIMG_ALIGN, buf_min := 0, buf_max := ULONG_MAX,
        top_down := false } := ⟨_, rfl⟩
  simp only [← hkb]
  by_cases hf : (E.kexec_locate_mem_hole s.image kb).1 = 0
  · rw [image_load_alloc_ok E fuel s kernel kernel_len initrd initrd_len cmdline cmdline_len
      h0 kb hkb hf]
    obtain ⟨new, g, ff, sub⟩ := load_other_segments_grows E fuel _
      (u64_add (E.kexec_locate_mem_hole s.image kb).2 (header_of kernel).text_offset)
      (u64_sub (u64_add (header_of kernel).image_size (header_of kernel).text_offset)
        (header_of kernel).text_offset) initrd initrd_len cmdline
    refine ⟨new, ?_, ?_, sub, ?_⟩
    · rw [g.requests, hf]
      simp
    · rw [hf]
      exact failfast_append (A := [(kb, 0)]) (by simp) ff
    · obtain ⟨segs, hs, hl⟩ := g.segment
      rw [hs, if_pos hf]
      simp only [List.length_append, List.length_singleton, hl]
  · rw [image_load_alloc_fails E fuel s kernel kernel_len initrd initrd_len cmdline cmdline_len
      h0 kb hkb hf]
    refine ⟨[], rfl, failfast_single _ _ (fun _ => rfl), by simp, ?_⟩
    simp [hf]

theorem image_probe_zero_iff (h : Mem) (kernel_len : Nat) :
    image_probe (some h) kernel_len = 0 ↔
      64 ≤ kernel_len ∧ (header_of h).magic = ARM64_IMAGE_MAGIC := by
  have hm : memcmp (header_of h).magic ARM64_IMAGE_MAGIC = 0 ↔
      (header_of h).magic = ARM64_IMAGE_MAGIC :=
    memcmp_eq_zero_iff _ _ (by simp [header_magic_bytes, ARM64_IMAGE_MAGIC])
  simp only [image_probe, sizeof_arm64_image_header]
  by_cases hc : kernel_len < 64 ∨ memcmp (header_of h).magic ARM64_IMAGE_MAGIC ≠ 0
  · rw [if_pos hc]
    simp only [EINVAL, neg_eq_zero, OfNat.ofNat_ne_zero, false_iff, not_and]
    intro hl hmag
    rcases hc with hc | hc
    · omega
    · exact hc (hm.2 hmag)
  · rw [if_neg hc]
    push_neg at hc
    simp only [true_iff]
    exact ⟨hc.1, hm.1 hc.2⟩

/-- C2 (as amended): the gate at the top of `image_load` looks at the declared
image size only.  A placement request is made if and only if `image_size` is
non-zero, whatever the magic field holds; with `image_size` zero the function
returns -EINVAL with the state, and so the request log, untouched.  For a
buffer that `image_probe` accepted this is the same as: non-zero size and
matching magic. -/
theorem image_load_gate {β : Type} (E : kexec_env β) (fuel : Nat) (s : LoadState β)
    (kernel : Mem) (kernel_len : Nat) (initrd : Option Mem) (initrd_len : Nat)
    (cmdline : Option (List Nat)) (cmdline_len : Nat) :
    ((image_load E fuel s kernel kernel_len initrd initrd_len cmdline cmdline_len).2.requests ≠
        s.requests ↔ (header_of kernel).image_size ≠ 0) ∧
    ((header_of kernel).image_size = 0 →
      image_load E fuel s kernel kernel_len initrd initrd_len cmdline cmdline_len =
        (Res.ret (-EINVAL), s)) ∧
    (image_probe (some kernel) kernel_len = 0 →
      ((image_load E fuel s kernel kernel_len initrd initrd_len cmdline cmdline_len).2.requests ≠
          s.requests ↔
        (header_of kernel).image_size ≠ 0 ∧ (header_of kernel).magic = ARM64_IMAGE_MAGIC)) := by
  have key : (image_load E fuel s kernel kernel_len initrd initrd_len cmdline
        cmdline_len).2.requests ≠ s.requests ↔ (header_of kernel).image_size ≠ 0 := by
    by_cases h0 : (header_of kernel).image_size = 0
    · rw [image_load_reject E fuel s kernel kernel_len initrd initrd_len cmdline cmdline_len h0]
      simp [h0]
    · obtain ⟨new, hreq, -⟩ := image_load_requests E fuel s kernel kernel_len initrd initrd_len
        cmdline cmdline_len h0
      simp only [ne_eq, h0, not_false_eq_true, iff_true]
      intro hcontra
      rw [hcontra] at hreq
      have := congrArg List.length hreq
      simp at this
  refine ⟨key, image_load_reject E fuel s kernel kernel_len initrd initrd_len cmdline cmdline_len,
    ?_⟩
  intro hp
  rw [key]
  have := ((image_probe_zero_iff kernel kernel_len).1 hp).2
  simp [this]

/-- C2 (as stated) fails: a header with `image_size` 1 and four zero bytes as
magic gets past the gate of `image_load`, which issues a placement request. -/
theorem image_load_bad_magic_proceeds :
    ¬ ((image_load refEnv 1 (state_empty RefFdt KEXEC_TYPE_DEFAULT) hdr_size1_nomagic 64
          none 0 (some []) 1).2.requests ≠ [] ↔
        ((header_of hdr_size1_nomagic).image_size ≠ 0 ∧
          (header_of hdr_size1_nomagic).magic = ARM64_IMAGE_MAGIC)) := by
  decide

/-- C3: for a header with non-zero `image_size` and an allocator that answers
the kernel request with address `A`, `image_load` asks for a window of
`image_size + text_offset` bytes (64-bit sum), and then continues into
`load_other_segments` from a state whose kernel segment starts at
`A + text_offset` and has size (requested size - text_offset), both as 64-bit
values, and whose entry address `start` is that adjusted start; this segment
and entry address are still there in the state `image_load` ends in. -/
theorem image_load_kernel_segment {β : Type} (E : kexec_env β) (fuel : Nat) (s : LoadState β)
    (kernel : Mem) (kernel_len : Nat) (initrd : Option Mem) (initrd_len : Nat)
    (cmdline : Option (List Nat)) (cmdline_len : Nat) (A : Nat)
    (hsize : (header_of kernel).image_size ≠ 0)
    (hA : E.kexec_locate_mem_hole s.image
      { buffer := Buffer.kernel, bufsz := kernel_len, mem := 0,
        memsz := u64_add (header_of kernel).image_size (header_of kernel).text_offset,
        buf_align := E.MIN_KIMG_ALIGN, buf_min := 0, buf_max := ULONG_MAX,
        top_down := false } = (0, A)) :
    (∃ rest,
      (image_load E fuel s kernel kernel_len initrd initrd_len cmdline cmdline_len).2.requests =
        s.requests ++
          (({ buffer := Buffer.kernel, bufsz := kernel_len, mem := 0,
              memsz := u64_add (header_of kernel).image_size (header_of kernel).text_offset,
              buf_align := E.MIN_KIMG_ALIGN, buf_min := 0, buf_max := ULONG_MAX,
              top_down := false } : kexec_buf), (0 : Int)) :: rest) ∧
    (∃ s1 : LoadState β,
      s1.image.segment = s.image.segment ++
        [{ kbuf := Buffer.kernel, bufsz := kernel_len,
           mem := u64_add A (header_of kernel).text_offset,
           memsz := u64_sub
             (u64_add (header_of kernel).image_size (header_of kernel).text_offset)
             (header_of kernel).text_offset }] ∧
      s1.image.start = u64_add A (header_of kernel).text_offset ∧
      image_load E fuel s kernel kernel_len initrd initrd_len cmdline cmdline_len =
        load_other_segments E fuel s1 (u64_add A (header_of kernel).text_offset)
          (u64_sub (u64_add (header_of kernel).image_size (header_of kernel).text_offset)
            (header_of kernel).text_offset) initrd initrd_len cmdline) ∧
    (image_load E fuel s kernel kernel_len initrd initrd_len cmdline
        cmdline_len).2.image.segment[s.image.segment.length]? =
      some { kbuf := Buffer.kernel, bufsz := kernel_len,
             mem := u64_add A (header_of kernel).text_offset,
             memsz := u64_sub
               (u64_add (header_of kernel).image_size (header_of kernel).text_offset)
               (header_of kernel).text_offset } ∧
    (image_load E fuel s kernel kernel_len initrd initrd_len cmdline
        cmdline_len).2.image.start = u64_add A (header_of kernel).text_offset := by
  obtain ⟨kb, hkb⟩ : ∃ kb : kexec_buf, kb =
      { buffer := Buffer.kernel, bufsz := kernel_len, mem := 0,
        memsz := u64_add (header_of kernel).image_size (header_of kernel).text_offset,
        buf_align := E.MIN_KIMG_ALIGN, buf_min := 0, buf_max := ULONG_MAX,
        top_down := false } := ⟨_, rfl⟩
  simp only [← hkb] at hA ⊢
  have hf : (E.kexec_locate_mem_hole s.image kb).1 = 0 := by rw [hA]
  have h2 : (E.kexec_locate_mem_hole s.image kb).2 = A := by rw [hA]
  have heq := image_load_alloc_ok E fuel s kernel kernel_len initrd initrd_len cmdline
    cmdline_len hsize kb hkb hf
  rw [h2] at heq
  obtain ⟨s1, hs1⟩ : ∃ s1 : LoadState β, s1 =
      { image := { s.image with
          segment := s.image.segment ++
            [{ kbuf := Buffer.kernel, bufsz := kernel_len,
               mem := u64_add A (header_of kernel).text_offset,
               memsz := u64_sub
                 (u64_add (header_of kernel).image_size (header_of kernel).text_offset)
                 (header_of kernel).text_offset }]
          start := u64_add A (header_of kernel).text_offset }
        requests := s.requests ++ [(kb, 0)] } := ⟨_, rfl⟩
  rw [← hs1] at heq
  have hseg : s1.image.segment = s.image.segment ++
      [{ kbuf := Buffer.kernel, bufsz := kernel_len,
         mem := u64_add A (header_of kernel).text_offset,
         memsz := u64_sub
           (u64_add (header_of kernel).image_size (header_of kernel).text_offset)
           (header_of kernel).text_offset }] := by rw [hs1]
  have hstart : s1.image.start = u64_add A (header_of kernel).text_offset := by rw [hs1]
  have hreq : s1.requests = s.requests ++ [(kb, 0)] := by rw [hs1]
  obtain ⟨new, g, -, -⟩ := load_other_segments_grows E fuel s1
    (u64_add A (header_of kernel).text_offset)
    (u64_sub (u64_add (header_of kernel).image_size (header_of kernel).text_offset)
      (header_of kernel).text_offset) initrd initrd_len cmdline
  rw [← heq] at g
  refine ⟨⟨new, ?_⟩, ⟨s1, hseg, hstart, heq⟩, ?_, ?_⟩
  · rw [g.requests, hreq]
    simp
  · obtain ⟨segs, hs, -⟩ := g.segment
    rw [hs, hseg, List.append_assoc, List.getElem?_append_right (le_refl _)]
    simp
  · rw [g.start, hstart]

/-- C3 at a concrete input: the header `hdr_good` (text_offset 0x80000,
image_size 0x10000) and an allocator answering with address 1 GiB. -/
theorem image_load_kernel_segment_witness :
    (header_of hdr_good).image_size ≠ 0 ∧
    (image_load refEnv 2 (state_empty RefFdt KEXEC_TYPE_DEFAULT) hdr_good 0x10000
        none 0 (some []) 1).2.image.segment[0]? =
      some { kbuf := Buffer.kernel, bufsz := 0x10000, mem := 0x40080000, memsz := 0x10000 } ∧
    (image_load refEnv 2 (state_empty RefFdt KEXEC_TYPE_DEFAULT) hdr_good 0x10000
        none 0 (some []) 1).2.image.start = 0x40080000 :=
  ⟨by decide,
    (image_load_kernel_segment refEnv 2 (state_empty RefFdt KEXEC_TYPE_DEFAULT) hdr_good 0x10000
      none 0 (some []) 1 0x40000000 (by decide) (by decide)).2.2.1,
    (image_load_kernel_segment refEnv 2 (state_empty RefFdt KEXEC_TYPE_DEFAULT) hdr_good 0x10000
      none 0 (some []) 1 0x40000000 (by decide) (by decide)).2.2.2⟩

/-- C4: in every run of `image_load`, and of `load_other_segments` from any
state, the placement requests made are, in this order, at most one each for
the kernel (only `image_load`), the elf core header, the initrd and the device
tree; a request that failed with error `e` is the last request made and the
run returns `e`; one segment is added per successful request and none for a
failed one.  When the kernel request fails, `image_load` returns that error
with nothing but the request log changed, so `load_other_segments` did not
run. -/
theorem load_fail_fast {β : Type} (E : kexec_env β) (fuel : Nat) (s : LoadState β)
    (kernel : Mem) (kernel_len : Nat) (initrd : Option Mem) (initrd_len : Nat)
    (cmdline : Option (List Nat)) (cmdline_len : Nat) (kernel_load_addr kernel_size : Nat) :
    (∃ new,
      (image_load E fuel s kernel kernel_len initrd initrd_len cmdline cmdline_len).2.requests =
        s.requests ++ new ∧
      (∀ pre q post, new = pre ++ q :: post → q.2 ≠ 0 →
        post = [] ∧
        (image_load E fuel s kernel kernel_len initrd initrd_len cmdline cmdline_len).1 =
          Res.ret q.2) ∧
      List.Sublist (new.map (fun q => q.1.buffer))
        [Buffer.kernel, Buffer.elf_headers, Buffer.initrd, Buffer.dtb] ∧
      (image_load E fuel s kernel kernel_len initrd initrd_len cmdline
          cmdline_len).2.image.segment.length =
        s.image.segment.length + (new.filter (fun q => decide (q.2 = 0))).length) ∧
    (∃ new,
      (load_other_segments E fuel s kernel_load_addr kernel_size initrd initrd_len
          cmdline).2.requests = s.requests ++ new ∧
      (∀ pre q post, new = pre ++ q :: post → q.2 ≠ 0 →
        post = [] ∧
        (load_other_segments E fuel s kernel_load_addr kernel_size initrd initrd_len
          cmdline).1 = Res.ret q.2) ∧
      List.Sublist (new.map (fun q => q.1.buffer))
        [Buffer.elf_headers, Buffer.initrd, Buffer.dtb] ∧
      (load_other_segments E fuel s kernel_load_addr kernel_size initrd initrd_len
          cmdline).2.image.segment.length =
        s.image.segment.length + (new.filter (fun q => decide (q.2 = 0))).length) ∧
    ((header_of kernel).image_size ≠ 0 →
      (E.kexec_locate_mem_hole s.image
        { buffer := Buffer.kernel, bufsz := kernel_len, mem := 0,
          memsz := u64_add (header_of kernel).image_size (header_of kernel).text_offset,
          buf_align := E.MIN_KIMG_ALIGN, buf_min := 0, buf_max := ULONG_MAX,
          top_down := false }).1 ≠ 0 →
      image_load E fuel s kernel kernel_len initrd initrd_len cmdline cmdline_len =
        (Res.ret (E.kexec_locate_mem_hole s.image
            { buffer := Buffer.kernel, bufsz := kernel_len, mem := 0,
              memsz := u64_add (header_of kernel).image_size (header_of kernel).text_offset,
              buf_align := E.MIN_KIMG_ALIGN, buf_min := 0, buf_max := ULONG_MAX,
              top_down := false }).1,
          { s with requests := s.requests ++
              [({ buffer := Buffer.kernel, bufsz := kernel_len, mem := 0,
                  memsz := u64_add (header_of kernel).image_size (header_of kernel).text_offset,
                  buf_align := E.MIN_KIMG_ALIGN, buf_min := 0, buf_max := ULONG_MAX,
                  top_down := false },
                (E.kexec_locate_mem_hole s.image
                  { buffer := Buffer.kernel, bufsz := kernel_len, mem := 0,
                    memsz := u64_add (header_of kernel).image_size
                      (header_of kernel).text_offset,
                    buf_align := E.MIN_KIMG_ALIGN, buf_min := 0, buf_max := ULONG_MAX,
                    top_down := false }).1)] })) := by
  refine ⟨?_, ?_, ?_⟩
  · by_cases h0 : (header_of kernel).image_size = 0
    · rw [image_load_reject E fuel s kernel kernel_len initrd initrd_len cmdline cmdline_len h0]
      exact ⟨[], by simp, fun pre q post h => by simp at h, by simp, by simp⟩
    · obtain ⟨new, hreq, ff, sub, hlen⟩ := image_load_requests E fuel s kernel kernel_len
        initrd initrd_len cmdline cmdline_len h0
      refine ⟨_, hreq, ff, ?_, ?_⟩
      · rw [List.map_cons]
        exact List.Sublist.cons₂ _ sub
      · rw [hlen, List.filter_cons]
        by_cases hz : (E.kexec_locate_mem_hole s.image
            { buffer := Buffer.kernel, bufsz := kernel_len, mem := 0,
              memsz := u64_add (header_of kernel).image_size (header_of kernel).text_offset,
              buf_align := E.MIN_KIMG_ALIGN, buf_min := 0, buf_max := ULONG_MAX,
              top_down := false }).1 = 0
        · simp only [hz, if_true, decide_True, List.length_cons]
          omega
        · simp only [hz, if_false, decide_False]
          simp
  · obtain ⟨new, g, ff, sub⟩ := load_other_segments_grows E fuel s kernel_load_addr kernel_size
      initrd initrd_len cmdline
    obtain ⟨segs, hs, hl⟩ := g.segment
    exact ⟨new, g.requests, ff, sub, by rw [hs, List.length_append, hl]⟩
  · intro h0 hf
    exact image_load_alloc_fails E fuel s kernel kernel_len initrd initrd_len cmdline
      cmdline_len h0 _ rfl hf

theorem setup_dtb_success {β : Type} (O : SetupOps β) (image : kimage β) (crashk_res : resource)
    (random_ready : Int) (value : Nat) (initrd_load_addr initrd_len : Nat)
    (cmdline : Option (List Nat)) (dtb b : β)
    (h : setup_dtb O image crashk_res random_ready value initrd_load_addr initrd_len
      cmdline dtb = some (0, b)) :
    0 ≤ O.fdt_path_offset dtb "/chosen" ∧
    ∃ b1 b2 b3,
      setup_dtb_crash O image crashk_res (O.fdt_path_offset dtb "/chosen") dtb = some (0, b1) ∧
      setup_dtb_bootargs O cmdline (O.fdt_path_offset dtb "/chosen") b1 = (0, b2) ∧
      setup_dtb_initrd O initrd_load_addr initrd_len (O.fdt_path_offset dtb "/chosen") b2 =
        (0, b3) ∧
      setup_dtb_kaslr O random_ready value (O.fdt_path_offset dtb "/chosen") b3 = (0, b) := by
  unfold setup_dtb at h
  simp only at h
  by_cases hn : O.fdt_path_offset dtb "/chosen" < 0
  · rw [if_pos hn] at h
    simp [EINVAL] at h
  rw [if_neg hn] at h
  refine ⟨not_lt.1 hn, ?_⟩
  cases hc : setup_dtb_crash O image crashk_res (O.fdt_path_offset dtb "/chosen") dtb with
  | none => rw [hc] at h; simp at h
  | some r1 =>
    rw [hc] at h
    simp only at h
    by_cases h1 : r1.1 = 0
    swap
    · rw [if_pos h1] at h
      simp only [Option.some.injEq] at h
      rw [h] at h1
      exact absurd rfl h1
    rw [if_neg (by simpa using h1)] at h
    by_cases h2 : (setup_dtb_bootargs O cmdline (O.fdt_path_offset dtb "/chosen") r1.2).1 = 0
    swap
    · rw [if_pos h2] at h
      simp only [Option.some.injEq] at h
      rw [h] at h2
      exact absurd rfl h2
    rw [if_neg (by simpa using h2)] at h
    by_cases h3 : (setup_dtb_initrd O initrd_load_addr initrd_len
        (O.fdt_path_offset dtb "/chosen")
        (setup_dtb_bootargs O cmdline (O.fdt_path_offset dtb "/chosen") r1.2).2).1 = 0
    swap
    · rw [if_pos h3] at h
      simp only [Option.some.injEq] at h
      rw [h] at h3
      exact absurd rfl h3
    rw [if_neg (by simpa using h3)] at h
    simp only [Option.some.injEq] at h
    refine ⟨r1.2, (setup_dtb_bootargs O cmdline (O.fdt_path_offset dtb "/chosen") r1.2).2,
      (setup_dtb_initrd O initrd_load_addr initrd_len (O.fdt_path_offset dtb "/chosen")
        (setup_dtb_bootargs O cmdline (O.fdt_path_offset dtb "/chosen") r1.2).2).2,
      ?_, ?_, ?_, h⟩
    · rw [← h1]
    · rw [← h2]
    · rw [← h3]

theorem set_errno_ne_zero (r : Int) :
    (if r = -FDT_ERR_NOSPACE then -ENOMEM else -EINVAL) ≠ 0 := by
  split_ifs <;> simp [ENOMEM, EINVAL]

theorem setprop_ok {β : Type} {L : FdtLib β} (hL : FdtLaws L) (b : β) (n : Int)
    (name : String) (v : List Nat) (h : (L.fdt_setprop b n name v).1 = 0) :
    L.fdt_getprop (L.fdt_setprop b n name v).2 n name = some v ∧
    (∀ other, other ≠ name →
      L.fdt_getprop (L.fdt_setprop b n name v).2 n other = L.fdt_getprop b n other) ∧
    (name ≠ "#address-cells" → name ≠ "#size-cells" →
      L.fdt_address_cells (L.fdt_setprop b n name v).2 0 = L.fdt_address_cells b 0 ∧
      L.fdt_size_cells (L.fdt_setprop b n name v).2 0 = L.fdt_size_cells b 0) := by
  have e : L.fdt_setprop b n name v = (0, (L.fdt_setprop b n name v).2) := Prod.ext h rfl
  exact ⟨hL.setprop_get _ _ _ _ _ e, fun other ho => hL.setprop_other _ _ _ _ _ other e ho,
    fun h1 h2 => hL.setprop_cells _ _ _ _ _ e h1 h2⟩

theorem delprop_ok {β : Type} {L : FdtLib β} (hL : FdtLaws L) (b : β) (n : Int)
    (name : String)
    (h : ¬ ((L.fdt_delprop b n name).1 ≠ 0 ∧ (L.fdt_delprop b n name).1 ≠ -FDT_ERR_NOTFOUND)) :
    L.fdt_getprop (L.fdt_delprop b n name).2 n name = none ∧
    (∀ other, other ≠ name →
      L.fdt_getprop (L.fdt_delprop b n name).2 n other = L.fdt_getprop b n other) := by
  by_cases h0 : (L.fdt_delprop b n name).1 = 0
  · have e : L.fdt_delprop b n name = (0, (L.fdt_delprop b n name).2) := Prod.ext h0 rfl
    exact ⟨hL.delprop_get _ _ _ _ e, fun other ho => hL.delprop_other _ _ _ _ other e ho⟩
  · have h1 : (L.fdt_delprop b n name).1 = -FDT_ERR_NOTFOUND := by
      by_contra hne
      exact h ⟨h0, hne⟩
    have e : L.fdt_delprop b n name = (-FDT_ERR_NOTFOUND, (L.fdt_delprop b n name).2) :=
      Prod.ext h1 rfl
    obtain ⟨hb, hg⟩ := hL.delprop_notfound _ _ _ _ e
    rw [hb]
    exact ⟨hg, fun _ _ => rfl⟩

theorem setup_dtb_bootargs_ok {β : Type} {L : FdtLib β} (hL : FdtLaws L)
    (cmdline : Option (List Nat)) (n : Int) (b b1 : β)
    (h : setup_dtb_bootargs L.ops cmdline n b = (0, b1)) :
    (∀ str, cmdline = some str →
      L.fdt_getprop b1 n FDT_PSTR_BOOTARGS = some (cstring str ++ [0])) ∧
    (cmdline = none → L.fdt_getprop b1 n FDT_PSTR_BOOTARGS = none) ∧
    (∀ other, other ≠ FDT_PSTR_BOOTARGS → L.fdt_getprop b1 n other = L.fdt_getprop b n other) := by
  unfold setup_dtb_bootargs at h
  cases cmdline with
  | some str =>
    simp only [FdtLib.ops, fdt_setprop_string] at h
    by_cases hr : (L.fdt_setprop b n FDT_PSTR_BOOTARGS (cstring str ++ [0])).1 = 0
    · rw [if_neg (by simpa using hr)] at h
      obtain ⟨h1, h2, -⟩ := setprop_ok hL b n FDT_PSTR_BOOTARGS (cstring str ++ [0]) hr
      simp only [Prod.mk.injEq, true_and] at h
      rw [← h]
      refine ⟨?_, by simp, h2⟩
      intro s hs
      cases hs
      exact h1
    · rw [if_pos hr] at h
      exact absurd (congrArg Prod.fst h) (set_errno_ne_zero _)
  | none =>
    simp only [FdtLib.ops] at h
    by_cases hr : (L.fdt_delprop b n FDT_PSTR_BOOTARGS).1 ≠ 0 ∧
        (L.fdt_delprop b n FDT_PSTR_BOOTARGS).1 ≠ -FDT_ERR_NOTFOUND
    · rw [if_pos hr] at h
      simp [EINVAL] at h
    · rw [if_neg hr] at h
      obtain ⟨h1, h2⟩ := delprop_ok hL b n FDT_PSTR_BOOTARGS hr
      simp only [Prod.mk.injEq, true_and] at h
      rw [← h]
      exact ⟨by simp, fun _ => h1, h2⟩

theorem setup_dtb_initrd_ok {β : Type} {L : FdtLib β} (hL : FdtLaws L)
    (initrd_load_addr initrd_len : Nat) (n : Int) (b b1 : β)
    (h : setup_dtb_initrd L.ops initrd_load_addr initrd_len n b = (0, b1)) :
    (initrd_load_addr ≠ 0 →
      L.fdt_getprop b1 n FDT_PSTR_INITRD_STA = some (cpu_to_fdt64 initrd_load_addr) ∧
      L.fdt_getprop b1 n FDT_PSTR_INITRD_END =
        some (cpu_to_fdt64 (u64_add initrd_load_addr initrd_len))) ∧
    (initrd_load_addr = 0 →
      L.fdt_getprop b1 n FDT_PSTR_INITRD_STA = none ∧
      L.fdt_getprop b1 n FDT_PSTR_INITRD_END = none) ∧
    (∀ other, other ≠ FDT_PSTR_INITRD_STA → other ≠ FDT_PSTR_INITRD_END →
      L.fdt_getprop b1 n other = L.fdt_getprop b n other) := by
  have hne : FDT_PSTR_INITRD_STA ≠ FDT_PSTR_INITRD_END := by decide
  unfold setup_dtb_initrd at h
  by_cases ha : initrd_load_addr = 0
  · rw [if_neg (by simpa using ha)] at h
    simp only [FdtLib.ops] at h
    by_cases hr : (L.fdt_delprop b n FDT_PSTR_INITRD_STA).1 ≠ 0 ∧
        (L.fdt_delprop b n FDT_PSTR_INITRD_STA).1 ≠ -FDT_ERR_NOTFOUND
    · rw [if_pos hr] at h
      simp [EINVAL] at h
    rw [if_neg hr] at h
    by_cases hr2 : (L.fdt_delprop (L.fdt_delprop b n FDT_PSTR_INITRD_STA).2 n
        FDT_PSTR_INITRD_END).1 ≠ 0 ∧
        (L.fdt_delprop (L.fdt_delprop b n FDT_PSTR_INITRD_STA).2 n
          FDT_PSTR_INITRD_END).1 ≠ -FDT_ERR_NOTFOUND
    · rw [if_pos hr2] at h
      simp [EINVAL] at h
    rw [if_neg hr2] at h
    simp only [Prod.mk.injEq, true_and] at h
    obtain ⟨h1, h2⟩ := delprop_ok hL b n FDT_PSTR_INITRD_STA hr
    obtain ⟨h3, h4⟩ := delprop_ok hL _ n FDT_PSTR_INITRD_END hr2
    rw [← h]
    refine ⟨fun hc => absurd ha hc, fun _ => ⟨?_, h3⟩, ?_⟩
    · rw [h4 _ hne, h1]
    · intro other o1 o2
      rw [h4 _ o2, h2 _ o1]
  · rw [if_pos ha] at h
    simp only [FdtLib.ops, fdt_setprop_u64] at h
    by_cases hr : (L.fdt_setprop b n FDT_PSTR_INITRD_STA (cpu_to_fdt64 initrd_load_addr)).1 = 0
    swap
    · rw [if_pos hr] at h
      exact absurd (congrArg Prod.fst h) (set_errno_ne_zero _)
    rw [if_neg (by simpa using hr)] at h
    by_cases hr2 : (L.fdt_setprop
        (L.fdt_setprop b n FDT_PSTR_INITRD_STA (cpu_to_fdt64 initrd_load_addr)).2 n
        FDT_PSTR_INITRD_END (cpu_to_fdt64 (u64_add initrd_load_addr initrd_len))).1 = 0
    swap
    · rw [if_pos hr2] at h
      exact absurd (congrArg Prod.fst h) (set_errno_ne_zero _)
    rw [if_neg (by simpa using hr2)] at h
    simp only [Prod.mk.injEq, true_and] at h
    obtain ⟨h1, h2, -⟩ := setprop_ok hL b n FDT_PSTR_INITRD_STA _ hr
    obtain ⟨h3, h4, -⟩ := setprop_ok hL _ n FDT_PSTR_INITRD_END _ hr2
    rw [← h]
    refine ⟨fun _ => ⟨?_, h3⟩, fun hc => absurd hc ha, ?_⟩
    · rw [h4 _ hne, h1]
    · intro other o1 o2
      rw [h4 _ o2, h2 _ o1]

theorem setup_dtb_kaslr_ok {β : Type} {L : FdtLib β} (hL : FdtLaws L)
    (random_ready : Int) (value : Nat) (n : Int) (b b1 : β)
    (h : setup_dtb_kaslr L.ops random_ready value n b = (0, b1)) :
    (random_ready ≠ 0 → L.fdt_getprop b1 n FDT_PSTR_KASLR_SEED = some (cpu_to_fdt64 value)) ∧
    (random_ready = 0 → L.fdt_getprop b1 n FDT_PSTR_KASLR_SEED = none) ∧
    (∀ other, other ≠ FDT_PSTR_KASLR_SEED →
      L.fdt_getprop b1 n other = L.fdt_getprop b n other) := by
  unfold setup_dtb_kaslr at h
  simp only [FdtLib.ops, fdt_setprop_u64] at h
  by_cases hr : (L.fdt_delprop b n FDT_PSTR_KASLR_SEED).1 ≠ 0 ∧
      (L.fdt_delprop b n FDT_PSTR_KASLR_SEED).1 ≠ -FDT_ERR_NOTFOUND
  · rw [if_pos hr] at h
    simp [EINVAL] at h
  rw [if_neg hr] at h
  obtain ⟨h1, h2⟩ := delprop_ok hL b n FDT_PSTR_KASLR_SEED hr
  by_cases hrr : random_ready = 0
  · rw [if_neg (by simpa using hrr)] at h
    simp only [Prod.mk.injEq, true_and] at h
    rw [← h]
    exact ⟨fun hc => absurd hrr hc, fun _ => h1, h2⟩
  · rw [if_pos hrr] at h
    by_cases hr2 : (L.fdt_setprop (L.fdt_delprop b n FDT_PSTR_KASLR_SEED).2 n
        FDT_PSTR_KASLR_SEED (cpu_to_fdt64 value)).1 = 0
    swap
    · rw [if_pos hr2] at h
      exact absurd (congrArg Prod.fst h) (set_errno_ne_zero _)
    rw [if_neg (by simpa using hr2)] at h
    simp only [Prod.mk.injEq, true_and] at h
    obtain ⟨h3, h4, -⟩ := setprop_ok hL _ n FDT_PSTR_KASLR_SEED _ hr2
    rw [← h]
    refine ⟨fun _ => h3, fun hc => absurd hc hrr, ?_⟩
    intro other o1
    rw [h4 _ o1, h2 _ o1]

theorem be_to_cpu_fdt32 (x : Nat) : be_to_cpu (cpu_to_fdt32 x) = x % 2 ^ 32 := by
  simp only [be_to_cpu, cpu_to_fdt32, List.foldl]
  omega

theorem be_to_cpu_fdt64 (x : Nat) : be_to_cpu (cpu_to_fdt64 x) = x % 2 ^ 64 := by
  simp only [be_to_cpu, cpu_to_fdt64, cpu_to_fdt32, List.foldl, List.cons_append,
    List.nil_append]
  omega

theorem cells_length (x : Nat) : ∀ cells, (cpu64_to_fdt_cells x cells).length = 4 * cells
  | 0 => by simp [cpu64_to_fdt_cells]
  | c + 1 => by
    simp only [cpu64_to_fdt_cells, List.length_append, cells_length x c]
    simp only [cpu_to_fdt32, List.length_cons, List.length_nil]
    omega

theorem be_to_cpu_cells_one (x : Nat) (h : x ≤ U32_MAX) :
    be_to_cpu (cpu64_to_fdt_cells x 1) = x := by
  simp only [cpu64_to_fdt_cells, List.append_nil, Nat.mul_zero, Nat.shiftRight_zero,
    be_to_cpu_fdt32]
  simp only [U32_MAX] at h
  omega

theorem be_to_cpu_cells_two (x : Nat) (h : x < 2 ^ 64) :
    be_to_cpu (cpu64_to_fdt_cells x 2) = x := by
  simp only [cpu64_to_fdt_cells, List.append_nil, Nat.mul_zero, Nat.shiftRight_zero,
    Nat.mul_one, Nat.shiftRight_eq_div_pow, Nat.pow_zero, Nat.div_one]
  have := be_to_cpu_fdt64 x
  simp only [cpu_to_fdt64] at this
  rw [this]
  omega

theorem be_to_cpu_cells (x cells : Nat) (hc : cells = 1 ∨ cells = 2) (hx : x < 2 ^ 64)
    (h1 : cells = 1 → x ≤ U32_MAX) : be_to_cpu (cpu64_to_fdt_cells x cells) = x := by
  rcases hc with rfl | rfl
  · exact be_to_cpu_cells_one x (h1 rfl)
  · exact be_to_cpu_cells_two x hx

theorem reg_decode (addr size ac sc : Nat) (hac : ac = 1 ∨ ac = 2) (hsc : sc = 1 ∨ sc = 2)
    (ha : addr < 2 ^ 64) (hs : size < 2 ^ 64) (ha1 : ac = 1 → addr ≤ U32_MAX)
    (hs1 : sc = 1 → size ≤ U32_MAX) :
    (be_to_cpu ((cpu64_to_fdt_cells addr ac ++ cpu64_to_fdt_cells size sc).take (4 * ac)),
      be_to_cpu (((cpu64_to_fdt_cells addr ac ++ cpu64_to_fdt_cells size sc).drop
        (4 * ac)).take (4 * sc))) = (addr, size) := by
  have l1 := cells_length addr ac
  have l2 := cells_length size sc
  rw [List.take_left' l1, List.drop_left' l1, List.take_of_length_le (le_of_eq l2),
    be_to_cpu_cells addr ac hac ha ha1, be_to_cpu_cells size sc hsc hs hs1]

theorem fdt_setprop_reg_ok {β : Type} (L : FdtLib β) (b : β) (n : Int) (name : String)
    (addr size : Nat) (r : Int × β) (h : fdt_setprop_reg L b n name addr size = some r)
    (h0 : r.1 = 0) :
    0 ≤ L.fdt_address_cells b 0 ∧ L.fdt_address_cells b 0 ≤ 2 ∧
    0 ≤ L.fdt_size_cells b 0 ∧ L.fdt_size_cells b 0 ≤ 2 ∧
    (L.fdt_address_cells b 0 = 1 → addr ≤ U32_MAX ∧ u64_add addr size ≤ U32_MAX) ∧
    (L.fdt_size_cells b 0 = 1 → size ≤ U32_MAX) ∧
    r = L.fdt_setprop b n name
      (cpu64_to_fdt_cells addr (L.fdt_address_cells b 0).toNat ++
        cpu64_to_fdt_cells size (L.fdt_size_cells b 0).toNat) := by
  unfold fdt_setprop_reg at h
  simp only at h
  by_cases c1 : L.fdt_address_cells b 0 < 0
  · rw [if_pos c1] at h
    simp only [Option.some.injEq] at h
    rw [← h] at h0
    simp only at h0
    omega
  rw [if_neg c1] at h
  by_cases c2 : L.fdt_size_cells b 0 < 0
  · rw [if_pos c2] at h
    simp only [Option.some.injEq] at h
    rw [← h] at h0
    simp only at h0
    omega
  rw [if_neg c2] at h
  by_cases c3 : L.fdt_address_cells b 0 = 1 ∧ (addr > U32_MAX ∨ u64_add addr size > U32_MAX)
  · rw [if_pos c3] at h
    simp only [Option.some.injEq] at h
    rw [← h] at h0
    simp [FDT_ERR_BADVALUE] at h0
  rw [if_neg c3] at h
  by_cases c4 : L.fdt_size_cells b 0 = 1 ∧ size > U32_MAX
  · rw [if_pos c4] at h
    simp only [Option.some.injEq] at h
    rw [← h] at h0
    simp [FDT_ERR_BADVALUE] at h0
  rw [if_neg c4] at h
  by_cases c5 : 2 < L.fdt_address_cells b 0 ∨ 2 < L.fdt_size_cells b 0
  · rw [if_pos c5] at h
    simp at h
  rw [if_neg c5] at h
  simp only [Option.some.injEq] at h
  push_neg at c1 c2 c3 c4 c5
  refine ⟨c1, c5.1, c2, c5.2, ?_, c4, h.symm⟩
  intro h1
  have := c3 h1
  exact ⟨this.1, this.2⟩

theorem setupcall_errno_ne_zero (c : SetupCall) : c.errno ≠ 0 := by
  cases c with
  | set name r => exact set_errno_ne_zero r
  | del name r => simp [SetupCall.errno, EINVAL]

theorem setuptrace_nil : SetupTrace [] 0 :=
  ⟨fun pre c post h => by simp at h, fun _ => rfl⟩

theorem setuptrace_single (c : SetupCall) (code : Int)
    (h1 : c.fails = true → code = c.errno) (h2 : c.fails = false → code = 0) :
    SetupTrace [c] code := by
  constructor
  · intro pre c1 post he hf
    cases pre with
    | nil =>
      simp at he
      obtain ⟨rfl, rfl⟩ := he
      exact ⟨rfl, h1 hf⟩
    | cons a pre => simp at he
  · intro h
    exact h2 (h c (by simp))

theorem setuptrace_append {A B : List SetupCall} {code : Int}
    (hA : ∀ c ∈ A, c.fails = false) (hB : SetupTrace B code) : SetupTrace (A ++ B) code := by
  constructor
  · intro pre c post he hf
    rcases List.append_eq_append_iff.1 he with ⟨a1, h1, h2⟩ | ⟨c1, h1, h2⟩
    · exact hB.1 a1 c post h2 hf
    · cases c1 with
      | nil =>
        simp at h1 h2
        exact hB.1 [] c post (by simpa using h2.symm) hf
      | cons d c1 =>
        simp at h2
        have : c ∈ A := by
          rw [h1, ← h2.1]
          simp
        rw [hA c this] at hf
        exact absurd hf (by simp)
  · intro h
    exact hB.2 (fun c hc => h c (List.mem_append_right A hc))

theorem setuptrace_no_fail {A : List SetupCall} {code : Int} (h : SetupTrace A code)
    (h0 : code = 0) : ∀ c ∈ A, c.fails = false := by
  intro c hc
  obtain ⟨pre, post, he⟩ := List.append_of_mem hc
  by_contra hf
  have hf1 : c.fails = true := by simpa using hf
  have := (h.1 pre c post he hf1).2
  rw [h0] at this
  exact setupcall_errno_ne_zero c this.symm

theorem set_call_trace (name : String) (r : Int) :
    SetupTrace [SetupCall.set name r]
      (if r ≠ 0 then (if r = -FDT_ERR_NOSPACE then -ENOMEM else -EINVAL) else 0) := by
  apply setuptrace_single
  · intro hf
    simp only [SetupCall.fails, decide_eq_true_eq] at hf
    rw [if_pos hf]
    rfl
  · intro hf
    simp only [SetupCall.fails, decide_eq_false_iff_not, not_not] at hf
    simp [hf]

theorem del_call_trace (name : String) (r : Int) :
    SetupTrace [SetupCall.del name r]
      (if r ≠ 0 ∧ r ≠ -FDT_ERR_NOTFOUND then -EINVAL else 0) := by
  apply setuptrace_single
  · intro hf
    simp only [SetupCall.fails, decide_eq_true_eq] at hf
    rw [if_pos hf]
    rfl
  · intro hf
    simp only [SetupCall.fails, decide_eq_false_iff_not] at hf
    rw [if_neg hf]

theorem setup_dtb_bootargs_logged {β : Type} (O : SetupOps β) (cmdline : Option (List Nat))
    (n : Int) (b : β) (tr0 : List SetupCall) :
    ∃ new, setup_dtb_bootargs O.logged cmdline n (b, tr0) =
        ((setup_dtb_bootargs O cmdline n b).1, ((setup_dtb_bootargs O cmdline n b).2, tr0 ++ new)) ∧
      SetupTrace new (setup_dtb_bootargs O cmdline n b).1 ∧
      new ≠ [] ∧
      ∀ c ∈ new, c.name = FDT_PSTR_BOOTARGS := by
  unfold setup_dtb_bootargs
  cases cmdline with
  | some str =>
    refine ⟨[SetupCall.set FDT_PSTR_BOOTARGS (O.fdt_setprop_string b n FDT_PSTR_BOOTARGS str).1],
      ?_, ?_, by simp, by simp [SetupCall.name]⟩
    · simp only [SetupOps.logged]
      by_cases hr : (O.fdt_setprop_string b n FDT_PSTR_BOOTARGS str).1 = 0 <;> simp [hr]
    · have := set_call_trace FDT_PSTR_BOOTARGS (O.fdt_setprop_string b n FDT_PSTR_BOOTARGS str).1
      by_cases hr : (O.fdt_setprop_string b n FDT_PSTR_BOOTARGS str).1 = 0
      · simpa [hr] using this
      · simpa [hr] using this
  | none =>
    refine ⟨[SetupCall.del FDT_PSTR_BOOTARGS (O.fdt_delprop b n FDT_PSTR_BOOTARGS).1],
      ?_, ?_, by simp, by simp [SetupCall.name]⟩
    · simp only [SetupOps.logged]
      by_cases hr : (O.fdt_delprop b n FDT_PSTR_BOOTARGS).1 ≠ 0 ∧
        (O.fdt_delprop b n FDT_PSTR_BOOTARGS).1 ≠ -FDT_ERR_NOTFOUND
      · rw [if_pos hr, if_pos hr]
      · rw [if_neg hr, if_neg hr]
    · have := del_call_trace FDT_PSTR_BOOTARGS (O.fdt_delprop b n FDT_PSTR_BOOTARGS).1
      by_cases hr : (O.fdt_delprop b n FDT_PSTR_BOOTARGS).1 ≠ 0 ∧
        (O.fdt_delprop b n FDT_PSTR_BOOTARGS).1 ≠ -FDT_ERR_NOTFOUND
      · rw [if_pos hr] at this ⊢
        exact this
      · rw [if_neg hr] at this ⊢
        exact this

theorem del_fail_trace (name : String) (r : Int) (h : r ≠ 0 ∧ r ≠ -FDT_ERR_NOTFOUND) :
    SetupTrace [SetupCall.del name r] (-EINVAL) := by
  have := del_call_trace name r
  rwa [if_pos h] at this

theorem del_ok_fails (name : String) (r : Int) (h : ¬ (r ≠ 0 ∧ r ≠ -FDT_ERR_NOTFOUND)) :
    (SetupCall.del name r).fails = false := by
  simp only [SetupCall.fails, decide_eq_false_iff_not]
  exact h

theorem set_fail_trace (name : String) (r : Int) (h : r ≠ 0) :
    SetupTrace [SetupCall.set name r] (if r = -FDT_ERR_NOSPACE then -ENOMEM else -EINVAL) := by
  have := set_call_trace name r
  rwa [if_pos h] at this

theorem set_ok_fails (name : String) (r : Int) (h : r = 0) :
    (SetupCall.set name r).fails = false := by
  simp [SetupCall.fails, h]

theorem ok_trace (c : SetupCall) (h : c.fails = false) : SetupTrace [c] 0 :=
  setuptrace_single c 0 (fun hf => by rw [h] at hf; exact absurd hf (by simp)) (fun _ => rfl)

theorem ok_ok_trace (c d : SetupCall) (code : Int) (h : c.fails = false)
    (hd : SetupTrace [d] code) : SetupTrace [c, d] code :=
  setuptrace_append (A := [c]) (by simpa using h) hd

theorem setup_dtb_initrd_logged {β : Type} (O : SetupOps β) (a l : Nat)
    (n : Int) (b : β) (tr0 : List SetupCall) :
    ∃ new, setup_dtb_initrd O.logged a l n (b, tr0) =
        ((setup_dtb_initrd O a l n b).1, ((setup_dtb_initrd O a l n b).2, tr0 ++ new)) ∧
      SetupTrace new (setup_dtb_initrd O a l n b).1 ∧
      new ≠ [] ∧
      ∀ c ∈ new, c.name = FDT_PSTR_INITRD_STA ∨ c.name = FDT_PSTR_INITRD_END := by
  unfold setup_dtb_initrd
  simp only [SetupOps.logged]
  by_cases ha : a = 0
  · have ha1 : ¬ a ≠ 0 := by simpa using ha
    simp only [if_neg ha1]
    by_cases h1 : (O.fdt_delprop b n FDT_PSTR_INITRD_STA).1 ≠ 0 ∧
        (O.fdt_delprop b n FDT_PSTR_INITRD_STA).1 ≠ -FDT_ERR_NOTFOUND
    · simp only [if_pos h1]
      exact ⟨[SetupCall.del FDT_PSTR_INITRD_STA (O.fdt_delprop b n FDT_PSTR_INITRD_STA).1],
        rfl, del_fail_trace _ _ h1, by simp, by simp [SetupCall.name]⟩
    · simp only [if_neg h1]
      by_cases h2 : (O.fdt_delprop (O.fdt_delprop b n FDT_PSTR_INITRD_STA).2 n
          FDT_PSTR_INITRD_END).1 ≠ 0 ∧
          (O.fdt_delprop (O.fdt_delprop b n FDT_PSTR_INITRD_STA).2 n
            FDT_PSTR_INITRD_END).1 ≠ -FDT_ERR_NOTFOUND
      · simp only [if_pos h2]
        exact ⟨[SetupCall.del FDT_PSTR_INITRD_STA (O.fdt_delprop b n FDT_PSTR_INITRD_STA).1,
            SetupCall.del FDT_PSTR_INITRD_END
              (O.fdt_delprop (O.fdt_delprop b n FDT_PSTR_INITRD_STA).2 n
                FDT_PSTR_INITRD_END).1],
          by simp, ok_ok_trace _ _ _ (del_ok_fails _ _ h1) (del_fail_trace _ _ h2), by simp,
          by simp [SetupCall.name]⟩
      · simp only [if_neg h2]
        exact ⟨[SetupCall.del FDT_PSTR_INITRD_STA (O.fdt_delprop b n FDT_PSTR_INITRD_STA).1,
            SetupCall.del FDT_PSTR_INITRD_END
              (O.fdt_delprop (O.fdt_delprop b n FDT_PSTR_INITRD_STA).2 n
                FDT_PSTR_INITRD_END).1],
          by simp, ok_ok_trace _ _ _ (del_ok_fails _ _ h1) (ok_trace _ (del_ok_fails _ _ h2)),
          by simp, by simp [SetupCall.name]⟩
  · simp only [if_pos ha]
    by_cases h1 : (O.fdt_setprop_u64 b n FDT_PSTR_INITRD_STA a).1 = 0
    · have h1n : ¬ (O.fdt_setprop_u64 b n FDT_PSTR_INITRD_STA a).1 ≠ 0 := by simpa using h1
      simp only [if_neg h1n]
      by_cases h2 : (O.fdt_setprop_u64 (O.fdt_setprop_u64 b n FDT_PSTR_INITRD_STA a).2 n
          FDT_PSTR_INITRD_END (u64_add a l)).1 = 0
      · have h2n : ¬ (O.fdt_setprop_u64 (O.fdt_setprop_u64 b n FDT_PSTR_INITRD_STA a).2 n
            FDT_PSTR_INITRD_END (u64_add a l)).1 ≠ 0 := by simpa using h2
        simp only [if_neg h2n]
        exact ⟨[SetupCall.set FDT_PSTR_INITRD_STA (O.fdt_setprop_u64 b n FDT_PSTR_INITRD_STA a).1,
            SetupCall.set FDT_PSTR_INITRD_END
              (O.fdt_setprop_u64 (O.fdt_setprop_u64 b n FDT_PSTR_INITRD_STA a).2 n
                FDT_PSTR_INITRD_END (u64_add a l)).1],
          by simp, ok_ok_trace _ _ _ (set_ok_fails _ _ h1) (ok_trace _ (set_ok_fails _ _ h2)),
          by simp, by simp [SetupCall.name]⟩
      · simp only [if_pos h2]
        exact ⟨[SetupCall.set FDT_PSTR_INITRD_STA (O.fdt_setprop_u64 b n FDT_PSTR_INITRD_STA a).1,
            SetupCall.set FDT_PSTR_INITRD_END
              (O.fdt_setprop_u64 (O.fdt_setprop_u64 b n FDT_PSTR_INITRD_STA a).2 n
                FDT_PSTR_INITRD_END (u64_add a l)).1],
          by simp, ok_ok_trace _ _ _ (set_ok_fails _ _ h1) (set_fail_trace _ _ h2),
          by simp, by simp [SetupCall.name]⟩
    · simp only [if_pos h1]
      exact ⟨[SetupCall.set FDT_PSTR_INITRD_STA (O.fdt_setprop_u64 b n FDT_PSTR_INITRD_STA a).1],
        rfl, set_fail_trace _ _ h1, by simp, by simp [SetupCall.name]⟩

theorem setup_dtb_kaslr_logged {β : Type} (O : SetupOps β) (random_ready : Int) (value : Nat)
    (n : Int) (b : β) (tr0 : List SetupCall) :
    ∃ new, setup_dtb_kaslr O.logged random_ready value n (b, tr0) =
        ((setup_dtb_kaslr O random_ready value n b).1,
          ((setup_dtb_kaslr O random_ready value n b).2, tr0 ++ new)) ∧
      SetupTrace new (setup_dtb_kaslr O random_ready value n b).1 ∧
      new ≠ [] ∧
      ∀ c ∈ new, c.name = FDT_PSTR_KASLR_SEED := by
  unfold setup_dtb_kaslr
  simp only [SetupOps.logged]
  by_cases h1 : (O.fdt_delprop b n FDT_PSTR_KASLR_SEED).1 ≠ 0 ∧
      (O.fdt_delprop b n FDT_PSTR_KASLR_SEED).1 ≠ -FDT_ERR_NOTFOUND
  · simp only [if_pos h1]
    exact ⟨[SetupCall.del FDT_PSTR_KASLR_SEED (O.fdt_delprop b n FDT_PSTR_KASLR_SEED).1],
      rfl, del_fail_trace _ _ h1, by simp, by simp [SetupCall.name]⟩
  · simp only [if_neg h1]
    by_cases hrr : random_ready = 0
    · have hrn : ¬ random_ready ≠ 0 := by simpa using hrr
      simp only [if_neg hrn]
      exact ⟨[SetupCall.del FDT_PSTR_KASLR_SEED (O.fdt_delprop b n FDT_PSTR_KASLR_SEED).1],
        rfl, ok_trace _ (del_ok_fails _ _ h1), by simp, by simp [SetupCall.name]⟩
    · simp only [if_pos hrr]
      by_cases h2 : (O.fdt_setprop_u64 (O.fdt_delprop b n FDT_PSTR_KASLR_SEED).2 n
          FDT_PSTR_KASLR_SEED value).1 = 0
      · have h2n : ¬ (O.fdt_setprop_u64 (O.fdt_delprop b n FDT_PSTR_KASLR_SEED).2 n
            FDT_PSTR_KASLR_SEED value).1 ≠ 0 := by simpa using h2
        simp only [if_neg h2n]
        exact ⟨[SetupCall.del FDT_PSTR_KASLR_SEED (O.fdt_delprop b n FDT_PSTR_KASLR_SEED).1,
            SetupCall.set FDT_PSTR_KASLR_SEED
              (O.fdt_setprop_u64 (O.fdt_delprop b n FDT_PSTR_KASLR_SEED).2 n
                FDT_PSTR_KASLR_SEED value).1],
          by simp, ok_ok_trace _ _ _ (del_ok_fails _ _ h1) (ok_trace _ (set_ok_fails _ _ h2)),
          by simp, by simp [SetupCall.name]⟩
      · simp only [if_pos h2]
        exact ⟨[SetupCall.del FDT_PSTR_KASLR_SEED (O.fdt_delprop b n FDT_PSTR_KASLR_SEED).1,
            SetupCall.set FDT_PSTR_KASLR_SEED
              (O.fdt_setprop_u64 (O.fdt_delprop b n FDT_PSTR_KASLR_SEED).2 n
                FDT_PSTR_KASLR_SEED value).1],
          by simp, ok_ok_trace _ _ _ (del_ok_fails _ _ h1) (set_fail_trace _ _ h2),
          by simp, by simp [SetupCall.name]⟩

theorem setup_dtb_crash_logged {β : Type} (O : SetupOps β)
    (image : kimage (β × List SetupCall)) (res : resource) (n : Int) (b : β)
    (tr0 : List SetupCall) :
    (setup_dtb_crash O (image.retype : kimage β) res n b = none →
      setup_dtb_crash O.logged image res n (b, tr0) = none) ∧
    (∀ r, setup_dtb_crash O (image.retype : kimage β) res n b = some r →
      ∃ new, setup_dtb_crash O.logged image res n (b, tr0) = some (r.1, (r.2, tr0 ++ new)) ∧
        SetupTrace new r.1 ∧
        (image.type ≠ KEXEC_TYPE_CRASH → new = []) ∧
        ∀ c ∈ new, c.name = FDT_PSTR_KEXEC_ELFHDR ∨ c.name = FDT_PSTR_MEM_RANGE) := by
  unfold setup_dtb_crash
  simp only [SetupOps.logged, kimage.retype]
  by_cases ht : image.type = KEXEC_TYPE_CRASH
  swap
  · simp only [if_neg ht]
    refine ⟨fun h => by simp at h, fun r hr => ?_⟩
    simp only [Option.some.injEq] at hr
    rw [← hr]
    exact ⟨[], by simp, setuptrace_nil, fun _ => rfl, by simp⟩
  simp only [if_pos ht]
  cases h1 : O.fdt_setprop_reg b n FDT_PSTR_KEXEC_ELFHDR image.arch.elf_headers_mem
      image.arch.elf_headers_sz with
  | none => simp
  | some r1 =>
    simp only [Option.map_some']
    by_cases hr1 : r1.1 = 0
    swap
    · simp only [if_pos hr1]
      refine ⟨fun h => by simp at h, fun r hr => ?_⟩
      simp only [Option.some.injEq] at hr
      rw [← hr]
      exact ⟨[SetupCall.set FDT_PSTR_KEXEC_ELFHDR r1.1], rfl, set_fail_trace _ _ hr1,
        fun h => absurd ht h, by simp [SetupCall.name]⟩
    have hr1n : ¬ r1.1 ≠ 0 := by simpa using hr1
    simp only [if_neg hr1n]
    cases h2 : O.fdt_setprop_reg r1.2 n FDT_PSTR_MEM_RANGE res.start
        (u64_add (u64_sub res.end_ res.start) 1) with
    | none => simp
    | some r2 =>
      simp only [Option.map_some']
      by_cases hr2 : r2.1 = 0
      swap
      · simp only [if_pos hr2]
        refine ⟨fun h => by simp at h, fun r hr => ?_⟩
        simp only [Option.some.injEq] at hr
        rw [← hr]
        exact ⟨[SetupCall.set FDT_PSTR_KEXEC_ELFHDR r1.1, SetupCall.set FDT_PSTR_MEM_RANGE r2.1],
          by simp, ok_ok_trace _ _ _ (set_ok_fails _ _ hr1) (set_fail_trace _ _ hr2),
          fun h => absurd ht h, by simp [SetupCall.name]⟩
      have hr2n : ¬ r2.1 ≠ 0 := by simpa using hr2
      simp only [if_neg hr2n]
      refine ⟨fun h => by simp at h, fun r hr => ?_⟩
      simp only [Option.some.injEq] at hr
      rw [← hr]
      exact ⟨[SetupCall.set FDT_PSTR_KEXEC_ELFHDR r1.1, SetupCall.set FDT_PSTR_MEM_RANGE r2.1],
        by simp, ok_ok_trace _ _ _ (set_ok_fails _ _ hr1) (ok_trace _ (set_ok_fails _ _ hr2)),
        fun h => absurd ht h, by simp [SetupCall.name]⟩

theorem setup_dtb_logged {β : Type} (O : SetupOps β)
    (image : kimage (β × List SetupCall)) (res : resource) (random_ready : Int) (value : Nat)
    (a l : Nat) (cmdline : Option (List Nat)) (b : β) :
    (setup_dtb O (image.retype : kimage β) res random_ready value a l cmdline b = none →
      setup_dtb O.logged image res random_ready value a l cmdline (b, []) = none) ∧
    (∀ r, setup_dtb O (image.retype : kimage β) res random_ready value a l cmdline b = some r →
      ∃ tr, setup_dtb O.logged image res random_ready value a l cmdline (b, []) =
          some (r.1, (r.2, tr)) ∧
        (O.fdt_path_offset b "/chosen" < 0 → tr = [] ∧ r.1 = -EINVAL) ∧
        (0 ≤ O.fdt_path_offset b "/chosen" → tr ≠ [] ∧ SetupTrace tr r.1) ∧
        (∀ c ∈ tr, c.name = FDT_PSTR_KEXEC_ELFHDR ∨ c.name = FDT_PSTR_MEM_RANGE ∨
          c.name = FDT_PSTR_BOOTARGS ∨ c.name = FDT_PSTR_INITRD_STA ∨
          c.name = FDT_PSTR_INITRD_END ∨ c.name = FDT_PSTR_KASLR_SEED) ∧
        (image.type ≠ KEXEC_TYPE_CRASH →
          ∀ c ∈ tr, c.name = FDT_PSTR_BOOTARGS ∨ c.name = FDT_PSTR_INITRD_STA ∨
            c.name = FDT_PSTR_INITRD_END ∨ c.name = FDT_PSTR_KASLR_SEED) ∧
        (r.1 = 0 → ∃ pre c, tr = pre ++ [c] ∧ c.name = FDT_PSTR_KASLR_SEED)) := by
  unfold setup_dtb
  have hp : (SetupOps.logged O).fdt_path_offset (b, []) "/chosen" =
      O.fdt_path_offset b "/chosen" := rfl
  simp only [hp]
  by_cases hn : O.fdt_path_offset b "/chosen" < 0
  · simp only [if_pos hn]
    refine ⟨fun h => by simp at h, fun r hr => ?_⟩
    simp only [Option.some.injEq] at hr
    rw [← hr]
    exact ⟨[], rfl, fun _ => ⟨rfl, rfl⟩, fun h => absurd hn (not_lt.2 h), by simp, by simp,
      fun h => by simp [EINVAL] at h⟩
  simp only [if_neg hn]
  obtain ⟨c1, c2⟩ := setup_dtb_crash_logged O image res (O.fdt_path_offset b "/chosen") b []
  cases h1 : setup_dtb_crash O (image.retype : kimage β) res (O.fdt_path_offset b "/chosen") b with
  | none =>
    rw [c1 h1]
    simp
  | some r1 =>
    obtain ⟨n1, e1, t1, ty1, nm1⟩ := c2 r1 h1
    rw [e1]
    simp only [List.nil_append]
    by_cases hr1 : r1.1 = 0
    swap
    · simp only [if_pos hr1]
      refine ⟨fun h => by simp at h, fun r hr => ?_⟩
      simp only [Option.some.injEq] at hr
      rw [← hr]
      refine ⟨n1, rfl, fun h => absurd h hn, fun _ => ⟨?_, t1⟩, ?_, ?_, fun h => absurd h hr1⟩
      · intro hnil
        rw [hnil] at t1
        exact hr1 (t1.2 (by simp))
      · intro c hc
        rcases nm1 c hc with h | h
        · exact Or.inl h
        · exact Or.inr (Or.inl h)
      · intro hty c hc
        rw [ty1 hty] at hc
        simp at hc
    have hr1n : ¬ r1.1 ≠ 0 := by simpa using hr1
    simp only [if_neg hr1n]
    have z1 := setuptrace_no_fail t1 hr1
    obtain ⟨n2, e2, t2, ne2, nm2⟩ := setup_dtb_bootargs_logged O cmdline
      (O.fdt_path_offset b "/chosen") r1.2 n1
    rw [e2]
    simp only
    have names12 : ∀ c ∈ n1 ++ n2, c.name = FDT_PSTR_KEXEC_ELFHDR ∨ c.name = FDT_PSTR_MEM_RANGE ∨
        c.name = FDT_PSTR_BOOTARGS ∨ c.name = FDT_PSTR_INITRD_STA ∨
        c.name = FDT_PSTR_INITRD_END ∨ c.name = FDT_PSTR_KASLR_SEED := by
      intro c hc
      rcases List.mem_append.1 hc with h | h
      · rcases nm1 c h with h | h
        · exact Or.inl h
        · exact Or.inr (Or.inl h)
      · exact Or.inr (Or.inr (Or.inl (nm2 c h)))
    have names12b : image.type ≠ KEXEC_TYPE_CRASH →
        ∀ c ∈ n1 ++ n2, c.name = FDT_PSTR_BOOTARGS ∨ c.name = FDT_PSTR_INITRD_STA ∨
          c.name = FDT_PSTR_INITRD_END ∨ c.name = FDT_PSTR_KASLR_SEED := by
      intro hty c hc
      rw [ty1 hty, List.nil_append] at hc
      exact Or.inl (nm2 c hc)
    by_cases hr2 : (setup_dtb_bootargs O cmdline (O.fdt_path_offset b "/chosen") r1.2).1 = 0
    swap
    · simp only [if_pos hr2]
      refine ⟨fun h => by simp at h, fun r hr => ?_⟩
      simp only [Option.some.injEq] at hr
      rw [← hr]
      exact ⟨n1 ++ n2, rfl, fun h => absurd h hn,
        fun _ => ⟨by simp [ne2], setuptrace_append z1 t2⟩, names12, names12b,
        fun h => absurd h hr2⟩
    have hr2n : ¬ (setup_dtb_bootargs O cmdline (O.fdt_path_offset b "/chosen") r1.2).1 ≠ 0 := by
      simpa using hr2
    simp only [if_neg hr2n]
    have z2 := setuptrace_no_fail t2 hr2
    have z12 : ∀ c ∈ n1 ++ n2, c.fails = false := by
      intro c hc
      rcases List.mem_append.1 hc with h | h
      · exact z1 c h
      · exact z2 c h
    obtain ⟨n3, e3, t3, ne3, nm3⟩ := setup_dtb_initrd_logged O a l
      (O.fdt_path_offset b "/chosen")
      (setup_dtb_bootargs O cmdline (O.fdt_path_offset b "/chosen") r1.2).2 (n1 ++ n2)
    rw [e3]
    simp only
    have names123 : ∀ c ∈ n1 ++ n2 ++ n3,
        c.name = FDT_PSTR_KEXEC_ELFHDR ∨ c.name = FDT_PSTR_MEM_RANGE ∨
        c.name = FDT_PSTR_BOOTARGS ∨ c.name = FDT_PSTR_INITRD_STA ∨
        c.name = FDT_PSTR_INITRD_END ∨ c.name = FDT_PSTR_KASLR_SEED := by
      intro c hc
      rcases List.mem_append.1 hc with h | h
      · exact names12 c h
      · rcases nm3 c h with h | h
        · exact Or.inr (Or.inr (Or.inr (Or.inl h)))
        · exact Or.inr (Or.inr (Or.inr (Or.inr (Or.inl h))))
    have names123b : image.type ≠ KEXEC_TYPE_CRASH →
        ∀ c ∈ n1 ++ n2 ++ n3, c.name = FDT_PSTR_BOOTARGS ∨ c.name = FDT_PSTR_INITRD_STA ∨
          c.name = FDT_PSTR_INITRD_END ∨ c.name = FDT_PSTR_KASLR_SEED := by
      intro hty c hc
      rcases List.mem_append.1 hc with h | h
      · exact names12b hty c h
      · rcases nm3 c h with h | h
        · exact Or.inr (Or.inl h)
        · exact Or.inr (Or.inr (Or.inl h))
    by_cases hr3 : (setup_dtb_initrd O a l (O.fdt_path_offset b "/chosen")
        (setup_dtb_bootargs O cmdline (O.fdt_path_offset b "/chosen") r1.2).2).1 = 0
    swap
    · simp only [if_pos hr3]
      refine ⟨fun h => by simp at h, fun r hr => ?_⟩
      simp only [Option.some.injEq] at hr
      rw [← hr]
      exact ⟨n1 ++ n2 ++ n3, rfl, fun h => absurd h hn,
        fun _ => ⟨by simp [ne3], setuptrace_append z12 t3⟩, names123, names123b,
        fun h => absurd h hr3⟩
    have hr3n : ¬ (setup_dtb_initrd O a l (O.fdt_path_offset b "/chosen")
        (setup_dtb_bootargs O cmdline (O.fdt_path_offset b "/chosen") r1.2).2).1 ≠ 0 := by
      simpa using hr3
    simp only [if_neg hr3n]
    have z3 := setuptrace_no_fail t3 hr3
    have z123 : ∀ c ∈ n1 ++ n2 ++ n3, c.fails = false := by
      intro c hc
      rcases List.mem_append.1 hc with h | h
      · exact z12 c h
      · exact z3 c h
    obtain ⟨n4, e4, t4, ne4, nm4⟩ := setup_dtb_kaslr_logged O random_ready value
      (O.fdt_path_offset b "/chosen")
      (setup_dtb_initrd O a l (O.fdt_path_offset b "/chosen")
        (setup_dtb_bootargs O cmdline (O.fdt_path_offset b "/chosen") r1.2).2).2 (n1 ++ n2 ++ n3)
    rw [e4]
    refine ⟨fun h => by simp at h, fun r hr => ?_⟩
    simp only [Option.some.injEq] at hr
    rw [← hr]
    refine ⟨n1 ++ n2 ++ n3 ++ n4, rfl, fun h => absurd h hn,
      fun _ => ⟨by simp [ne4], setuptrace_append z123 t4⟩, ?_, ?_, ?_⟩
    · intro c hc
      rcases List.mem_append.1 hc with h | h
      · exact names123 c h
      · exact Or.inr (Or.inr (Or.inr (Or.inr (Or.inr (nm4 c h)))))
    · intro hty c hc
      rcases List.mem_append.1 hc with h | h
      · exact names123b hty c h
      · exact Or.inr (Or.inr (Or.inr (nm4 c h)))
    · intro _
      refine ⟨n1 ++ n2 ++ n3 ++ n4.dropLast, n4.getLast ne4, ?_, nm4 _ (List.getLast_mem ne4)⟩
      rw [List.append_assoc _ n4.dropLast, List.dropLast_append_getLast ne4]

theorem prop_get_del_self (name : String) :
    ∀ ps, prop_get name (prop_del name ps) = none
  | [] => rfl
  | p :: ps => by
    by_cases h : p.1 = name
    · simp only [prop_del, h, if_true]
      exact prop_get_del_self name ps
    · simp only [prop_del, h, if_false, prop_get]
      exact prop_get_del_self name ps

theorem prop_get_del_other (name other : String) (h : other ≠ name) :
    ∀ ps, prop_get other (prop_del name ps) = prop_get other ps
  | [] => rfl
  | p :: ps => by
    by_cases h1 : p.1 = name
    · have h2 : p.1 ≠ other := fun e => h (e.symm.trans h1)
      simp only [prop_del, h1, if_true, prop_get]
      rw [if_neg (by rw [← h1]; exact h2)]
      exact prop_get_del_other name other h ps
    · simp only [prop_del, h1, if_false, prop_get]
      rw [prop_get_del_other name other h ps]

theorem refLib_laws : FdtLaws refLib where
  setprop_get := by
    intro b n name v b1 h
    simp only [refLib] at h ⊢
    by_cases hn : n = 8
    · simp only [hn, if_true, Prod.mk.injEq, true_and] at h ⊢
      rw [← h]
      simp [prop_get]
    · simp [hn, FDT_ERR_BADOFFSET] at h
  setprop_other := by
    intro b n name v b1 other h ho
    simp only [refLib] at h ⊢
    by_cases hn : n = 8
    · simp only [hn, if_true, Prod.mk.injEq, true_and] at h ⊢
      rw [← h]
      simp only [prop_get]
      rw [if_neg (fun e => ho e.symm)]
      exact prop_get_del_other name other ho _
    · simp [hn, FDT_ERR_BADOFFSET] at h
  setprop_cells := by
    intro b n name v b1 _ _ _
    exact ⟨rfl, rfl⟩
  delprop_get := by
    intro b n name b1 h
    simp only [refLib] at h ⊢
    by_cases hn : n = 8
    · simp only [hn, if_true] at h ⊢
      cases hg : prop_get name b.chosen with
      | none =>
        rw [hg] at h
        simp [FDT_ERR_NOTFOUND] at h
      | some v =>
        rw [hg] at h
        simp only [Prod.mk.injEq, true_and] at h
        rw [← h]
        exact prop_get_del_self name _
    · simp [hn, FDT_ERR_BADOFFSET] at h
  delprop_other := by
    intro b n name b1 other h ho
    simp only [refLib] at h ⊢
    by_cases hn : n = 8
    · simp only [hn, if_true] at h ⊢
      cases hg : prop_get name b.chosen with
      | none =>
        rw [hg] at h
        simp [FDT_ERR_NOTFOUND] at h
      | some v =>
        rw [hg] at h
        simp only [Prod.mk.injEq, true_and] at h
        rw [← h]
        exact prop_get_del_other name other ho _
    · simp [hn, FDT_ERR_BADOFFSET] at h
  delprop_notfound := by
    intro b n name b1 h
    simp only [refLib] at h ⊢
    by_cases hn : n = 8
    · simp only [hn, if_true] at h ⊢
      cases hg : prop_get name b.chosen with
      | none =>
        rw [hg] at h
        simp only [Prod.mk.injEq, true_and] at h
        exact ⟨h.symm, rfl⟩
      | some v =>
        rw [hg] at h
        simp [FDT_ERR_NOTFOUND] at h
    · simp [hn, FDT_ERR_BADOFFSET, FDT_ERR_NOTFOUND] at h

theorem setup_dtb_kaslr_not_ready {β : Type} (O : SetupOps β) (random_ready : Int)
    (value : Nat) (n : Int) (b : β)
    (h : (setup_dtb_kaslr O random_ready value n b).1 = 0) :
    setup_dtb_kaslr O 0 value n b = (0, (O.fdt_delprop b n FDT_PSTR_KASLR_SEED).2) := by
  unfold setup_dtb_kaslr at h ⊢
  simp only at h ⊢
  by_cases h1 : (O.fdt_delprop b n FDT_PSTR_KASLR_SEED).1 ≠ 0 ∧
      (O.fdt_delprop b n FDT_PSTR_KASLR_SEED).1 ≠ -FDT_ERR_NOTFOUND
  · rw [if_pos h1] at h
    simp [EINVAL] at h
  · rw [if_neg h1]
    simp

theorem u64_region_size (s e : Nat) (h1 : s ≤ e) (h2 : e < 2 ^ 64)
    (h3 : e - s + 1 < 2 ^ 64) : u64_add (u64_sub e s) 1 = e - s + 1 := by
  simp only [u64_add, u64_sub]
  omega

theorem setup_dtb_crash_ok {β : Type} {L : FdtLib β} (hL : FdtLaws L) (image : kimage β)
    (res : resource) (n : Int) (b b1 : β)
    (h : setup_dtb_crash L.ops image res n b = some (0, b1)) :
    (image.type = KEXEC_TYPE_CRASH →
      0 ≤ L.fdt_address_cells b 0 ∧ L.fdt_address_cells b 0 ≤ 2 ∧
      0 ≤ L.fdt_size_cells b 0 ∧ L.fdt_size_cells b 0 ≤ 2 ∧
      (L.fdt_address_cells b 0 = 1 →
        image.arch.elf_headers_mem ≤ U32_MAX ∧ res.start ≤ U32_MAX) ∧
      (L.fdt_size_cells b 0 = 1 →
        image.arch.elf_headers_sz ≤ U32_MAX ∧
        u64_add (u64_sub res.end_ res.start) 1 ≤ U32_MAX) ∧
      L.fdt_getprop b1 n FDT_PSTR_KEXEC_ELFHDR =
        some (cpu64_to_fdt_cells image.arch.elf_headers_mem (L.fdt_address_cells b 0).toNat ++
          cpu64_to_fdt_cells image.arch.elf_headers_sz (L.fdt_size_cells b 0).toNat) ∧
      L.fdt_getprop b1 n FDT_PSTR_MEM_RANGE =
        some (cpu64_to_fdt_cells res.start (L.fdt_address_cells b 0).toNat ++
          cpu64_to_fdt_cells (u64_add (u64_sub res.end_ res.start) 1)
            (L.fdt_size_cells b 0).toNat)) ∧
    (image.type ≠ KEXEC_TYPE_CRASH → b1 = b) ∧
    (∀ other, other ≠ FDT_PSTR_KEXEC_ELFHDR → other ≠ FDT_PSTR_MEM_RANGE →
      L.fdt_getprop b1 n other = L.fdt_getprop b n other) := by
  have hne : FDT_PSTR_KEXEC_ELFHDR ≠ FDT_PSTR_MEM_RANGE := by decide
  have hn1 : FDT_PSTR_KEXEC_ELFHDR ≠ "#address-cells" := by decide
  have hn2 : FDT_PSTR_KEXEC_ELFHDR ≠ "#size-cells" := by decide
  unfold setup_dtb_crash at h
  by_cases ht : image.type = KEXEC_TYPE_CRASH
  swap
  · rw [if_neg ht] at h
    simp only [Option.some.injEq, Prod.mk.injEq, true_and] at h
    rw [← h]
    exact ⟨fun hc => absurd hc ht, fun _ => rfl, fun _ _ _ => rfl⟩
  rw [if_pos ht] at h
  simp only [FdtLib.ops] at h
  cases h1 : fdt_setprop_reg L b n FDT_PSTR_KEXEC_ELFHDR image.arch.elf_headers_mem
      image.arch.elf_headers_sz with
  | none => rw [h1] at h; simp at h
  | some r1 =>
    rw [h1] at h
    simp only at h
    by_cases hr1 : r1.1 = 0
    swap
    · rw [if_pos hr1] at h
      simp only [Option.some.injEq, Prod.mk.injEq] at h
      exact absurd h.1 (set_errno_ne_zero _)
    rw [if_neg (by simpa using hr1)] at h
    cases h2 : fdt_setprop_reg L r1.2 n FDT_PSTR_MEM_RANGE res.start
        (u64_add (u64_sub res.end_ res.start) 1) with
    | none => rw [h2] at h; simp at h
    | some r2 =>
      rw [h2] at h
      simp only at h
      by_cases hr2 : r2.1 = 0
      swap
      · rw [if_pos hr2] at h
        simp only [Option.some.injEq, Prod.mk.injEq] at h
        exact absurd h.1 (set_errno_ne_zero _)
      rw [if_neg (by simpa using hr2)] at h
      simp only [Option.some.injEq, Prod.mk.injEq, true_and] at h
      obtain ⟨a1, a2, a3, a4, a5, a6, e1⟩ := fdt_setprop_reg_ok L b n _ _ _ r1 h1 hr1
      obtain ⟨-, -, -, -, b5, b6, e2⟩ := fdt_setprop_reg_ok L r1.2 n _ _ _ r2 h2 hr2
      have hr1' := hr1
      rw [e1] at hr1'
      obtain ⟨g1, o1, c1⟩ := setprop_ok hL b n FDT_PSTR_KEXEC_ELFHDR _ hr1'
      rw [← e1] at g1 o1 c1
      obtain ⟨cA, cS⟩ := c1 hn1 hn2
      simp only [cA, cS] at e2 b5 b6
      have hr2' := hr2
      rw [e2] at hr2'
      obtain ⟨g2, o2, -⟩ := setprop_ok hL r1.2 n FDT_PSTR_MEM_RANGE _ hr2'
      rw [← e2] at g2 o2
      rw [← h]
      refine ⟨fun _ => ⟨a1, a2, a3, a4, fun hc => ⟨(a5 hc).1, (b5 hc).1⟩,
        fun hc => ⟨a6 hc, b6 hc⟩, ?_, g2⟩, fun hc => absurd ht hc, ?_⟩
      · rw [o2 _ hne, g1]
      · intro other h1o h2o
        rw [o2 _ h2o, o1 _ h1o]

theorem setup_dtb_logged_inv {β : Type} (O : SetupOps β)
    (image : kimage (β × List SetupCall)) (res : resource) (random_ready : Int) (value : Nat)
    (a l : Nat) (cmdline : Option (List Nat)) (dtb : β) (ret : Int) (b : β)
    (tr : List SetupCall)
    (h : setup_dtb O.logged image res random_ready value a l cmdline (dtb, []) =
      some (ret, (b, tr))) :
    setup_dtb O (image.retype : kimage β) res random_ready value a l cmdline dtb =
      some (ret, b) ∧
    (O.fdt_path_offset dtb "/chosen" < 0 → tr = [] ∧ ret = -EINVAL) ∧
    (0 ≤ O.fdt_path_offset dtb "/chosen" → tr ≠ [] ∧ SetupTrace tr ret) ∧
    (image.type ≠ KEXEC_TYPE_CRASH →
      ∀ c ∈ tr, c.name = FDT_PSTR_BOOTARGS ∨ c.name = FDT_PSTR_INITRD_STA ∨
        c.name = FDT_PSTR_INITRD_END ∨ c.name = FDT_PSTR_KASLR_SEED) ∧
    (ret = 0 → ∃ pre c, tr = pre ++ [c] ∧ c.name = FDT_PSTR_KASLR_SEED) := by
  obtain ⟨l1, l2⟩ := setup_dtb_logged O image res random_ready value a l cmdline dtb
  cases hp : setup_dtb O (image.retype : kimage β) res random_ready value a l cmdline dtb with
  | none =>
    rw [l1 hp] at h
    simp at h
  | some r =>
    obtain ⟨tr1, e, p1, p2, -, p4, p5⟩ := l2 r hp
    rw [e] at h
    simp only [Option.some.injEq, Prod.mk.injEq] at h
    obtain ⟨h1, h2, h3⟩ := h
    rw [← h1, ← h3]
    refine ⟨?_, p1, p2, p4, p5⟩
    rw [← h2]

theorem setup_dtb_not_ready {β : Type} (O : SetupOps β) (image : kimage β)
    (crashk_res : resource) (random_ready : Int) (value : Nat)
    (initrd_load_addr initrd_len : Nat) (cmdline : Option (List Nat)) (dtb b : β)
    (h : setup_dtb O image crashk_res random_ready value initrd_load_addr initrd_len
      cmdline dtb = some (0, b)) :
    ∃ b0, setup_dtb O image crashk_res 0 value initrd_load_addr initrd_len cmdline dtb =
      some (0, b0) := by
  obtain ⟨hn, b1, b2, b3, h1, h2, h3, h4⟩ := setup_dtb_success O image crashk_res random_ready
    value initrd_load_addr initrd_len cmdline dtb b h
  have hk := setup_dtb_kaslr_not_ready O random_ready value (O.fdt_path_offset dtb "/chosen") b3
    (by rw [h4])
  refine ⟨(O.fdt_delprop b3 (O.fdt_path_offset dtb "/chosen") FDT_PSTR_KASLR_SEED).2, ?_⟩
  unfold setup_dtb
  simp only [if_neg (not_lt.2 hn), h1, h2, h3, hk, ne_eq, not_true_eq_false, if_false]

/-- C8: under the get/set/delete laws of the device-tree library, whenever
`setup_dtb` succeeds the result has a kaslr-seed property if and only if
`random_ready` is non-zero; when present its value is the big-endian 64-bit
encoding of the value just drawn, whatever seed the template carried (a
template seed with other bytes is never what the result holds); with
`random_ready` zero the property is absent.  Not being ready is no error:
every call that succeeds with entropy ready also succeeds with
`random_ready` zero. -/
theorem setup_dtb_kaslr_seed {β : Type} (L : FdtLib β) (hL : FdtLaws L) (image : kimage β)
    (crashk_res : resource) (random_ready : Int) (value : Nat)
    (initrd_load_addr initrd_len : Nat) (cmdline : Option (List Nat)) (dtb dtb1 : β)
    (h : setup_dtb L.ops image crashk_res random_ready value initrd_load_addr initrd_len
      cmdline dtb = some (0, dtb1)) :
    ((L.fdt_getprop dtb1 (L.fdt_path_offset dtb "/chosen") FDT_PSTR_KASLR_SEED).isSome = true ↔
      random_ready ≠ 0) ∧
    (random_ready ≠ 0 →
      L.fdt_getprop dtb1 (L.fdt_path_offset dtb "/chosen") FDT_PSTR_KASLR_SEED =
        some (cpu_to_fdt64 value) ∧
      (value < 2 ^ 64 →
        fdt_getprop_u64 L dtb1 (L.fdt_path_offset dtb "/chosen") FDT_PSTR_KASLR_SEED =
          some value)) ∧
    (random_ready = 0 →
      L.fdt_getprop dtb1 (L.fdt_path_offset dtb "/chosen") FDT_PSTR_KASLR_SEED = none) ∧
    (∀ old, L.fdt_getprop dtb (L.fdt_path_offset dtb "/chosen") FDT_PSTR_KASLR_SEED = some old →
      old ≠ cpu_to_fdt64 value →
      L.fdt_getprop dtb1 (L.fdt_path_offset dtb "/chosen") FDT_PSTR_KASLR_SEED ≠ some old) ∧
    (∃ b0, setup_dtb L.ops image crashk_res 0 value initrd_load_addr initrd_len cmdline dtb =
      some (0, b0)) := by
  obtain ⟨-, b1, b2, b3, -, -, -, h4⟩ := setup_dtb_success L.ops image crashk_res random_ready
    value initrd_load_addr initrd_len cmdline dtb dtb1 h
  have hp : L.ops.fdt_path_offset dtb "/chosen" = L.fdt_path_offset dtb "/chosen" := rfl
  rw [hp] at h4
  obtain ⟨k1, k2, -⟩ := setup_dtb_kaslr_ok hL random_ready value _ b3 dtb1 h4
  refine ⟨?_, fun hr => ⟨k1 hr, fun hv => ?_⟩, k2, ?_,
    setup_dtb_not_ready L.ops image crashk_res random_ready value initrd_load_addr initrd_len
      cmdline dtb dtb1 h⟩
  · by_cases hr : random_ready = 0
    · simp [k2 hr, hr]
    · simp [k1 hr, hr]
  · simp only [fdt_getprop_u64, k1 hr, Option.map_some', be_to_cpu_fdt64]
    rw [Nat.mod_eq_of_lt hv]
  · intro old _ hne
    by_cases hr : random_ready = 0
    · rw [k2 hr]
      simp
    · rw [k1 hr]
      intro hc
      exact hne (Option.some.inj hc).symm

/-- C8 at a concrete input: the template carries the seed bytes 1..8, the
draw is 7, and the result reads back 7. -/
theorem setup_dtb_kaslr_seed_witness :
    prop_get FDT_PSTR_KASLR_SEED ref_template.chosen = some [1, 2, 3, 4, 5, 6, 7, 8] ∧
    fdt_getprop_u64 refLib ref_patched 8 FDT_PSTR_KASLR_SEED = some 7 :=
  ⟨by decide,
    ((setup_dtb_kaslr_seed refLib refLib_laws ref_image_crash ref_crashk_res 1 7 0x48000000
      0x1000 (some [0x61]) ref_template ref_patched (by decide)).2.1 (by decide)).2
      (by decide)⟩

/-- C7: under the get/set/delete laws of the device-tree library, whenever
`setup_dtb` succeeds on a crash-type image, with root cell counts 1 or 2 and
64-bit arguments: /chosen carries linux,elfcorehdr = (elf_headers_mem,
elf_headers_sz) and linux,usable-memory-range = (crashk_res.start,
crashk_res.end - crashk_res.start + 1 as a 64-bit value), each stored as
address cells then size cells and read back exactly; that length is the
size of the inclusive region [start, end] whenever that size fits 64 bits.
On an image of another type the two properties are left as the template had
them, and no call on either property is made at all. -/
theorem setup_dtb_crash_props {β : Type} (L : FdtLib β) (hL : FdtLaws L) (image : kimage β)
    (crashk_res : resource) (random_ready : Int) (value : Nat)
    (initrd_load_addr initrd_len : Nat) (cmdline : Option (List Nat)) (dtb dtb1 : β)
    (h : setup_dtb L.ops image crashk_res random_ready value initrd_load_addr initrd_len
      cmdline dtb = some (0, dtb1)) :
    (image.type = KEXEC_TYPE_CRASH →
      (L.fdt_address_cells dtb 0 = 1 ∨ L.fdt_address_cells dtb 0 = 2) →
      (L.fdt_size_cells dtb 0 = 1 ∨ L.fdt_size_cells dtb 0 = 2) →
      image.arch.elf_headers_mem < 2 ^ 64 → image.arch.elf_headers_sz < 2 ^ 64 →
      crashk_res.start < 2 ^ 64 →
      L.fdt_getprop dtb1 (L.fdt_path_offset dtb "/chosen") FDT_PSTR_KEXEC_ELFHDR =
        some (cpu64_to_fdt_cells image.arch.elf_headers_mem (L.fdt_address_cells dtb 0).toNat ++
          cpu64_to_fdt_cells image.arch.elf_headers_sz (L.fdt_size_cells dtb 0).toNat) ∧
      L.fdt_getprop dtb1 (L.fdt_path_offset dtb "/chosen") FDT_PSTR_MEM_RANGE =
        some (cpu64_to_fdt_cells crashk_res.start (L.fdt_address_cells dtb 0).toNat ++
          cpu64_to_fdt_cells (u64_add (u64_sub crashk_res.end_ crashk_res.start) 1)
            (L.fdt_size_cells dtb 0).toNat) ∧
      fdt_getprop_reg L dtb1 (L.fdt_path_offset dtb "/chosen") FDT_PSTR_KEXEC_ELFHDR
          (L.fdt_address_cells dtb 0).toNat (L.fdt_size_cells dtb 0).toNat =
        some (image.arch.elf_headers_mem, image.arch.elf_headers_sz) ∧
      fdt_getprop_reg L dtb1 (L.fdt_path_offset dtb "/chosen") FDT_PSTR_MEM_RANGE
          (L.fdt_address_cells dtb 0).toNat (L.fdt_size_cells dtb 0).toNat =
        some (crashk_res.start, u64_add (u64_sub crashk_res.end_ crashk_res.start) 1) ∧
      (crashk_res.start ≤ crashk_res.end_ → crashk_res.end_ < 2 ^ 64 →
        crashk_res.end_ - crashk_res.start + 1 < 2 ^ 64 →
        u64_add (u64_sub crashk_res.end_ crashk_res.start) 1 =
          crashk_res.end_ - crashk_res.start + 1)) ∧
    (image.type ≠ KEXEC_TYPE_CRASH →
      L.fdt_getprop dtb1 (L.fdt_path_offset dtb "/chosen") FDT_PSTR_KEXEC_ELFHDR =
        L.fdt_getprop dtb (L.fdt_path_offset dtb "/chosen") FDT_PSTR_KEXEC_ELFHDR ∧
      L.fdt_getprop dtb1 (L.fdt_path_offset dtb "/chosen") FDT_PSTR_MEM_RANGE =
        L.fdt_getprop dtb (L.fdt_path_offset dtb "/chosen") FDT_PSTR_MEM_RANGE) ∧
    (∀ (O : SetupOps β) (img : kimage (β × List SetupCall)) (ret : Int) (b : β)
        (tr : List SetupCall),
      img.type ≠ KEXEC_TYPE_CRASH →
      setup_dtb O.logged img crashk_res random_ready value initrd_load_addr initrd_len
        cmdline (dtb, []) = some (ret, (b, tr)) →
      ∀ c ∈ tr, c.name ≠ FDT_PSTR_KEXEC_ELFHDR ∧ c.name ≠ FDT_PSTR_MEM_RANGE) := by
  obtain ⟨-, b1, b2, b3, h1, h2, h3, h4⟩ := setup_dtb_success L.ops image crashk_res
    random_ready value initrd_load_addr initrd_len cmdline dtb dtb1 h
  have hp : L.ops.fdt_path_offset dtb "/chosen" = L.fdt_path_offset dtb "/chosen" := rfl
  rw [hp] at h1 h2 h3 h4
  obtain ⟨c1, c2, c3⟩ := setup_dtb_crash_ok hL image crashk_res _ dtb b1 h1
  obtain ⟨-, -, bo⟩ := setup_dtb_bootargs_ok hL cmdline _ b1 b2 h2
  obtain ⟨-, -, io⟩ := setup_dtb_initrd_ok hL initrd_load_addr initrd_len _ b2 b3 h3
  obtain ⟨-, -, ko⟩ := setup_dtb_kaslr_ok hL random_ready value _ b3 dtb1 h4
  have keep : ∀ name, name ≠ FDT_PSTR_BOOTARGS → name ≠ FDT_PSTR_INITRD_STA →
      name ≠ FDT_PSTR_INITRD_END → name ≠ FDT_PSTR_KASLR_SEED →
      L.fdt_getprop dtb1 (L.fdt_path_offset dtb "/chosen") name =
        L.fdt_getprop b1 (L.fdt_path_offset dtb "/chosen") name := by
    intro name n1 n2 n3 n4
    rw [ko name n4, io name n2 n3, bo name n1]
  have ke := keep FDT_PSTR_KEXEC_ELFHDR (by decide) (by decide) (by decide) (by decide)
  have km := keep FDT_PSTR_MEM_RANGE (by decide) (by decide) (by decide) (by decide)
  refine ⟨fun ht hac hsc hmem hsz hst => ?_, fun ht => ?_, ?_⟩
  · obtain ⟨-, -, -, -, r1, r2, g1, g2⟩ := c1 ht
    have tac : (L.fdt_address_cells dtb 0).toNat = 1 ∨ (L.fdt_address_cells dtb 0).toNat = 2 := by
      rcases hac with e | e <;> rw [e]
      · exact Or.inl rfl
      · exact Or.inr rfl
    have tsc : (L.fdt_size_cells dtb 0).toNat = 1 ∨ (L.fdt_size_cells dtb 0).toNat = 2 := by
      rcases hsc with e | e <;> rw [e]
      · exact Or.inl rfl
      · exact Or.inr rfl
    have ac1 : (L.fdt_address_cells dtb 0).toNat = 1 → L.fdt_address_cells dtb 0 = 1 := by
      intro e
      rcases hac with e1 | e1
      · exact e1
      · rw [e1] at e
        exact absurd e (by decide)
    have sc1 : (L.fdt_size_cells dtb 0).toNat = 1 → L.fdt_size_cells dtb 0 = 1 := by
      intro e
      rcases hsc with e1 | e1
      · exact e1
      · rw [e1] at e
        exact absurd e (by decide)
    have hlen : u64_add (u64_sub crashk_res.end_ crashk_res.start) 1 < 2 ^ 64 := by
      simp only [u64_add]
      exact Nat.mod_lt _ (by norm_num)
    refine ⟨by rw [ke, g1], by rw [km, g2], ?_, ?_, u64_region_size _ _⟩
    · simp only [fdt_getprop_reg, ke, g1, Option.map_some']
      rw [reg_decode _ _ _ _ tac tsc hmem hsz (fun e => (r1 (ac1 e)).1) (fun e => (r2 (sc1 e)).1)]
    · simp only [fdt_getprop_reg, km, g2, Option.map_some']
      rw [reg_decode _ _ _ _ tac tsc hst hlen (fun e => (r1 (ac1 e)).2)
        (fun e => (r2 (sc1 e)).2)]
  · rw [ke, km, c2 ht]
    exact ⟨rfl, rfl⟩
  · intro O img ret b tr hty hrun c hc
    obtain ⟨-, -, -, names, -⟩ := setup_dtb_logged_inv O img crashk_res random_ready value
      initrd_load_addr initrd_len cmdline dtb ret b tr hrun
    have d1 : FDT_PSTR_BOOTARGS ≠ FDT_PSTR_KEXEC_ELFHDR ∧
        FDT_PSTR_BOOTARGS ≠ FDT_PSTR_MEM_RANGE := by decide
    have d2 : FDT_PSTR_INITRD_STA ≠ FDT_PSTR_KEXEC_ELFHDR ∧
        FDT_PSTR_INITRD_STA ≠ FDT_PSTR_MEM_RANGE := by decide
    have d3 : FDT_PSTR_INITRD_END ≠ FDT_PSTR_KEXEC_ELFHDR ∧
        FDT_PSTR_INITRD_END ≠ FDT_PSTR_MEM_RANGE := by decide
    have d4 : FDT_PSTR_KASLR_SEED ≠ FDT_PSTR_KEXEC_ELFHDR ∧
        FDT_PSTR_KASLR_SEED ≠ FDT_PSTR_MEM_RANGE := by decide
    rcases names hty c hc with e | e | e | e <;> rw [e]
    · exact d1
    · exact d2
    · exact d3
    · exact d4

/-- C7 at a concrete input: the crash image `ref_image_crash` and the region
`ref_crashk_res`; the two properties read back as (0x50000000, 0x1000) and
(0x60000000, 0x8000000). -/
theorem setup_dtb_crash_props_witness :
    fdt_getprop_reg refLib ref_patched 8 FDT_PSTR_KEXEC_ELFHDR 2 2 =
      some (0x50000000, 0x1000) ∧
    fdt_getprop_reg refLib ref_patched 8 FDT_PSTR_MEM_RANGE 2 2 =
      some (0x60000000, u64_add (u64_sub 0x67ffffff 0x60000000) 1) ∧
    u64_add (u64_sub 0x67ffffff 0x60000000) 1 = 0x8000000 :=
  ⟨((setup_dtb_crash_props refLib refLib_laws ref_image_crash ref_crashk_res 1 7 0x48000000
      0x1000 (some [0x61]) ref_template ref_patched (by decide)).1 (by decide) (by decide)
      (by decide) (by decide) (by decide) (by decide)).2.2.1,
    ((setup_dtb_crash_props refLib refLib_laws ref_image_crash ref_crashk_res 1 7 0x48000000
      0x1000 (some [0x61]) ref_template ref_patched (by decide)).1 (by decide) (by decide)
      (by decide) (by decide) (by decide) (by decide)).2.2.2.1,
    by decide⟩

theorem setup_dtb_crash_some {β : Type} (O : SetupOps β) (image : kimage β) (res : resource)
    (n : Int) (b : β) (hreg : ∀ b n name x y, O.fdt_setprop_reg b n name x y ≠ none) :
    setup_dtb_crash O image res n b ≠ none := by
  unfold setup_dtb_crash
  by_cases ht : image.type = KEXEC_TYPE_CRASH
  swap
  · simp [if_neg ht]
  simp only [if_pos ht]
  cases h1 : O.fdt_setprop_reg b n FDT_PSTR_KEXEC_ELFHDR image.arch.elf_headers_mem
      image.arch.elf_headers_sz with
  | none => exact absurd h1 (hreg _ _ _ _ _)
  | some r1 =>
    simp only
    by_cases hr1 : r1.1 = 0
    swap
    · simp [if_pos hr1]
    have hr1n : ¬ r1.1 ≠ 0 := by simpa using hr1
    simp only [if_neg hr1n]
    cases h2 : O.fdt_setprop_reg r1.2 n FDT_PSTR_MEM_RANGE res.start
        (u64_add (u64_sub res.end_ res.start) 1) with
    | none => exact absurd h2 (hreg _ _ _ _ _)
    | some r2 =>
      simp only
      split_ifs <;> simp

theorem setup_dtb_some {β : Type} (O : SetupOps β) (image : kimage β) (res : resource)
    (random_ready : Int) (value : Nat) (a l : Nat) (cmdline : Option (List Nat)) (b : β)
    (hreg : ∀ b n name x y, O.fdt_setprop_reg b n name x y ≠ none) :
    setup_dtb O image res random_ready value a l cmdline b ≠ none := by
  unfold setup_dtb
  simp only
  split_ifs with hn
  · simp
  · cases hc : setup_dtb_crash O image res (O.fdt_path_offset b "/chosen") b with
    | none => exact absurd hc (setup_dtb_crash_some O image res _ b hreg)
    | some r1 =>
      simp only
      split_ifs <;> simp

theorem last_unique {α : Type} {pre pre1 : List α} {c c1 : α}
    (h : pre ++ [c] = pre1 ++ [c1]) : c = c1 := by
  have := congrArg List.getLast? h
  simpa using this

/-- C9: in every run of `setup_dtb` that returns, for arbitrary behaviour of
the library calls it makes (logged with their results): a set call that
returns a non-zero `r` is the last call made and `setup_dtb` returns -ENOMEM
exactly when `r = -FDT_ERR_NOSPACE` and -EINVAL for every other `r`; a
delete call that returns something other than 0 and `-FDT_ERR_NOTFOUND` is
the last call made and `setup_dtb` returns -EINVAL, not -ENOMEM; after a
delete call that returns `-FDT_ERR_NOTFOUND` processing goes on: another
call follows unless it was the final kaslr-seed delete, and if it ends the
run the result is 0; with /chosen present the result is 0 exactly when no
call failed in that sense.  The run returns whenever `fdt_setprop_reg`
is defined, and logging does not change what is returned. -/
theorem setup_dtb_error_codes {β : Type} (O : SetupOps β)
    (image : kimage (β × List SetupCall)) (crashk_res : resource) (random_ready : Int)
    (value : Nat) (initrd_load_addr initrd_len : Nat) (cmdline : Option (List Nat)) (dtb : β) :
    ((∀ b n name x y, O.fdt_setprop_reg b n name x y ≠ none) →
      setup_dtb O.logged image crashk_res random_ready value initrd_load_addr initrd_len
        cmdline (dtb, []) ≠ none) ∧
    ((setup_dtb O.logged image crashk_res random_ready value initrd_load_addr initrd_len
        cmdline (dtb, [])).map (fun r => (r.1, r.2.1)) =
      setup_dtb O (image.retype : kimage β) crashk_res random_ready value initrd_load_addr
        initrd_len cmdline dtb) ∧
    (∀ ret b tr,
      setup_dtb O.logged image crashk_res random_ready value initrd_load_addr initrd_len
        cmdline (dtb, []) = some (ret, (b, tr)) →
      (∀ pre name r post, tr = pre ++ SetupCall.set name r :: post → r ≠ 0 →
        post = [] ∧ (ret = -ENOMEM ↔ r = -FDT_ERR_NOSPACE) ∧
        (r ≠ -FDT_ERR_NOSPACE → ret = -EINVAL)) ∧
      (∀ pre name r post, tr = pre ++ SetupCall.del name r :: post →
        r ≠ 0 → r ≠ -FDT_ERR_NOTFOUND →
        post = [] ∧ ret = -EINVAL ∧ ret ≠ -ENOMEM) ∧
      (∀ pre name post, tr = pre ++ SetupCall.del name (-FDT_ERR_NOTFOUND) :: post →
        (post = [] → ret = 0) ∧ (name ≠ FDT_PSTR_KASLR_SEED → post ≠ [])) ∧
      (0 ≤ O.fdt_path_offset dtb "/chosen" →
        (ret = 0 ↔ ∀ c ∈ tr, c.fails = false))) := by
  obtain ⟨l1, l2⟩ := setup_dtb_logged O image crashk_res random_ready value initrd_load_addr
    initrd_len cmdline dtb
  refine ⟨fun hreg => ?_, ?_, ?_⟩
  · cases hp : setup_dtb O (image.retype : kimage β) crashk_res random_ready value
        initrd_load_addr initrd_len cmdline dtb with
    | none => exact absurd hp (setup_dtb_some O _ crashk_res random_ready value initrd_load_addr
        initrd_len cmdline dtb hreg)
    | some r =>
      obtain ⟨tr, e, -⟩ := l2 r hp
      rw [e]
      simp
  · cases hp : setup_dtb O (image.retype : kimage β) crashk_res random_ready value
        initrd_load_addr initrd_len cmdline dtb with
    | none => rw [l1 hp]; rfl
    | some r =>
      obtain ⟨tr, e, -⟩ := l2 r hp
      rw [e]
      rfl
  · intro ret b tr hrun
    obtain ⟨-, p1, p2, -, p5⟩ := setup_dtb_logged_inv O image crashk_res random_ready value
      initrd_load_addr initrd_len cmdline dtb ret b tr hrun
    have hpath : tr ≠ [] → 0 ≤ O.fdt_path_offset dtb "/chosen" := by
      intro hne
      by_contra hlt
      exact hne (p1 (not_le.1 hlt)).1
    have hEM : (-EINVAL : Int) ≠ -ENOMEM := by decide
    refine ⟨?_, ?_, ?_, ?_⟩
    · intro pre name r post he hr
      have st := (p2 (hpath (by rw [he]; simp))).2
      have hf : (SetupCall.set name r).fails = true := by simp [SetupCall.fails, hr]
      obtain ⟨hpost, hret⟩ := st.1 pre _ post he hf
      simp only [SetupCall.errno] at hret
      refine ⟨hpost, ?_, ?_⟩
      · constructor
        · intro hm
          by_contra hns
          rw [if_neg hns] at hret
          rw [hret] at hm
          exact hEM hm
        · intro hns
          rw [if_pos hns] at hret
          exact hret
      · intro hns
        rw [if_neg hns] at hret
        exact hret
    · intro pre name r post he hr hnf
      have st := (p2 (hpath (by rw [he]; simp))).2
      have hf : (SetupCall.del name r).fails = true := by simp [SetupCall.fails, hr, hnf]
      obtain ⟨hpost, hret⟩ := st.1 pre _ post he hf
      simp only [SetupCall.errno] at hret
      exact ⟨hpost, hret, by rw [hret]; exact hEM⟩
    · intro pre name post he
      have st := (p2 (hpath (by rw [he]; simp))).2
      have hlast : post = [] → ret = 0 := by
        intro hpost
        apply st.2
        intro c hc
        rw [he, hpost] at hc
        rcases List.mem_append.1 hc with hm | hm
        · by_contra hf
          obtain ⟨x, y, hxy⟩ := List.append_of_mem hm
          have := (st.1 x c (y ++ [SetupCall.del name (-FDT_ERR_NOTFOUND)])
            (by rw [he, hpost, hxy]; simp) (by simpa using hf)).1
          simp at this
        · simp only [List.mem_singleton] at hm
          rw [hm]
          simp [SetupCall.fails]
      refine ⟨hlast, fun hname hpost => ?_⟩
      obtain ⟨pre1, c1, e1, hn1⟩ := p5 (hlast hpost)
      rw [he, hpost] at e1
      have := last_unique e1
      rw [← this] at hn1
      exact hname hn1
    · intro hn
      have st := (p2 hn).2
      exact ⟨fun h0 => setuptrace_no_fail st h0, st.2⟩

theorem create_dtb_loop_retry {β : Type} (E : kexec_env β) (image : kimage β) (a l : Nat)
    (cmdline : Option (List Nat)) (fuel n bs : Nat)
    (h : AttemptNoSpace E image a l cmdline n bs) :
    create_dtb_loop E image a l cmdline (fuel + 1) n bs =
      ((create_dtb_loop E image a l cmdline fuel (n + 1) (u64_add bs DTB_EXTRA_SPACE)).1,
        bs :: (create_dtb_loop E image a l cmdline fuel (n + 1)
          (u64_add bs DTB_EXTRA_SPACE)).2) := by
  obtain ⟨h1, h2, b, h3⟩ := h
  have hne : (-ENOMEM : Int) ≠ 0 := by decide
  rw [create_dtb_loop]
  simp only [h1, h2, h3, ne_eq, not_true_eq_false, if_false, hne, not_false_eq_true, if_true,
    Bool.true_eq_false]

theorem create_dtb_loop_stop {β : Type} (E : kexec_env β) (image : kimage β) (a l : Nat)
    (cmdline : Option (List Nat)) (fuel n bs : Nat)
    (h : ¬ AttemptNoSpace E image a l cmdline n bs) :
    (create_dtb_loop E image a l cmdline (fuel + 1) n bs).2 = [bs] ∧
    (create_dtb_loop E image a l cmdline (fuel + 1) n bs).1 ≠ Res.fuel := by
  rw [create_dtb_loop]
  by_cases h1 : E.vmalloc n bs = false
  · simp [h1]
  simp only [h1, if_false]
  by_cases h2 : (E.fdt.fdt_open_into E.initial_boot_params bs).1 = 0
  swap
  · simp [h2]
  simp only [h2, ne_eq, not_true_eq_false, if_false]
  cases h3 : setup_dtb E.fdt.ops image E.crashk_res E.random_ready (E.get_random_bytes n) a l
      cmdline (E.fdt.fdt_open_into E.initial_boot_params bs).2 with
  | none => simp
  | some r =>
    simp only
    by_cases h4 : r.1 = 0
    · simp [h4]
    · simp only [h4, not_false_eq_true, if_true]
      by_cases h5 : r.1 = -ENOMEM
      · exfalso
        apply h
        refine ⟨by simpa using h1, h2, r.2, ?_⟩
        rw [h3, ← h5]
      · simp [h5]

theorem create_dtb_loop_spec {β : Type} (E : kexec_env β) (image : kimage β) (a l : Nat)
    (cmdline : Option (List Nat)) :
    ∀ fuel n bs, bs < 2 ^ 64 →
      (create_dtb_loop E image a l cmdline fuel n bs).2.length ≤ fuel ∧
      ((create_dtb_loop E image a l cmdline fuel n bs).1 = Res.fuel →
        (create_dtb_loop E image a l cmdline fuel n bs).2.length = fuel) ∧
      (0 < fuel → 0 < (create_dtb_loop E image a l cmdline fuel n bs).2.length) ∧
      ∀ k, k < (create_dtb_loop E image a l cmdline fuel n bs).2.length →
        (create_dtb_loop E image a l cmdline fuel n bs).2[k]? =
          some ((bs + k * DTB_EXTRA_SPACE) % 2 ^ 64) ∧
        (k + 1 < (create_dtb_loop E image a l cmdline fuel n bs).2.length →
          AttemptNoSpace E image a l cmdline (n + k) ((bs + k * DTB_EXTRA_SPACE) % 2 ^ 64)) ∧
        (AttemptNoSpace E image a l cmdline (n + k) ((bs + k * DTB_EXTRA_SPACE) % 2 ^ 64) →
          k + 1 < fuel →
          k + 1 < (create_dtb_loop E image a l cmdline fuel n bs).2.length)
  | 0, n, bs, _ => by simp [create_dtb_loop]
  | fuel + 1, n, bs, hbs => by
    have hmod : ∀ k, ((u64_add bs DTB_EXTRA_SPACE) + k * DTB_EXTRA_SPACE) % 2 ^ 64 =
        (bs + (k + 1) * DTB_EXTRA_SPACE) % 2 ^ 64 := by
      intro k
      simp only [u64_add, DTB_EXTRA_SPACE]
      omega
    have hlt : u64_add bs DTB_EXTRA_SPACE < 2 ^ 64 := Nat.mod_lt _ (by norm_num)
    by_cases hns : AttemptNoSpace E image a l cmdline n bs
    · obtain ⟨i1, i2, i3, i4⟩ := create_dtb_loop_spec E image a l cmdline fuel (n + 1)
        (u64_add bs DTB_EXTRA_SPACE) hlt
      rw [create_dtb_loop_retry E image a l cmdline fuel n bs hns]
      simp only [List.length_cons]
      refine ⟨by omega, fun hf => by rw [i2 hf], fun _ => by omega, ?_⟩
      intro k hk
      cases k with
      | zero =>
        simp only [Nat.zero_mul, Nat.add_zero, Nat.mod_eq_of_lt hbs, List.getElem?_cons_zero,
          true_and]
        refine ⟨fun _ => hns, fun _ hfu => ?_⟩
        have := i3 (by omega)
        omega
      | succ k =>
        have hk1 : k < (create_dtb_loop E image a l cmdline fuel (n + 1)
            (u64_add bs DTB_EXTRA_SPACE)).2.length := by omega
        obtain ⟨j1, j2, j3⟩ := i4 k hk1
        rw [hmod k] at j1 j2 j3
        have hnk : n + 1 + k = n + (k + 1) := by omega
        rw [hnk] at j2 j3
        refine ⟨by rw [List.getElem?_cons_succ]; exact j1, fun h => j2 (by omega),
          fun h1 h2 => ?_⟩
        have := j3 h1 (by omega)
        omega
    · obtain ⟨s1, s2⟩ := create_dtb_loop_stop E image a l cmdline fuel n bs hns
      rw [s1]
      simp only [List.length_singleton]
      refine ⟨by omega, fun hf => absurd hf s2, fun _ => by omega, ?_⟩
      intro k hk
      have hk0 : k = 0 := by omega
      subst hk0
      simp only [Nat.zero_mul, Nat.add_zero, Nat.mod_eq_of_lt hbs, List.getElem?_cons_zero,
        true_and]
      exact ⟨fun h => by omega, fun h => absurd h hns⟩

/-- C5 (as amended): for a non-NULL command line, the sizes `create_dtb`
passes to `vmalloc` are template size + strlen(cmdline) + DTB_EXTRA_SPACE
for the first attempt and DTB_EXTRA_SPACE more for each further one (64-bit
sums); a further attempt is made only after an attempt that reported no
space, and after every such attempt, without any bound on their number: the
run of the loop ends only at an attempt that does not report no space (the
embedding stops after `fuel` attempts and says so). -/
theorem create_dtb_attempts {β : Type} (E : kexec_env β) (fuel : Nat) (image : kimage β)
    (initrd_load_addr initrd_len : Nat) (str : List Nat) :
    (∀ k, k < (create_dtb E fuel image initrd_load_addr initrd_len (some str)).2.length →
      (create_dtb E fuel image initrd_load_addr initrd_len (some str)).2[k]? =
        some ((E.fdt.fdt_totalsize E.initial_boot_params + (cstring str).length +
          DTB_EXTRA_SPACE + k * DTB_EXTRA_SPACE) % 2 ^ 64)) ∧
    (∀ k, k + 1 < (create_dtb E fuel image initrd_load_addr initrd_len (some str)).2.length →
      AttemptNoSpace E image initrd_load_addr initrd_len (some str) k
        ((E.fdt.fdt_totalsize E.initial_boot_params + (cstring str).length +
          DTB_EXTRA_SPACE + k * DTB_EXTRA_SPACE) % 2 ^ 64)) ∧
    (∀ k, k < (create_dtb E fuel image initrd_load_addr initrd_len (some str)).2.length →
      AttemptNoSpace E image initrd_load_addr initrd_len (some str) k
        ((E.fdt.fdt_totalsize E.initial_boot_params + (cstring str).length +
          DTB_EXTRA_SPACE + k * DTB_EXTRA_SPACE) % 2 ^ 64) →
      k + 1 < fuel →
      k + 1 < (create_dtb E fuel image initrd_load_addr initrd_len (some str)).2.length) ∧
    (0 < fuel → 0 < (create_dtb E fuel image initrd_load_addr initrd_len (some str)).2.length) ∧
    (create_dtb E fuel image initrd_load_addr initrd_len (some str)).2.length ≤ fuel ∧
    ((create_dtb E fuel image initrd_load_addr initrd_len (some str)).1 = Res.fuel →
      (create_dtb E fuel image initrd_load_addr initrd_len (some str)).2.length = fuel) := by
  have hs : create_dtb E fuel image initrd_load_addr initrd_len (some str) =
      create_dtb_loop E image initrd_load_addr initrd_len (some str) fuel 0
        (u64_add (u64_add (E.fdt.fdt_totalsize E.initial_boot_params) (cstring str).length)
          DTB_EXTRA_SPACE) := rfl
  have hlt : u64_add (u64_add (E.fdt.fdt_totalsize E.initial_boot_params) (cstring str).length)
      DTB_EXTRA_SPACE < 2 ^ 64 := Nat.mod_lt _ (by norm_num)
  have hmod : ∀ k, (u64_add (u64_add (E.fdt.fdt_totalsize E.initial_boot_params)
      (cstring str).length) DTB_EXTRA_SPACE + k * DTB_EXTRA_SPACE) % 2 ^ 64 =
      (E.fdt.fdt_totalsize E.initial_boot_params + (cstring str).length +
          DTB_EXTRA_SPACE + k * DTB_EXTRA_SPACE) % 2 ^ 64 := by
    intro k
    simp only [u64_add, DTB_EXTRA_SPACE]
    omega
  obtain ⟨i1, i2, i3, i4⟩ := create_dtb_loop_spec E image initrd_load_addr initrd_len (some str)
    fuel 0 _ hlt
  rw [hs]
  refine ⟨fun k hk => ?_, fun k hk => ?_, fun k hk hn hf => ?_, i3, i1, i2⟩
  · rw [← hmod k]
    exact (i4 k hk).1
  · have := (i4 k (by omega)).2.1 hk
    rw [hmod k, Nat.zero_add] at this
    exact this
  · rw [← hmod k] at hn
    have := (i4 k hk).2.2 (by rw [Nat.zero_add]; exact hn) hf
    exact this

/-- C5 (as stated) fails: with a library that has room only in a buffer of
0x3000 bytes, a template of 0x100 bytes and an empty command line, the
attempts with 0x1100 and 0x2100 bytes both report no space and `create_dtb`
goes on to a third attempt with 0x3100 bytes, which succeeds. -/
theorem create_dtb_third_attempt :
    create_dtb (envOf (tightLib 0x3000) 0x100 7) 3 (kimage_empty Nat KEXEC_TYPE_DEFAULT) 0 0
        (some []) = (Res.ret (0, some 0x3100), [0x1100, 0x2100, 0x3100]) ∧
    ¬ ((create_dtb (envOf (tightLib 0x3000) 0x100 7) 3 (kimage_empty Nat KEXEC_TYPE_DEFAULT) 0 0
        (some [])).2.length ≤ 2) := by
  decide

theorem cstring_idem (s : List Nat) : cstring (cstring s ++ [0]) = cstring s := by
  unfold cstring
  induction s with
  | nil => simp
  | cons c s ih =>
    by_cases hc : c = 0
    · simp [hc]
    · simpa [List.takeWhile_cons, hc] using ih

theorem create_dtb_loop_success {β : Type} (E : kexec_env β) (image : kimage β) (a l : Nat)
    (cmdline : Option (List Nat)) :
    ∀ fuel n bs d log,
      create_dtb_loop E image a l cmdline fuel n bs = (Res.ret (0, some d), log) →
      ∃ k bs1 b,
        setup_dtb E.fdt.ops image E.crashk_res E.random_ready (E.get_random_bytes k) a l
          cmdline (E.fdt.fdt_open_into E.initial_boot_params bs1).2 = some (0, b) ∧
        d = (E.fdt.fdt_pack b).2
  | 0, n, bs, d, log => by
    intro h
    simp [create_dtb_loop] at h
  | fuel + 1, n, bs, d, log => by
    intro h
    rw [create_dtb_loop] at h
    by_cases h1 : E.vmalloc n bs = false
    · simp [h1, ENOMEM] at h
    have hv : E.vmalloc n bs = true := by simpa using h1
    simp only [hv, Bool.true_eq_false, if_false] at h
    by_cases h2 : (E.fdt.fdt_open_into E.initial_boot_params bs).1 = 0
    swap
    · simp [h2, EINVAL] at h
    simp only [h2, ne_eq, not_true_eq_false, if_false] at h
    cases h3 : setup_dtb E.fdt.ops image E.crashk_res E.random_ready (E.get_random_bytes n) a l
        cmdline (E.fdt.fdt_open_into E.initial_boot_params bs).2 with
    | none => rw [h3] at h; simp at h
    | some r =>
      rw [h3] at h
      simp only at h
      by_cases h4 : r.1 = 0
      · simp only [h4, not_true_eq_false, if_false, Prod.mk.injEq, Res.ret.injEq,
          Option.some.injEq, true_and] at h
        exact ⟨n, bs, r.2, by rw [h3, ← h4], h.1.symm⟩
      · simp only [h4, not_false_eq_true, if_true] at h
        by_cases h5 : r.1 = -ENOMEM
        · simp only [h5, if_true, Prod.mk.injEq] at h
          exact create_dtb_loop_success E image a l cmdline fuel (n + 1)
            (u64_add bs DTB_EXTRA_SPACE) d _ (Prod.ext h.1 rfl)
        · simp only [h5, if_false, Prod.mk.injEq, Res.ret.injEq] at h
          exact absurd h.1.1 h4

/-- C6, the code at the failing input and around it: with no command line
(`cmdline` NULL) `create_dtb` evaluates `strlen(cmdline)` first and faults
before any attempt, for every template, so the build does not succeed and no
load without a command line returns 0; whereas `setup_dtb` itself handles the
NULL command line (bootargs absent afterwards), and with a command line a
successful build reads back exactly that string. -/
theorem create_dtb_null_cmdline {β : Type} (E : kexec_env β) (fuel : Nat) (image : kimage β)
    (initrd_load_addr initrd_len : Nat) :
    create_dtb E fuel image initrd_load_addr initrd_len none = (Res.fault, []) ∧
    (∀ (s : LoadState β) (kernel_load_addr kernel_size : Nat) (initrd : Option Mem),
      (load_other_segments E fuel s kernel_load_addr kernel_size initrd initrd_len none).1 ≠
        Res.ret 0) ∧
    (FdtLaws E.fdt → ∀ value dtb dtb1,
      setup_dtb E.fdt.ops image E.crashk_res E.random_ready value initrd_load_addr initrd_len
        none dtb = some (0, dtb1) →
      E.fdt.fdt_getprop dtb1 (E.fdt.fdt_path_offset dtb "/chosen") FDT_PSTR_BOOTARGS = none) ∧
    (FdtLaws E.fdt →
      (∀ b n name, E.fdt.fdt_getprop (E.fdt.fdt_pack b).2 n name = E.fdt.fdt_getprop b n name) →
      ∀ str d log,
        create_dtb E fuel image initrd_load_addr initrd_len (some str) =
          (Res.ret (0, some d), log) →
        ∃ buf, fdt_getprop_string E.fdt d (E.fdt.fdt_path_offset buf "/chosen")
          FDT_PSTR_BOOTARGS = some (cstring str)) := by
  refine ⟨rfl, ?_, ?_, ?_⟩
  · intro s kernel_load_addr kernel_size initrd
    unfold load_other_segments
    simp only
    split_ifs with h1 h2
    · intro hc
      exact h1 (Res.ret.inj hc)
    · intro hc
      exact h2 (Res.ret.inj hc)
    · have : (create_dtb E fuel
          (load_initrd E (u64_add kernel_load_addr kernel_size) kernel_load_addr initrd initrd_len
            (load_elf_headers E (u64_add kernel_load_addr kernel_size) s).2).2.2.image
          (load_initrd E (u64_add kernel_load_addr kernel_size) kernel_load_addr initrd initrd_len
            (load_elf_headers E (u64_add kernel_load_addr kernel_size) s).2).2.1
          initrd_len none).1 = Res.fault := rfl
      rw [this]
      simp
  · intro hL value dtb dtb1 h
    obtain ⟨-, b1, b2, b3, -, h2, h3, h4⟩ := setup_dtb_success E.fdt.ops image E.crashk_res
      E.random_ready value initrd_load_addr initrd_len none dtb dtb1 h
    have hp : E.fdt.ops.fdt_path_offset dtb "/chosen" = E.fdt.fdt_path_offset dtb "/chosen" := rfl
    rw [hp] at h2 h3 h4
    obtain ⟨-, bn, -⟩ := setup_dtb_bootargs_ok hL none _ b1 b2 h2
    obtain ⟨-, -, io⟩ := setup_dtb_initrd_ok hL initrd_load_addr initrd_len _ b2 b3 h3
    obtain ⟨-, -, ko⟩ := setup_dtb_kaslr_ok hL E.random_ready value _ b3 dtb1 h4
    rw [ko _ (by decide), io _ (by decide) (by decide), bn rfl]
  · intro hL hpack str d log h
    obtain ⟨k, bs1, b, hs, hd⟩ := create_dtb_loop_success E image initrd_load_addr initrd_len
      (some str) fuel 0 _ d log h
    obtain ⟨-, b1, b2, b3, -, h2, h3, h4⟩ := setup_dtb_success E.fdt.ops image E.crashk_res
      E.random_ready _ initrd_load_addr initrd_len (some str) _ b hs
    refine ⟨(E.fdt.fdt_open_into E.initial_boot_params bs1).2, ?_⟩
    have hp : E.fdt.ops.fdt_path_offset (E.fdt.fdt_open_into E.initial_boot_params bs1).2
        "/chosen" =
        E.fdt.fdt_path_offset (E.fdt.fdt_open_into E.initial_boot_params bs1).2 "/chosen" := rfl
    rw [hp] at h2 h3 h4
    obtain ⟨bs, -, -⟩ := setup_dtb_bootargs_ok hL (some str) _ b1 b2 h2
    obtain ⟨-, -, io⟩ := setup_dtb_initrd_ok hL initrd_load_addr initrd_len _ b2 b3 h3
    obtain ⟨-, -, ko⟩ := setup_dtb_kaslr_ok hL E.random_ready _ _ b3 b h4
    simp only [fdt_getprop_string]
    rw [hd, hpack, ko _ (by decide), io _ (by decide) (by decide), bs str rfl]
    simp only [Option.map_some', cstring_idem]

/-! ## The page list: walk and flush -/

theorem u64_ptr_step (a : Nat) (h : a < 2 ^ 64) :
    u64_add (u64_sub a sizeof_kimage_entry_t) sizeof_kimage_entry_t = a := by
  unfold u64_add u64_sub sizeof_kimage_entry_t
  omega

theorem addr_lt (M : kexec_list) (p : Nat) : M.addr p < 2 ^ 64 := by
  unfold kexec_list.addr
  exact Nat.mod_lt _ (by norm_num)

theorem copy_target_spec_nil (M : kexec_list) : copy_target_spec M [] = 0 := by
  simp [copy_target_spec]

theorem copy_target_spec_snoc (M : kexec_list) (pre : List Nat) (p : Nat) :
    copy_target_spec M (pre ++ [p]) =
      if M.flag p = IND_DESTINATION then M.addr p
      else if M.flag p = IND_SOURCE then u64_add (copy_target_spec M pre) M.PAGE_SIZE
      else copy_target_spec M pre := by
  unfold copy_target_spec
  simp only [List.reverse_append, List.reverse_cons, List.reverse_nil, List.nil_append,
    List.singleton_append]
  by_cases hd : M.flag p = IND_DESTINATION
  · have hn : decide (M.flag p ≠ IND_DESTINATION) = false := by simp [hd]
    simp only [if_pos hd, List.takeWhile_cons, List.dropWhile_cons, hn, List.countP_nil]
    simp only [Bool.false_eq_true, if_false, List.countP_nil, Nat.zero_mul, Nat.add_zero]
    exact Nat.mod_eq_of_lt (addr_lt M p)
  · have hn : decide (M.flag p ≠ IND_DESTINATION) = true := by simp [hd]
    simp only [if_neg hd, List.takeWhile_cons, List.dropWhile_cons, hn, if_true]
    by_cases hs : M.flag p = IND_SOURCE
    · have hs1 : decide (M.flag p = IND_SOURCE) = true := by simp [hs]
      simp only [if_pos hs, List.countP_cons, hs1, if_true]
      unfold u64_add
      rw [Nat.mod_add_mod]
      congr 1
      ring
    · have hs1 : decide (M.flag p = IND_SOURCE) = false := by simp [hs]
      simp only [if_neg hs, List.countP_cons, hs1]
      simp

theorem walk_loop_path (M : kexec_list) :
    ∀ (l : List Nat) (fuel entry : Nat) (pre : List Nat), Path M entry l → l.length ≤ fuel →
      kexec_list_walk_loop M fuel entry (copy_target_spec M pre) =
        (walk_spec M pre l, Halt.ret ()) := by
  intro l
  induction l with
  | nil => intro fuel entry pre hp; exact absurd hp (by simp [Path])
  | cons p l ih =>
    intro fuel entry pre hp hf
    obtain ⟨fuel, rfl⟩ : ∃ k, fuel = k + 1 := ⟨fuel - 1, by simp at hf; omega⟩
    have hf1 : l.length ≤ fuel := by simpa using hf
    unfold Path at hp
    obtain ⟨rfl, hp⟩ := hp
    unfold kexec_list_walk_loop
    simp only [walk_spec, visit_spec]
    by_cases h2 : M.flag p = IND_INDIRECTION
    · have hnd : M.flag p ≠ IND_DONE := by rw [h2]; decide
      have hn1 : M.flag p ≠ IND_DESTINATION := by rw [h2]; decide
      have hn8 : M.flag p ≠ IND_SOURCE := by rw [h2]; decide
      simp only [if_neg hnd, if_pos h2] at hp
      have hc : copy_target_spec M pre = copy_target_spec M (pre ++ [p]) := by
        rw [copy_target_spec_snoc, if_neg hn1, if_neg hn8]
      simp only [if_pos h2, if_neg hn1, if_neg hn8, u64_ptr_step _ (addr_lt M p)]
      rw [hc, ih fuel _ _ hp hf1, h2]
    · by_cases h1 : M.flag p = IND_DESTINATION
      · have hnd : M.flag p ≠ IND_DONE := by rw [h1]; decide
        simp only [if_neg hnd, if_neg h2] at hp
        have hc : M.addr p = copy_target_spec M (pre ++ [p]) := by
          rw [copy_target_spec_snoc, if_pos h1]
        simp only [if_neg h2, if_pos h1]
        rw [hc, ih fuel _ _ hp hf1, ← hc, h1]
      · by_cases h8 : M.flag p = IND_SOURCE
        · have hnd : M.flag p ≠ IND_DONE := by rw [h8]; decide
          simp only [if_neg hnd, if_neg h2] at hp
          have hc : u64_add (copy_target_spec M pre) M.PAGE_SIZE =
              copy_target_spec M (pre ++ [p]) := by
            rw [copy_target_spec_snoc, if_neg h1, if_pos h8]
          simp only [if_neg h2, if_neg h1, if_pos h8]
          rw [hc, ih fuel _ _ hp hf1, h8]
        · by_cases h4 : M.flag p = IND_DONE
          · simp only [if_pos h4] at hp
            subst hp
            simp only [if_neg h2, if_neg h1, if_neg h8, if_pos h4, walk_spec]
            rw [h4]
          · simp only [if_neg h4, if_neg h2] at hp
            have hc : copy_target_spec M pre = copy_target_spec M (pre ++ [p]) := by
              rw [copy_target_spec_snoc, if_neg h1, if_neg h8]
            simp only [if_neg h2, if_neg h1, if_neg h8, if_neg h4]
            rw [hc, ih fuel _ _ hp hf1]

theorem walk_spec_fst (M : kexec_list) :
    ∀ (l pre : List Nat), (walk_spec M pre l).map Prod.fst = l := by
  intro l
  induction l with
  | nil => intro pre; rfl
  | cons p l ih => intro pre; simp [walk_spec, ih]

theorem walk_spec_getElem (M : kexec_list) :
    ∀ (l pre a : List Nat) (s : Nat) (b : List Nat), l = a ++ s :: b →
      (walk_spec M pre l)[a.length]? = some (s, visit_spec M (pre ++ a) s) := by
  intro l pre a
  induction a generalizing l pre with
  | nil => intro s b h; subst h; simp [walk_spec]
  | cons x a ih =>
    intro s b h
    subst h
    have h := ih (a ++ s :: b) (pre ++ [x]) s b rfl
    simp only [List.append_assoc, List.singleton_append] at h
    rw [List.cons_append]
    unfold walk_spec
    rw [List.length_cons, List.getElem?_cons_succ]
    exact h

theorem path_done_last (M : kexec_list) :
    ∀ (l : List Nat) (entry : Nat), Path M entry l →
      ∃ pre last, l = pre ++ [last] ∧ M.flag last = IND_DONE ∧ ∀ p ∈ pre, M.flag p ≠ IND_DONE := by
  intro l
  induction l with
  | nil => intro entry hp; exact absurd hp (by simp [Path])
  | cons p l ih =>
    intro entry hp
    unfold Path at hp
    obtain ⟨rfl, hp⟩ := hp
    by_cases h4 : M.flag p = IND_DONE
    · simp only [if_pos h4] at hp
      subst hp
      exact ⟨[], p, rfl, h4, by simp⟩
    · simp only [if_neg h4] at hp
      have hp1 : ∃ e, Path M e l := by
        by_cases h2 : M.flag p = IND_INDIRECTION
        · simp only [if_pos h2] at hp; exact ⟨_, hp⟩
        · simp only [if_neg h2] at hp; exact ⟨_, hp⟩
      obtain ⟨e, he⟩ := hp1
      obtain ⟨pre, last, hl, hd, hpre⟩ := ih e he
      refine ⟨p :: pre, last, by simp [hl], hd, ?_⟩
      intro q hq
      rcases List.mem_cons.mp hq with h | h
      · rw [h]; exact h4
      · exact hpre q h

theorem copy_target_spec_after (M : kexec_list) (pre : List Nat) (d : Nat) (mid : List Nat)
    (hd : M.flag d = IND_DESTINATION) (hmid : ∀ q ∈ mid, M.flag q ≠ IND_DESTINATION) :
    copy_target_spec M (pre ++ d :: mid) =
      (M.addr d + mid.countP (fun q => decide (M.flag q = IND_SOURCE)) * M.PAGE_SIZE) % 2 ^ 64 := by
  unfold copy_target_spec
  have h1 : (pre ++ d :: mid).reverse = mid.reverse ++ d :: pre.reverse := by simp
  have hall : ∀ q ∈ mid.reverse, decide (M.flag q ≠ IND_DESTINATION) = true := by
    intro q hq
    simpa using hmid q (List.mem_reverse.mp hq)
  have hdn : decide (M.flag d ≠ IND_DESTINATION) = false := by simp [hd]
  rw [h1, List.takeWhile_append_of_pos hall, List.dropWhile_append_of_pos hall]
  simp only [List.takeWhile_cons, List.dropWhile_cons, hdn, Bool.false_eq_true, if_false,
    List.append_nil, List.countP_reverse]

theorem walk_spec_append (M : kexec_list) :
    ∀ (a pre b : List Nat),
      walk_spec M pre (a ++ b) = walk_spec M pre a ++ walk_spec M (pre ++ a) b := by
  intro a
  induction a with
  | nil => intro pre b; simp [walk_spec]
  | cons x a ih =>
    intro pre b
    have h := ih (pre ++ [x]) b
    simp only [List.append_assoc, List.singleton_append] at h
    rw [List.cons_append]
    simp only [walk_spec]
    rw [h, List.cons_append]

theorem path_suffix (M : kexec_list) :
    ∀ (pre : List Nat) (entry : Nat) (x : Nat) (rest : List Nat),
      Path M entry (pre ++ x :: rest) → ∃ e, Path M e (x :: rest) := by
  intro pre
  induction pre with
  | nil => intro entry x rest hp; exact ⟨entry, hp⟩
  | cons p pre ih =>
    intro entry x rest hp
    rw [List.cons_append] at hp
    unfold Path at hp
    obtain ⟨rfl, hp⟩ := hp
    by_cases h4 : M.flag p = IND_DONE
    · simp only [if_pos h4] at hp
      exact absurd hp (by simp)
    · simp only [if_neg h4] at hp
      by_cases h2 : M.flag p = IND_INDIRECTION
      · simp only [if_pos h2] at hp; exact ih _ x rest hp
      · simp only [if_neg h2] at hp; exact ih _ x rest hp

theorem path_link (M : kexec_list) (entry : Nat) (pre : List Nat) (i q : Nat) (post : List Nat)
    (hp : Path M entry (pre ++ i :: q :: post)) (h2 : M.flag i = IND_INDIRECTION) :
    q = M.addr i := by
  obtain ⟨e, he⟩ := path_suffix M pre entry i (q :: post) hp
  unfold Path at he
  obtain ⟨rfl, he⟩ := he
  have h4 : M.flag i ≠ IND_DONE := by rw [h2]; decide
  simp only [if_neg h4, if_pos h2] at he
  unfold Path at he
  exact he.1

theorem flush_loop_path (M : kexec_list) :
    ∀ (l : List Nat) (fuel entry : Nat), Path M entry l →
      (∀ p ∈ l, M.flag p = IND_DESTINATION ∨ M.flag p = IND_INDIRECTION ∨ M.flag p = IND_DONE ∨
        M.flag p = IND_SOURCE) →
      l.length ≤ fuel →
      kexec_list_flush_loop M fuel entry = (flush_spec M l, Halt.ret ()) := by
  intro l
  induction l with
  | nil => intro fuel entry hp; exact absurd hp (by simp [Path])
  | cons p l ih =>
    intro fuel entry hp hw hf
    obtain ⟨fuel, rfl⟩ : ∃ k, fuel = k + 1 := ⟨fuel - 1, by simp at hf; omega⟩
    have hf1 : l.length ≤ fuel := by simpa using hf
    have hw1 := fun q hq => hw q (List.mem_cons_of_mem p hq)
    have hwp := hw p (List.mem_cons_self p l)
    unfold Path at hp
    obtain ⟨rfl, hp⟩ := hp
    unfold kexec_list_flush_loop
    unfold flush_spec
    by_cases h4 : M.flag p = IND_DONE
    · have hn8 : M.flag p ≠ IND_SOURCE := by rw [h4]; decide
      simp only [if_pos h4] at hp
      subst hp
      simp only [if_pos h4, if_neg hn8, flush_spec]
    · simp only [if_neg h4] at hp
      by_cases h2 : M.flag p = IND_INDIRECTION
      · have hn8 : M.flag p ≠ IND_SOURCE := by rw [h2]; decide
        simp only [if_pos h2] at hp
        simp only [if_neg h4, if_pos h2, if_neg hn8, u64_ptr_step _ (addr_lt M p)]
        rw [ih fuel _ hp hw1 hf1]
      · simp only [if_neg h2] at hp
        by_cases h8 : M.flag p = IND_SOURCE
        · simp only [if_neg h4, if_neg h2, if_pos h8]
          rw [ih fuel _ hp hw1 hf1]
        · have h1 : M.flag p = IND_DESTINATION := by
            rcases hwp with h | h | h | h
            · exact h
            · exact absurd h h2
            · exact absurd h h4
            · exact absurd h h8
          simp only [if_neg h4, if_neg h2, if_neg h8, if_pos h1]
          rw [ih fuel _ hp hw1 hf1]

theorem flushed_entries_spec (M : kexec_list) :
    ∀ l : List Nat, flushed_entries (flush_spec M l) = l := by
  intro l
  induction l with
  | nil => rfl
  | cons p l ih =>
    unfold flush_spec
    by_cases h8 : M.flag p = IND_SOURCE
    · simp only [if_pos h8, flushed_entries, ih]
    · simp only [if_neg h8, flushed_entries, ih]

theorem flushed_pages_spec (M : kexec_list) :
    ∀ l : List Nat, flushed_pages (flush_spec M l) =
      (l.filter (fun p => decide (M.flag p = IND_SOURCE))).map M.addr := by
  intro l
  induction l with
  | nil => rfl
  | cons p l ih =>
    unfold flush_spec
    by_cases h8 : M.flag p = IND_SOURCE
    · have hd : decide (M.flag p = IND_SOURCE) = true := by simp [h8]
      simp only [if_pos h8, flushed_pages, ih, List.filter_cons, hd, if_true, List.map_cons]
    · have hd : decide (M.flag p = IND_SOURCE) = false := by simp [h8]
      simp only [if_neg h8, flushed_pages, ih, List.filter_cons, hd, Bool.false_eq_true,
        if_false]

theorem walk_spec_some (M : kexec_list) :
    ∀ (l pre : List Nat),
      (∀ p ∈ l, M.flag p = IND_DESTINATION ∨ M.flag p = IND_INDIRECTION ∨ M.flag p = IND_DONE ∨
        M.flag p = IND_SOURCE) →
      ∀ it ∈ walk_spec M pre l, it.2 ≠ none := by
  intro l
  induction l with
  | nil => intro pre _ it hit; simp [walk_spec] at hit
  | cons p l ih =>
    intro pre hw it hit
    unfold walk_spec at hit
    rcases List.mem_cons.mp hit with h | h
    · rw [h]
      show visit_spec M pre p ≠ none
      unfold visit_spec
      rcases hw p (List.mem_cons_self p l) with h1 | h1 | h1 | h1 <;>
        simp [h1, IND_DESTINATION, IND_INDIRECTION, IND_DONE, IND_SOURCE]
    · exact ih _ (fun q hq => hw q (List.mem_cons_of_mem p hq)) it h

/-- C12: when the entries from the head up to the first done entry are `l`
(an indirection entry being followed by the first entry of the page it links
to), `kexec_list_walk` with enough fuel returns after visiting exactly `l` in
this order: a destination entry is reported with its address, the source
entry that comes `k` source entries after the destination entry `d` is
reported with the target `addr d + k * PAGE_SIZE` (a 64-bit sum), the entry
after an indirection entry is the first entry of the linked page, and the
done entry is the only one of the walk and is reported last. -/
theorem kexec_list_walk_dispatch (M : kexec_list) (l : List Nat) (fuel : Nat)
    (hp : Path M M.head l) (hf : l.length ≤ fuel) :
    kexec_list_walk M fuel = (walk_spec M [] l, Halt.ret ()) ∧
    (kexec_list_walk M fuel).1.map Prod.fst = l ∧
    (∃ pre last, l = pre ++ [last] ∧ M.flag last = IND_DONE ∧
      (∀ p ∈ pre, M.flag p ≠ IND_DONE) ∧
      (kexec_list_walk M fuel).1.getLast? =
        some (last, some { flag := IND_DONE, addr := 0, dest := 0 })) ∧
    (∀ pre d post, l = pre ++ d :: post → M.flag d = IND_DESTINATION →
      (kexec_list_walk M fuel).1[pre.length]? =
        some (d, some { flag := IND_DESTINATION, addr := M.addr d, dest := 0 })) ∧
    (∀ pre d mid s post, l = pre ++ d :: (mid ++ s :: post) → M.flag d = IND_DESTINATION →
      (∀ q ∈ mid, M.flag q ≠ IND_DESTINATION) → M.flag s = IND_SOURCE →
      (kexec_list_walk M fuel).1[(pre ++ d :: mid).length]? =
        some (s, some { flag := IND_SOURCE, addr := M.addr s,
                        dest := (M.addr d +
                          mid.countP (fun q => decide (M.flag q = IND_SOURCE)) * M.PAGE_SIZE)
                          % 2 ^ 64 })) ∧
    (∀ pre i q post, l = pre ++ i :: q :: post → M.flag i = IND_INDIRECTION →
      q = M.addr i ∧
      (kexec_list_walk M fuel).1[pre.length]? =
        some (i, some { flag := IND_INDIRECTION, addr := M.addr i, dest := 0 })) := by
  have hw : kexec_list_walk M fuel = (walk_spec M [] l, Halt.ret ()) := by
    unfold kexec_list_walk
    rw [← copy_target_spec_nil M]
    exact walk_loop_path M l fuel M.head [] hp hf
  rw [hw]
  refine ⟨rfl, walk_spec_fst M l [], ?_, ?_, ?_, ?_⟩
  · obtain ⟨pre, last, hl, hd, hpre⟩ := path_done_last M l M.head hp
    refine ⟨pre, last, hl, hd, hpre, ?_⟩
    show (walk_spec M [] l).getLast? = _
    rw [hl, walk_spec_append]
    simp only [walk_spec, List.nil_append, List.getLast?_append, List.getLast?_singleton]
    have h1 : M.flag last ≠ IND_DESTINATION := by rw [hd]; decide
    have h8 : M.flag last ≠ IND_SOURCE := by rw [hd]; decide
    have h2 : M.flag last ≠ IND_INDIRECTION := by rw [hd]; decide
    simp only [visit_spec, if_neg h1, if_neg h8, if_neg h2, if_pos hd]
    rfl
  · intro pre d post hl h1
    show (walk_spec M [] l)[pre.length]? = _
    rw [walk_spec_getElem M l [] pre d post hl]
    simp only [visit_spec, if_pos h1]
  · intro pre d mid s post hl h1 hmid h8
    show (walk_spec M [] l)[(pre ++ d :: mid).length]? = _
    have hl1 : l = (pre ++ d :: mid) ++ s :: post := by rw [hl]; simp
    have hn1 : M.flag s ≠ IND_DESTINATION := by rw [h8]; decide
    rw [walk_spec_getElem M l [] (pre ++ d :: mid) s post hl1]
    simp only [visit_spec, if_neg hn1, if_pos h8, List.nil_append,
      copy_target_spec_after M pre d mid h1 hmid]
  · intro pre i q post hl h2
    refine ⟨path_link M M.head pre i q post (hl ▸ hp) h2, ?_⟩
    show (walk_spec M [] l)[pre.length]? = _
    have hn1 : M.flag i ≠ IND_DESTINATION := by rw [h2]; decide
    have hn8 : M.flag i ≠ IND_SOURCE := by rw [h2]; decide
    rw [walk_spec_getElem M l [] pre i (q :: post) hl]
    simp only [visit_spec, if_neg hn1, if_neg hn8, if_pos h2]

/-- The walk of `list_two_pages`: the two source entries after the destination
0x80000 are reported with the targets 0x80000 and 0x81000. -/
theorem kexec_list_walk_dispatch_witness :
    Path list_two_pages list_two_pages.head [0x1000, 0x1008, 0x3000, 0x3008, 0x3010] ∧
    kexec_list_walk list_two_pages 5 =
      ([(0x1000, some { flag := IND_DESTINATION, addr := 0x80000, dest := 0 }),
        (0x1008, some { flag := IND_INDIRECTION, addr := 0x3000, dest := 0 }),
        (0x3000, some { flag := IND_SOURCE, addr := 0x5000, dest := 0x80000 }),
        (0x3008, some { flag := IND_SOURCE, addr := 0x6000, dest := 0x81000 }),
        (0x3010, some { flag := IND_DONE, addr := 0, dest := 0 })], Halt.ret ()) :=
  ⟨by decide,
   (kexec_list_walk_dispatch list_two_pages [0x1000, 0x1008, 0x3000, 0x3008, 0x3010] 5
      (by decide) (by decide)).1.trans (by decide)⟩

/-- C14 (as stated) fails: on the page list `list_norole`, whose head entry
carries no role and is followed by a done entry, `kexec_list_walk` skips the
head entry and returns after the done entry, while `kexec_list_flush` stops at
the head entry in the `BUG()` of line 363: the two do not visit the same
entries and one aborts on an entry the other passes over. -/
theorem kexec_list_norole_diverges :
    kexec_list_walk list_norole 2 =
      ([(0x1000, none), (0x1008, some { flag := IND_DONE, addr := 0, dest := 0 })],
        Halt.ret ()) ∧
    kexec_list_flush list_norole 2 = ([cache_flush.entry 0x1000], Halt.bug 363) ∧
    ¬ (flushed_entries (kexec_list_flush list_norole 2).1 =
        (kexec_list_walk list_norole 2).1.map Prod.fst) := by
  decide

/-- C14 (amended): on a well-formed page list, whose entries from the head
up to the done entry are `l` and carry exactly one role each, both traversals
with enough fuel return, both visit exactly the entries `l` in this order (so
both follow each indirection entry to the first entry of the linked page and
both stop at the same done entry), the walk reports every entry to its
visitor and the flush reaches no `BUG()`. -/
theorem kexec_list_same_traversal (M : kexec_list) (l : List Nat) (fuel : Nat)
    (hw : WellFormed M l) (hf : l.length ≤ fuel) :
    (kexec_list_walk M fuel).2 = Halt.ret () ∧
    (kexec_list_flush M fuel).2 = Halt.ret () ∧
    (kexec_list_walk M fuel).1.map Prod.fst = l ∧
    flushed_entries (kexec_list_flush M fuel).1 = l ∧
    (∀ it ∈ (kexec_list_walk M fuel).1, it.2 ≠ none) ∧
    (∃ pre last, l = pre ++ [last] ∧ M.flag last = IND_DONE ∧
      ∀ p ∈ pre, M.flag p ≠ IND_DONE) := by
  have h1 : kexec_list_walk M fuel = (walk_spec M [] l, Halt.ret ()) := by
    unfold kexec_list_walk
    rw [← copy_target_spec_nil M]
    exact walk_loop_path M l fuel M.head [] hw.1 hf
  have h2 : kexec_list_flush M fuel = (flush_spec M l, Halt.ret ()) :=
    flush_loop_path M l fuel M.head hw.1 hw.2 hf
  rw [h1, h2]
  exact ⟨rfl, rfl, walk_spec_fst M l [], flushed_entries_spec M l,
    walk_spec_some M l [] hw.2, path_done_last M l M.head hw.1⟩

/-- Both traversals of `list_two_pages` visit its five entries. -/
theorem kexec_list_same_traversal_witness :
    WellFormed list_two_pages [0x1000, 0x1008, 0x3000, 0x3008, 0x3010] ∧
    (kexec_list_walk list_two_pages 5).1.map Prod.fst =
      [0x1000, 0x1008, 0x3000, 0x3008, 0x3010] ∧
    flushed_entries (kexec_list_flush list_two_pages 5).1 =
      [0x1000, 0x1008, 0x3000, 0x3008, 0x3010] :=
  ⟨by decide,
   (kexec_list_same_traversal list_two_pages [0x1000, 0x1008, 0x3000, 0x3008, 0x3010] 5
      (by decide) (by decide)).2.2.1,
   (kexec_list_same_traversal list_two_pages [0x1000, 0x1008, 0x3000, 0x3008, 0x3010] 5
      (by decide) (by decide)).2.2.2.1⟩

/-- C15: on a well-formed page list, whose entries from the head up to the
done entry are `l`, `kexec_list_flush` with enough fuel returns after flushing
each entry of `l` (the done entry is the last of them) and, right after a
source entry, the page this entry names; these are all its flush calls, so no
page is flushed for a destination or an indirection entry. -/
theorem kexec_list_flush_wellformed (M : kexec_list) (l : List Nat) (fuel : Nat)
    (hw : WellFormed M l) (hf : l.length ≤ fuel) :
    kexec_list_flush M fuel = (flush_spec M l, Halt.ret ()) ∧
    flushed_entries (kexec_list_flush M fuel).1 = l ∧
    flushed_pages (kexec_list_flush M fuel).1 =
      (l.filter (fun p => decide (M.flag p = IND_SOURCE))).map M.addr ∧
    (∃ pre last, l = pre ++ [last] ∧ M.flag last = IND_DONE ∧
      ∀ p ∈ pre, M.flag p ≠ IND_DONE) := by
  have h2 : kexec_list_flush M fuel = (flush_spec M l, Halt.ret ()) :=
    flush_loop_path M l fuel M.head hw.1 hw.2 hf
  rw [h2]
  exact ⟨rfl, flushed_entries_spec M l, flushed_pages_spec M l,
    path_done_last M l M.head hw.1⟩

/-- The flush of `list_two_pages`: five entries and the two source pages. -/
theorem kexec_list_flush_wellformed_witness :
    WellFormed list_two_pages [0x1000, 0x1008, 0x3000, 0x3008, 0x3010] ∧
    kexec_list_flush list_two_pages 5 =
      ([cache_flush.entry 0x1000, cache_flush.entry 0x1008, cache_flush.entry 0x3000,
        cache_flush.page 0x5000, cache_flush.entry 0x3008, cache_flush.page 0x6000,
        cache_flush.entry 0x3010], Halt.ret ()) :=
  ⟨by decide,
   (kexec_list_flush_wellformed list_two_pages [0x1000, 0x1008, 0x3000, 0x3008, 0x3010] 5
      (by decide) (by decide)).1.trans (by decide)⟩

/-! ## fdt_setprop_reg: values that do not fit -/

/-- C19: for 64-bit `addr` and `size` and root cell counts `ac`, `sc` in
{1, 2}: when `addr` does not fit in `ac` cells of 32 bits or `size` does not
fit in `sc` cells, `fdt_setprop_reg` returns `-FDT_ERR_BADVALUE` and the blob
is the one passed in (`fdt_setprop` is not called); a negative result of the
address-cells lookup, or else of the size-cells lookup, is returned as it is,
again with the blob untouched. -/
theorem fdt_setprop_reg_badvalue {β : Type} (L : FdtLib β) (fdt : β) (nodeoffset : Int)
    (name : String) (addr size : Nat) (ha : addr < 2 ^ 64) (hs : size < 2 ^ 64) :
    ((L.fdt_address_cells fdt 0 = 1 ∨ L.fdt_address_cells fdt 0 = 2) →
      (L.fdt_size_cells fdt 0 = 1 ∨ L.fdt_size_cells fdt 0 = 2) →
      (2 ^ (32 * (L.fdt_address_cells fdt 0).toNat) ≤ addr ∨
        2 ^ (32 * (L.fdt_size_cells fdt 0).toNat) ≤ size) →
      fdt_setprop_reg L fdt nodeoffset name addr size = some (-FDT_ERR_BADVALUE, fdt)) ∧
    (L.fdt_address_cells fdt 0 < 0 →
      fdt_setprop_reg L fdt nodeoffset name addr size = some (L.fdt_address_cells fdt 0, fdt)) ∧
    (0 ≤ L.fdt_address_cells fdt 0 → L.fdt_size_cells fdt 0 < 0 →
      fdt_setprop_reg L fdt nodeoffset name addr size = some (L.fdt_size_cells fdt 0, fdt)) := by
  refine ⟨?_, ?_, ?_⟩
  · intro hac hsc hfit
    unfold fdt_setprop_reg
    have h0 : ¬ L.fdt_address_cells fdt 0 < 0 := by rcases hac with h | h <;> rw [h] <;> decide
    have h1 : ¬ L.fdt_size_cells fdt 0 < 0 := by rcases hsc with h | h <;> rw [h] <;> decide
    simp only [if_neg h0, if_neg h1]
    by_cases hA : L.fdt_address_cells fdt 0 = 1 ∧ (addr > U32_MAX ∨ u64_add addr size > U32_MAX)
    · simp only [if_pos hA]
    · simp only [if_neg hA]
      have hS : L.fdt_size_cells fdt 0 = 1 ∧ size > U32_MAX := by
        rcases hfit with hf | hf
        · exfalso
          rcases hac with h | h
          · rw [h] at hf
            apply hA
            refine ⟨h, Or.inl ?_⟩
            unfold U32_MAX
            simp at hf
            omega
          · rw [h] at hf
            simp at hf
            omega
        · rcases hsc with h | h
          · rw [h] at hf
            refine ⟨h, ?_⟩
            unfold U32_MAX
            simp at hf
            omega
          · rw [h] at hf
            simp at hf
            omega
      simp only [if_pos hS]
  · intro h
    unfold fdt_setprop_reg
    simp only [if_pos h]
  · intro h0 h1
    unfold fdt_setprop_reg
    simp only [if_neg (not_lt.mpr h0), if_pos h1]

/-- With one address cell and one size cell, the address 2^32 does not fit:
the call returns `-FDT_ERR_BADVALUE` and leaves the template as it is. -/
theorem fdt_setprop_reg_badvalue_witness :
    fdt_setprop_reg (cellsLib 1 1) ref_template 8 "reg" (2 ^ 32) 0 =
      some (-FDT_ERR_BADVALUE, ref_template) :=
  (fdt_setprop_reg_badvalue (cellsLib 1 1) ref_template 8 "reg" (2 ^ 32) 0 (by decide)
    (by decide)).1 (Or.inl rfl) (Or.inl rfl) (Or.inl (by decide))

/-! ## crash_is_nosave -/

theorem crash_is_nosave_loop_true (addr : Nat) :
    ∀ segs : List kexec_segment, crash_is_nosave_loop addr segs = true ↔
      ∀ s ∈ segs, ¬ (s.mem ≤ addr ∧ addr < u64_add s.mem s.memsz) := by
  intro segs
  induction segs with
  | nil => simp [crash_is_nosave_loop]
  | cons s rest ih =>
    unfold crash_is_nosave_loop
    by_cases h : s.mem ≤ addr ∧ addr < u64_add s.mem s.memsz
    · simp only [if_pos h]
      constructor
      · intro hf; exact absurd hf (by decide)
      · intro hall; exact absurd h (hall s (List.mem_cons_self s rest))
    · simp only [if_neg h, ih]
      constructor
      · intro hall q hq
        rcases List.mem_cons.mp hq with hq | hq
        · rw [hq]; exact h
        · exact hall q hq
      · intro hall q hq
        exact hall q (List.mem_cons_of_mem s hq)

/-- C17: with `addr` the physical address of the page frame `pfn` (64 bits),
`crash_is_nosave pfn` is true exactly when a crash region is reserved
(`crashk_res.end` is not 0), `addr` lies in it (`start <= addr <= end`) and
`addr` lies in no segment `[mem, mem + memsz)` of the loaded crash image,
`mem + memsz` being the 64-bit sum the code computes (the plain sum when no
segment of the image reaches beyond 2^64); with no crash image loaded the
last condition is void.  So a page outside the region, and a page inside a
segment of the loaded image, yield false. -/
theorem crash_is_nosave_iff {β : Type} (PAGE_SHIFT : Nat) (crashk_res : resource)
    (kexec_crash_image : Option (kimage β)) (pfn : Nat) :
    (crash_is_nosave PAGE_SHIFT crashk_res kexec_crash_image pfn = true ↔
      (crashk_res.end_ ≠ 0 ∧
        crashk_res.start ≤ pfn_to_phys PAGE_SHIFT pfn ∧
        pfn_to_phys PAGE_SHIFT pfn ≤ crashk_res.end_ ∧
        ∀ image, kexec_crash_image = some image → ∀ s ∈ image.segment,
          ¬ (s.mem ≤ pfn_to_phys PAGE_SHIFT pfn ∧
            pfn_to_phys PAGE_SHIFT pfn < u64_add s.mem s.memsz))) ∧
    ((pfn_to_phys PAGE_SHIFT pfn < crashk_res.start ∨
        crashk_res.end_ < pfn_to_phys PAGE_SHIFT pfn) →
      crash_is_nosave PAGE_SHIFT crashk_res kexec_crash_image pfn = false) ∧
    (∀ image, kexec_crash_image = some image → ∀ s ∈ image.segment,
      s.mem ≤ pfn_to_phys PAGE_SHIFT pfn → pfn_to_phys PAGE_SHIFT pfn < u64_add s.mem s.memsz →
      crash_is_nosave PAGE_SHIFT crashk_res kexec_crash_image pfn = false) ∧
    (kexec_crash_image = none → crashk_res.end_ ≠ 0 →
      crashk_res.start ≤ pfn_to_phys PAGE_SHIFT pfn →
      pfn_to_phys PAGE_SHIFT pfn ≤ crashk_res.end_ →
      crash_is_nosave PAGE_SHIFT crashk_res kexec_crash_image pfn = true) ∧
    ((∀ image, kexec_crash_image = some image → ∀ s ∈ image.segment,
        s.mem + s.memsz < 2 ^ 64) →
      (crash_is_nosave PAGE_SHIFT crashk_res kexec_crash_image pfn = true ↔
        (crashk_res.end_ ≠ 0 ∧
          crashk_res.start ≤ pfn_to_phys PAGE_SHIFT pfn ∧
          pfn_to_phys PAGE_SHIFT pfn ≤ crashk_res.end_ ∧
          ∀ image, kexec_crash_image = some image → ∀ s ∈ image.segment,
            ¬ (s.mem ≤ pfn_to_phys PAGE_SHIFT pfn ∧
              pfn_to_phys PAGE_SHIFT pfn < s.mem + s.memsz)))) := by
  have key : crash_is_nosave PAGE_SHIFT crashk_res kexec_crash_image pfn = true ↔
      (crashk_res.end_ ≠ 0 ∧
        crashk_res.start ≤ pfn_to_phys PAGE_SHIFT pfn ∧
        pfn_to_phys PAGE_SHIFT pfn ≤ crashk_res.end_ ∧
        ∀ image, kexec_crash_image = some image → ∀ s ∈ image.segment,
          ¬ (s.mem ≤ pfn_to_phys PAGE_SHIFT pfn ∧
            pfn_to_phys PAGE_SHIFT pfn < u64_add s.mem s.memsz)) := by
    unfold crash_is_nosave
    by_cases he : crashk_res.end_ = 0
    · simp only [if_pos he]
      constructor
      · intro hf; exact absurd hf (by decide)
      · intro h; exact absurd he h.1
    · simp only [if_neg he]
      by_cases hr : pfn_to_phys PAGE_SHIFT pfn < crashk_res.start ∨
          crashk_res.end_ < pfn_to_phys PAGE_SHIFT pfn
      · simp only [if_pos hr]
        constructor
        · intro hf; exact absurd hf (by decide)
        · intro h
          rcases hr with hr | hr
          · exact absurd h.2.1 (not_le.mpr hr)
          · exact absurd h.2.2.1 (not_le.mpr hr)
      · simp only [if_neg hr]
        have h1 : crashk_res.start ≤ pfn_to_phys PAGE_SHIFT pfn := by
          by_contra hc; exact hr (Or.inl (not_le.mp hc))
        have h2 : pfn_to_phys PAGE_SHIFT pfn ≤ crashk_res.end_ := by
          by_contra hc; exact hr (Or.inr (not_le.mp hc))
        cases kexec_crash_image with
        | none =>
          constructor
          · intro _
            exact ⟨he, h1, h2, fun image hi => absurd hi (by simp)⟩
          · intro _; rfl
        | some image =>
          show crash_is_nosave_loop _ image.segment = true ↔ _
          rw [crash_is_nosave_loop_true]
          constructor
          · intro hall
            refine ⟨he, h1, h2, ?_⟩
            intro image1 hi
            have : image = image1 := Option.some.inj hi
            subst this
            exact hall
          · intro h
            exact h.2.2.2 image rfl
  refine ⟨key, ?_, ?_, ?_, ?_⟩
  · intro hr
    cases hb : crash_is_nosave PAGE_SHIFT crashk_res kexec_crash_image pfn with
    | false => rfl
    | true =>
      have h := key.1 hb
      rcases hr with hr | hr
      · exact absurd h.2.1 (not_le.mpr hr)
      · exact absurd h.2.2.1 (not_le.mpr hr)
  · intro image hi s hs h1 h2
    cases hb : crash_is_nosave PAGE_SHIFT crashk_res kexec_crash_image pfn with
    | false => rfl
    | true => exact absurd ⟨h1, h2⟩ ((key.1 hb).2.2.2 image hi s hs)
  · intro hn he h1 h2
    exact key.2 ⟨he, h1, h2, fun image hi => absurd (hn ▸ hi) (by simp)⟩
  · intro hnw
    rw [key]
    have hu : ∀ image, kexec_crash_image = some image → ∀ s ∈ image.segment,
        u64_add s.mem s.memsz = s.mem + s.memsz := by
      intro image hi s hs
      unfold u64_add
      exact Nat.mod_eq_of_lt (hnw image hi s hs)
    constructor
    · intro h
      refine ⟨h.1, h.2.1, h.2.2.1, ?_⟩
      intro image hi s hs
      rw [← hu image hi s hs]
      exact h.2.2.2 image hi s hs
    · intro h
      refine ⟨h.1, h.2.1, h.2.2.1, ?_⟩
      intro image hi s hs
      rw [hu image hi s hs]
      exact h.2.2.2 image hi s hs

/-! ## machine_kexec: the online CPU check -/

theorem walk_loop_no_bug (M : kexec_list) :
    ∀ (fuel entry dest n : Nat), (kexec_list_walk_loop M fuel entry dest).2 ≠ Halt.bug n := by
  intro fuel
  induction fuel with
  | zero => intro entry dest n; simp [kexec_list_walk_loop]
  | succ fuel ih =>
    intro entry dest n
    unfold kexec_list_walk_loop
    simp only
    split_ifs
    · exact ih _ _ n
    · exact ih _ _ n
    · exact ih _ _ n
    · simp
    · exact ih _ _ n

theorem flush_loop_bug (M : kexec_list) :
    ∀ (fuel entry n : Nat), (kexec_list_flush_loop M fuel entry).2 = Halt.bug n → n = 363 := by
  intro fuel
  induction fuel with
  | zero => intro entry n h; simp [kexec_list_flush_loop] at h
  | succ fuel ih =>
    intro entry n
    unfold kexec_list_flush_loop
    simp only
    split_ifs
    · intro h; simp at h
    · exact ih _ n
    · exact ih _ n
    · exact ih _ n
    · intro h
      simp only [Halt.bug.injEq] at h
      exact h.symm

theorem handoff_warned {β : Type} (H : handoff_env) (M : kexec_list) (image : kimage β)
    (fuel : Nat) : (machine_kexec_handoff H M image fuel).warned = [] := by
  unfold machine_kexec_handoff
  cases (kexec_list_walk M fuel).2 with
  | bug n => rfl
  | fuel => rfl
  | ret u =>
    simp only
    cases (kexec_list_flush M fuel).2 with
    | bug n => rfl
    | fuel => rfl
    | ret u => rfl

theorem handoff_not_405 {β : Type} (H : handoff_env) (M : kexec_list) (image : kimage β)
    (fuel : Nat) : (machine_kexec_handoff H M image fuel).halt ≠ Halt.bug 405 := by
  unfold machine_kexec_handoff
  cases hw : (kexec_list_walk M fuel).2 with
  | bug n => exact absurd hw (walk_loop_no_bug M fuel M.head 0 n)
  | fuel => simp
  | ret u =>
    simp only
    cases hf : (kexec_list_flush M fuel).2 with
    | bug n =>
      have := flush_loop_bug M fuel M.head n hf
      subst this
      simp
    | fuel => simp
    | ret u =>
      simp only
      split_ifs <;> simp

theorem handoff_restart {β : Type} (H : handoff_env) (M : kexec_list) (image : kimage β)
    (fuel : Nat) (l : List Nat) (hw : WellFormed M l) (hf : l.length ≤ fuel)
    (hr : H.cpu_soft_restart_returns = false) :
    (machine_kexec_handoff H M image fuel).halt =
      Halt.ret (H.reboot_code_buffer_phys, M.load M.head, image.start, image.arch.dtb_mem) := by
  have h1 : kexec_list_walk M fuel = (walk_spec M [] l, Halt.ret ()) := by
    unfold kexec_list_walk
    rw [← copy_target_spec_nil M]
    exact walk_loop_path M l fuel M.head [] hw.1 hf
  have h2 : kexec_list_flush M fuel = (flush_spec M l, Halt.ret ()) :=
    flush_loop_path M l fuel M.head hw.1 hw.2 hf
  unfold machine_kexec_handoff
  rw [h1, h2]
  simp [hr]

/-- C16: for every number `n` of online CPUs and every value `c` of
`in_crash_kexec`, `machine_kexec` stops in the `BUG()` of its CPU check (line
405) if and only if `n > 1` and `c` is false; for `n > 1` and `c` true it
issues the warning of line 402 once and goes on with the hand-off (lines
408-482) exactly as it would without the check; for `n <= 1` it goes on with
the hand-off and no warning.  On a well-formed page list with enough fuel the
hand-off then reaches `cpu_soft_restart` with the arguments of line 474. -/
theorem machine_kexec_online_cpus {β : Type} (H : handoff_env) (M : kexec_list)
    (image : kimage β) (fuel : Nat) :
    ((machine_kexec H M image fuel).halt = Halt.bug 405 ↔
      (1 < H.num_online_cpus ∧ H.in_crash_kexec = false)) ∧
    (1 < H.num_online_cpus → H.in_crash_kexec = true →
      (machine_kexec H M image fuel).warned = [H.num_online_cpus] ∧
      (machine_kexec H M image fuel).flushed = (machine_kexec_handoff H M image fuel).flushed ∧
      (machine_kexec H M image fuel).halt = (machine_kexec_handoff H M image fuel).halt) ∧
    (H.num_online_cpus ≤ 1 →
      (machine_kexec H M image fuel).warned = [] ∧
      machine_kexec H M image fuel = machine_kexec_handoff H M image fuel) ∧
    (∀ l, WellFormed M l → l.length ≤ fuel → H.cpu_soft_restart_returns = false →
      ¬ (1 < H.num_online_cpus ∧ H.in_crash_kexec = false) →
      (machine_kexec H M image fuel).halt =
        Halt.ret (H.reboot_code_buffer_phys, M.load M.head, image.start,
          image.arch.dtb_mem)) := by
  refine ⟨?_, ?_, ?_, ?_⟩
  · unfold machine_kexec
    by_cases hn : H.num_online_cpus > 1
    · cases hc : H.in_crash_kexec with
      | true =>
        simp only [if_pos hn, if_true]
        constructor
        · intro h; exact absurd h (handoff_not_405 H M image fuel)
        · intro h; exact absurd h.2 (by simp)
      | false =>
        simp only [if_pos hn, Bool.false_eq_true, if_false]
        exact ⟨fun _ => ⟨hn, trivial⟩, fun _ => trivial⟩
    · simp only [if_neg hn]
      constructor
      · intro h; exact absurd h (handoff_not_405 H M image fuel)
      · intro h; exact absurd h.1 hn
  · intro hn hc
    unfold machine_kexec
    simp only [if_pos hn, hc, if_true, and_self]
  · intro hn
    have hn1 : ¬ H.num_online_cpus > 1 := by omega
    unfold machine_kexec
    simp only [if_neg hn1]
    exact ⟨handoff_warned H M image fuel, trivial⟩
  · intro l hw hf hr hnb
    have hh := handoff_restart H M image fuel l hw hf hr
    unfold machine_kexec
    by_cases hn : H.num_online_cpus > 1
    · cases hc : H.in_crash_kexec with
      | true => simp only [if_pos hn, if_true]; exact hh
      | false => exact absurd ⟨hn, hc⟩ hnb
    · simp only [if_neg hn]; exact hh

/-- A crash hand-off of `list_two_pages` with two CPUs online warns once and
reaches `cpu_soft_restart`. -/
theorem machine_kexec_online_cpus_witness :
    (machine_kexec ref_handoff_env list_two_pages ref_image_loaded 5).warned = [2] ∧
    (machine_kexec ref_handoff_env list_two_pages ref_image_loaded 5).halt =
      Halt.ret (0x9000, 0x80001, 0x40080000, 0x48000000) :=
  ⟨((machine_kexec_online_cpus ref_handoff_env list_two_pages ref_image_loaded 5).2.1
      (by decide) rfl).1,
   (machine_kexec_online_cpus ref_handoff_env list_two_pages ref_image_loaded 5).2.2.2
      [0x1000, 0x1008, 0x3000, 0x3008, 0x3010] (by decide) (by decide) rfl (by decide)⟩

/-! ## machine_kexec_prepare -/

theorem find_kernel_seg_loop (U : uaccess) :
    ∀ segs : List kexec_segment, kexec_find_kernel_seg_loop U segs =
      match segs.find? (fun s => kexec_is_kernel U s.kbuf) with
      | some s => Halt.ret s
      | none => Halt.bug 96 := by
  intro segs
  induction segs with
  | nil => rfl
  | cons s rest ih =>
    unfold kexec_find_kernel_seg_loop
    cases h : kexec_is_kernel U s.kbuf with
    | true => simp [List.find?_cons, h]
    | false => simp [List.find?_cons, h, ih]

theorem find_dtb_seg_loop (U : uaccess) :
    ∀ segs : List kexec_segment, kexec_find_dtb_seg_loop U segs =
      match segs.find? (fun s => kexec_is_dtb U s.kbuf) with
      | some s => Halt.ret s
      | none => Halt.bug 126 := by
  intro segs
  induction segs with
  | nil => rfl
  | cons s rest ih =>
    unfold kexec_find_dtb_seg_loop
    cases h : kexec_is_dtb U s.kbuf with
    | true => simp [List.find?_cons, h]
    | false => simp [List.find?_cons, h, ih]

/-- C20 (as stated) fails: for an image without segments `fill_bypass` finds
no kernel segment and `machine_kexec_prepare` stops in the `BUG()` of line 96,
whether CPUs are stuck or not: it returns neither 0 nor `-EBUSY`. -/
theorem prepare_without_segments_bugs :
    machine_kexec_prepare ref_uaccess false (kimage_empty RefFdt KEXEC_TYPE_DEFAULT) =
      Halt.bug 96 ∧
    machine_kexec_prepare ref_uaccess true (kimage_empty RefFdt KEXEC_TYPE_DEFAULT) =
      Halt.bug 96 ∧
    machine_kexec_prepare ref_uaccess false (kimage_empty RefFdt KEXEC_TYPE_CRASH) =
      Halt.bug 96 ∧
    ¬ (machine_kexec_prepare ref_uaccess false (kimage_empty RefFdt KEXEC_TYPE_CRASH) =
      Halt.ret (0, { kimage_start := 0, bypass := { kernel := 0, dtb := 0 } })) := by
  decide

/-- C20 (amended): when the first segment that `kexec_is_kernel` accepts and
the first segment that `kexec_is_dtb` accepts exist and both have a non-zero
load address, `machine_kexec_prepare` returns, having recorded the entry
address and the two load addresses, and its result is `-EBUSY` when the image
is not a crash image and CPUs are stuck in the kernel, and 0 in every other
case; for every other image it does not return but stops in a `BUG()` of
`fill_bypass`. -/
theorem machine_kexec_prepare_result {β : Type} (U : uaccess) (stuck : Bool)
    (image : kimage β) :
    (∀ k d, image.segment.find? (fun s => kexec_is_kernel U s.kbuf) = some k → k.mem ≠ 0 →
      image.segment.find? (fun s => kexec_is_dtb U s.kbuf) = some d → d.mem ≠ 0 →
      machine_kexec_prepare U stuck image =
        Halt.ret (if image.type ≠ KEXEC_TYPE_CRASH ∧ stuck = true then -EBUSY else 0,
          { kimage_start := image.start, bypass := { kernel := k.mem, dtb := d.mem } })) ∧
    ((¬ ∃ k d, image.segment.find? (fun s => kexec_is_kernel U s.kbuf) = some k ∧ k.mem ≠ 0 ∧
        image.segment.find? (fun s => kexec_is_dtb U s.kbuf) = some d ∧ d.mem ≠ 0) →
      ∃ n, machine_kexec_prepare U stuck image = Halt.bug n) := by
  constructor
  · intro k d hk hkm hd hdm
    unfold machine_kexec_prepare fill_bypass kexec_find_kernel_seg kexec_find_dtb_seg
    rw [find_kernel_seg_loop, find_dtb_seg_loop, hk, hd]
    simp only [if_neg hkm, if_neg hdm]
    split_ifs <;> rfl
  · intro hno
    unfold machine_kexec_prepare fill_bypass kexec_find_kernel_seg kexec_find_dtb_seg
    rw [find_kernel_seg_loop, find_dtb_seg_loop]
    cases hk : image.segment.find? (fun s => kexec_is_kernel U s.kbuf) with
    | none => exact ⟨96, rfl⟩
    | some k =>
      by_cases hkm : k.mem = 0
      · simp only [if_pos hkm]; exact ⟨140, rfl⟩
      · simp only [if_neg hkm]
        cases hd : image.segment.find? (fun s => kexec_is_dtb U s.kbuf) with
        | none => exact ⟨126, rfl⟩
        | some d =>
          by_cases hdm : d.mem = 0
          · simp only [if_pos hdm]; exact ⟨144, rfl⟩
          · exact absurd ⟨k, d, hk, hkm, hd, hdm⟩ hno

/-- For `ref_image_loaded`, which is not a crash image, the result is `-EBUSY`
with stuck CPUs and 0 without. -/
theorem machine_kexec_prepare_result_witness :
    machine_kexec_prepare ref_uaccess true ref_image_loaded =
      Halt.ret (-EBUSY, { kimage_start := 0x40080000,
                          bypass := { kernel := 0x40080000, dtb := 0x48000000 } }) ∧
    machine_kexec_prepare ref_uaccess false ref_image_loaded =
      Halt.ret (0, { kimage_start := 0x40080000,
                     bypass := { kernel := 0x40080000, dtb := 0x48000000 } }) :=
  ⟨((machine_kexec_prepare_result ref_uaccess true ref_image_loaded).1
      { kbuf := Buffer.kernel, bufsz := 0x10000, mem := 0x40080000, memsz := 0x10000 }
      { kbuf := Buffer.dtb, bufsz := 0x100, mem := 0x48000000, memsz := 0x100 }
      (by decide) (by decide) (by decide) (by decide)).trans (by decide),
   ((machine_kexec_prepare_result ref_uaccess false ref_image_loaded).1
      { kbuf := Buffer.kernel, bufsz := 0x10000, mem := 0x40080000, memsz := 0x10000 }
      { kbuf := Buffer.dtb, bufsz := 0x100, mem := 0x48000000, memsz := 0x100 }
      (by decide) (by decide) (by decide) (by decide)).trans (by decide)⟩

/-! ## The page list: encoding then walking -/

theorem land_flags (v : Nat) : v &&& IND_FLAGS = v % 16 := by
  have h : IND_FLAGS = 2 ^ 4 - 1 := by decide
  rw [h, Nat.and_pow_two_sub_one_eq_mod]

theorem land_page_mask (v k : Nat) (hk : k ≤ 64) :
    v &&& (2 ^ 64 - 2 ^ k) = v % 2 ^ 64 / 2 ^ k * 2 ^ k := by
  apply Nat.eq_of_testBit_eq
  intro i
  rw [Nat.testBit_and]
  have h1 : 2 ^ 64 - 2 ^ k = 2 ^ k * (2 ^ (64 - k) - 1) := by
    rw [Nat.mul_sub, ← pow_add, Nat.add_sub_cancel' hk, mul_one]
  rw [h1, Nat.mul_comm (v % 2 ^ 64 / 2 ^ k), Nat.testBit_mul_pow_two, Nat.testBit_mul_pow_two,
    Nat.testBit_two_pow_sub_one, ← Nat.shiftRight_eq_div_pow, Nat.testBit_shiftRight,
    Nat.testBit_mod_two_pow]
  by_cases h : k ≤ i
  · simp [h]
    by_cases h2 : i < 64
    · have : i - k < 64 - k := by omega
      have h3 : k + (i - k) = i := by omega
      simp [h2, this, h3]
    · have : ¬ i - k < 64 - k := by omega
      have h3 : ¬ k + (i - k) < 64 := by omega
      simp [this, h3]
      intro h4; exact absurd h4 h2
  · simp [h]

theorem lor_add (a f k : Nat) (hf : f < 2 ^ k) (ha : 2 ^ k ∣ a) : a ||| f = a + f := by
  obtain ⟨c, rfl⟩ := ha
  exact (Nat.mul_add_lt_is_or hf c).symm

theorem flag_of_or (a f : Nat) (ha : 16 ∣ a) (hf : f < 16) : (a ||| f) &&& IND_FLAGS = f := by
  rw [land_flags, lor_add a f 4 (by simpa using hf) (by simpa using ha)]
  omega

theorem page_of_or (k a f : Nat) (hk1 : 4 ≤ k) (hk2 : k ≤ 64) (ha : 2 ^ k ∣ a)
    (hlt : a < 2 ^ 64) (hf : f < 16) : (a ||| f) &&& (2 ^ 64 - 2 ^ k) = a := by
  have h16 : (16 : Nat) ≤ 2 ^ k := by
    calc (16 : Nat) = 2 ^ 4 := by norm_num
      _ ≤ 2 ^ k := Nat.pow_le_pow_right (by norm_num) hk1
  have hfk : f < 2 ^ k := lt_of_lt_of_le hf h16
  rw [land_page_mask _ k hk2, lor_add a f k hfk ha]
  obtain ⟨c, rfl⟩ := ha
  have hpos : 0 < 2 ^ k := by positivity
  have hdiv : 2 ^ k ∣ 2 ^ 64 := pow_dvd_pow 2 hk2
  obtain ⟨m, hm⟩ := hdiv
  have hcm : c < m := by
    by_contra hcon
    have : m ≤ c := not_lt.mp hcon
    have : 2 ^ k * m ≤ 2 ^ k * c := Nat.mul_le_mul_left _ this
    omega
  have hsum : 2 ^ k * c + f < 2 ^ 64 := by
    have : 2 ^ k * (c + 1) ≤ 2 ^ k * m := Nat.mul_le_mul_left _ hcm
    rw [Nat.mul_add, Nat.mul_one] at this
    omega
  rw [Nat.mod_eq_of_lt hsum, Nat.mul_add_div hpos, Nat.div_eq_of_lt hfk, Nat.add_zero,
    Nat.mul_comm]

theorem dvd_16_of_page (k a : Nat) (hk1 : 4 ≤ k) (ha : 2 ^ k ∣ a) : 16 ∣ a := by
  have : (16 : Nat) ∣ 2 ^ k := by
    have := pow_dvd_pow 2 hk1
    simpa using this
  exact Dvd.dvd.trans this ha

theorem segment_entries_flags (segs : List (Nat × Nat))
    (h : ∀ s ∈ segs, 16 ∣ s.1 ∧ 16 ∣ s.2) :
    ∀ e ∈ segment_entries segs,
      e &&& IND_FLAGS = IND_DESTINATION ∨ e &&& IND_FLAGS = IND_SOURCE := by
  induction segs with
  | nil => intro e he; simp [segment_entries] at he
  | cons s rest ih =>
    intro e he
    unfold segment_entries at he
    have hs := h s (List.mem_cons_self s rest)
    rcases List.mem_cons.mp he with h1 | h1
    · left; rw [h1]; exact flag_of_or _ _ hs.1 (by decide)
    · rcases List.mem_cons.mp h1 with h2 | h2
      · right; rw [h2]; exact flag_of_or _ _ hs.2 (by decide)
      · exact ih (fun q hq => h q (List.mem_cons_of_mem s hq)) e h2

theorem segment_entries_length (segs : List (Nat × Nat)) :
    (segment_entries segs).length = 2 * segs.length := by
  induction segs with
  | nil => rfl
  | cons s rest ih => simp [segment_entries, ih]; omega

theorem segment_entries_count (segs : List (Nat × Nat))
    (h : ∀ s ∈ segs, 16 ∣ s.1 ∧ 16 ∣ s.2) :
    (segment_entries segs).countP (fun e => decide (e &&& IND_FLAGS = IND_DESTINATION)) =
        segs.length ∧
    (segment_entries segs).countP (fun e => decide (e &&& IND_FLAGS = IND_SOURCE)) =
        segs.length ∧
    (segment_entries segs).countP (fun e => decide (e &&& IND_FLAGS = IND_DONE)) = 0 := by
  induction segs with
  | nil => simp [segment_entries]
  | cons s rest ih =>
    have hs := h s (List.mem_cons_self s rest)
    have ih1 := ih (fun q hq => h q (List.mem_cons_of_mem s hq))
    have f1 : (s.1 ||| IND_DESTINATION) &&& IND_FLAGS = IND_DESTINATION :=
      flag_of_or _ _ hs.1 (by decide)
    have f8 : (s.2 ||| IND_SOURCE) &&& IND_FLAGS = IND_SOURCE :=
      flag_of_or _ _ hs.2 (by decide)
    unfold segment_entries
    simp only [List.countP_cons, f1, f8, ih1.1, ih1.2.1, ih1.2.2, List.length_cons]
    refine ⟨?_, ?_, ?_⟩ <;> simp [IND_DESTINATION, IND_SOURCE, IND_DONE]

theorem path_step_plain (M : kexec_list) (p e : Nat) (l : List Nat) (hl : M.load p = e)
    (he : e &&& IND_FLAGS = IND_DESTINATION ∨ e &&& IND_FLAGS = IND_SOURCE)
    (hp : p + 8 < 2 ^ 64) (h : Path M (p + 8) l) : Path M p (p :: l) := by
  unfold Path
  refine ⟨rfl, ?_⟩
  have hf : M.flag p = e &&& IND_FLAGS := by unfold kexec_list.flag; rw [hl]
  have h4 : M.flag p ≠ IND_DONE := by
    rw [hf]; rcases he with h1 | h1 <;> rw [h1] <;> decide
  have h2 : M.flag p ≠ IND_INDIRECTION := by
    rw [hf]; rcases he with h1 | h1 <;> rw [h1] <;> decide
  have hu : u64_add p sizeof_kimage_entry_t = p + 8 := by
    unfold u64_add sizeof_kimage_entry_t
    exact Nat.mod_eq_of_lt hp
  simp only [if_neg h4, if_neg h2, hu]
  exact h

theorem encode_pages_path (M : kexec_list) (cap : Nat) (hcap : 2 ≤ cap)
    (hk1 : 4 ≤ M.PAGE_SHIFT) (hk2 : M.PAGE_SHIFT ≤ 64) :
    ∀ (es : List Nat) (page slot : Nat) (fresh : List Nat) (stores : List (Nat × Nat)),
      slot < cap → page + 8 * cap ≤ 2 ^ 64 →
      (∀ e ∈ es, e &&& IND_FLAGS = IND_DESTINATION ∨ e &&& IND_FLAGS = IND_SOURCE) →
      (∀ pg ∈ fresh, 2 ^ M.PAGE_SHIFT ∣ pg ∧ pg < 2 ^ 64 ∧
        M.phys_to_virt pg + 8 * cap ≤ 2 ^ 64) →
      encode_pages M.phys_to_virt cap page slot fresh es = some stores →
      (∀ pv ∈ stores, M.load pv.1 = pv.2) →
      Path M (page + 8 * slot) (stores.map Prod.fst) := by
  intro es
  induction es with
  | nil =>
    intro page slot fresh stores _ _ _ _ henc hst
    unfold encode_pages at henc
    have hs : stores = [(page + sizeof_kimage_entry_t * slot, IND_DONE)] :=
      (Option.some.inj henc).symm
    subst hs
    have hl := hst _ (List.mem_singleton.mpr rfl)
    simp only [sizeof_kimage_entry_t] at hl
    simp only [List.map_cons, List.map_nil, sizeof_kimage_entry_t]
    unfold Path
    refine ⟨rfl, ?_⟩
    have hf : M.flag (page + 8 * slot) = IND_DONE := by
      unfold kexec_list.flag
      rw [hl]
      decide
    simp only [if_pos hf]
  | cons e es ih =>
    intro page slot fresh stores hslot hpage hes hfresh henc hst
    have he := hes e (List.mem_cons_self e es)
    have hes1 := fun q hq => hes q (List.mem_cons_of_mem e hq)
    unfold encode_pages at henc
    by_cases hroom : slot + 1 < cap
    · simp only [if_pos hroom, Option.map_eq_some'] at henc
      obtain ⟨r, hr, hs⟩ := henc
      subst hs
      have hl := hst _ (List.mem_cons_self _ r)
      have hst1 := fun q hq => hst q (List.mem_cons_of_mem _ hq)
      simp only [sizeof_kimage_entry_t] at hl
      simp only [List.map_cons, sizeof_kimage_entry_t]
      apply path_step_plain M _ e _ hl he (by omega)
      have := ih page (slot + 1) fresh r hroom hpage hes1 hfresh hr hst1
      have hq : page + 8 * slot + 8 = page + 8 * (slot + 1) := by ring
      rw [hq]
      exact this
    · simp only [if_neg hroom] at henc
      cases fresh with
      | nil => simp at henc
      | cons pg fresh1 =>
        simp only [Option.map_eq_some'] at henc
        obtain ⟨r, hr, hs⟩ := henc
        subst hs
        have hpg := hfresh pg (List.mem_cons_self pg fresh1)
        have hfresh1 := fun q hq => hfresh q (List.mem_cons_of_mem pg hq)
        have hl := hst _ (List.mem_cons_self _ _)
        have hl2 := hst _ (List.mem_cons_of_mem _ (List.mem_cons_self _ r))
        have hst1 := fun q hq => hst q (List.mem_cons_of_mem _ (List.mem_cons_of_mem _ hq))
        simp only [sizeof_kimage_entry_t] at hl
        simp only at hl2
        simp only [List.map_cons, sizeof_kimage_entry_t]
        have h16 : 16 ∣ pg := dvd_16_of_page _ _ hk1 hpg.1
        have hf : M.flag (page + 8 * slot) = IND_INDIRECTION := by
          unfold kexec_list.flag
          rw [hl]
          exact flag_of_or _ _ h16 (by decide)
        have ha : M.addr (page + 8 * slot) = M.phys_to_virt pg := by
          unfold kexec_list.addr kexec_list.PAGE_MASK kexec_list.PAGE_SIZE
          rw [hl, page_of_or _ _ _ hk1 hk2 hpg.1 hpg.2.1 (by decide)]
          exact Nat.mod_eq_of_lt (by omega)
        unfold Path
        refine ⟨rfl, ?_⟩
        have h4 : M.flag (page + 8 * slot) ≠ IND_DONE := by rw [hf]; decide
        simp only [if_neg h4, if_pos hf, ha]
        apply path_step_plain M _ e _ hl2 he (by omega)
        have := ih (M.phys_to_virt pg) 1 fresh1 r (by omega) hpg.2.2 hes1 hfresh1 hr hst1
        simpa using this

theorem encode_pages_count (phys_to_virt : Nat → Nat) (cap f : Nat)
    (hf : f ≠ IND_INDIRECTION) :
    ∀ (es : List Nat) (page slot : Nat) (fresh : List Nat) (stores : List (Nat × Nat)),
      (∀ pg ∈ fresh, 16 ∣ pg) →
      encode_pages phys_to_virt cap page slot fresh es = some stores →
      stores.countP (fun pv => decide (pv.2 &&& IND_FLAGS = f)) =
        es.countP (fun e => decide (e &&& IND_FLAGS = f)) + (if f = IND_DONE then 1 else 0) := by
  intro es
  induction es with
  | nil =>
    intro page slot fresh stores _ henc
    unfold encode_pages at henc
    have hs := (Option.some.inj henc).symm
    subst hs
    have h4 : IND_DONE &&& IND_FLAGS = IND_DONE := by decide
    by_cases hd : f = IND_DONE
    · subst hd; simp [h4]
    · have : ¬ IND_DONE = f := fun h => hd h.symm
      simp [h4, hd, this]
  | cons e es ih =>
    intro page slot fresh stores hfresh henc
    unfold encode_pages at henc
    by_cases hroom : slot + 1 < cap
    · simp only [if_pos hroom, Option.map_eq_some'] at henc
      obtain ⟨r, hr, hs⟩ := henc
      subst hs
      have := ih page (slot + 1) fresh r hfresh hr
      simp only [List.countP_cons, this]
      omega
    · simp only [if_neg hroom] at henc
      cases fresh with
      | nil => simp at henc
      | cons pg fresh1 =>
        simp only [Option.map_eq_some'] at henc
        obtain ⟨r, hr, hs⟩ := henc
        subst hs
        have h2 : (pg ||| IND_INDIRECTION) &&& IND_FLAGS = IND_INDIRECTION :=
          flag_of_or _ _ (hfresh pg (List.mem_cons_self pg fresh1)) (by decide)
        have hne : ¬ IND_INDIRECTION = f := fun h => hf h.symm
        have := ih (phys_to_virt pg) 1 fresh1 r
          (fun q hq => hfresh q (List.mem_cons_of_mem pg hq)) hr
        simp only [List.countP_cons, this, h2, hne, decide_False, Bool.false_eq_true, if_false,
          Nat.add_zero]
        omega

theorem encode_pages_links_zero (phys_to_virt : Nat → Nat) (cap : Nat) :
    ∀ (es : List Nat) (page slot : Nat) (fresh : List Nat) (stores : List (Nat × Nat)),
      slot + es.length < cap →
      (∀ e ∈ es, e &&& IND_FLAGS = IND_DESTINATION ∨ e &&& IND_FLAGS = IND_SOURCE) →
      encode_pages phys_to_virt cap page slot fresh es = some stores →
      stores.countP (fun pv => decide (pv.2 &&& IND_FLAGS = IND_INDIRECTION)) = 0 := by
  intro es
  induction es with
  | nil =>
    intro page slot fresh stores _ _ henc
    unfold encode_pages at henc
    have hs := (Option.some.inj henc).symm
    subst hs
    have h4 : ¬ IND_DONE &&& IND_FLAGS = IND_INDIRECTION := by decide
    simp [h4]
  | cons e es ih =>
    intro page slot fresh stores hfit hes henc
    have he := hes e (List.mem_cons_self e es)
    have hes1 := fun q hq => hes q (List.mem_cons_of_mem e hq)
    unfold encode_pages at henc
    have hroom : slot + 1 < cap := by simp at hfit; omega
    simp only [if_pos hroom, Option.map_eq_some'] at henc
    obtain ⟨r, hr, hs⟩ := henc
    subst hs
    have hne : ¬ e &&& IND_FLAGS = IND_INDIRECTION := by
      rcases he with h | h <;> rw [h] <;> decide
    have := ih page (slot + 1) fresh r (by simp at hfit; omega) hes1 hr
    simp only [List.countP_cons, this, hne, decide_False, Bool.false_eq_true, if_false]

theorem encode_pages_links_pos (phys_to_virt : Nat → Nat) (cap : Nat) :
    ∀ (es : List Nat) (page slot : Nat) (fresh : List Nat) (stores : List (Nat × Nat)),
      slot < cap → cap ≤ slot + es.length → (∀ pg ∈ fresh, 16 ∣ pg) →
      encode_pages phys_to_virt cap page slot fresh es = some stores →
      1 ≤ stores.countP (fun pv => decide (pv.2 &&& IND_FLAGS = IND_INDIRECTION)) := by
  intro es
  induction es with
  | nil => intro page slot fresh stores h1 h2; simp at h2; omega
  | cons e es ih =>
    intro page slot fresh stores hslot hover hfresh henc
    unfold encode_pages at henc
    by_cases hroom : slot + 1 < cap
    · simp only [if_pos hroom, Option.map_eq_some'] at henc
      obtain ⟨r, hr, hs⟩ := henc
      subst hs
      have := ih page (slot + 1) fresh r hroom (by simp at hover; omega) hfresh hr
      simp only [List.countP_cons]
      omega
    · simp only [if_neg hroom] at henc
      cases fresh with
      | nil => simp at henc
      | cons pg fresh1 =>
        simp only [Option.map_eq_some'] at henc
        obtain ⟨r, hr, hs⟩ := henc
        subst hs
        have h2 : (pg ||| IND_INDIRECTION) &&& IND_FLAGS = IND_INDIRECTION :=
          flag_of_or _ _ (hfresh pg (List.mem_cons_self pg fresh1)) (by decide)
        simp only [List.countP_cons, h2, decide_True, if_true]
        omega

theorem encode_pages_roles (phys_to_virt : Nat → Nat) (cap : Nat) :
    ∀ (es : List Nat) (page slot : Nat) (fresh : List Nat) (stores : List (Nat × Nat)),
      (∀ e ∈ es, e &&& IND_FLAGS = IND_DESTINATION ∨ e &&& IND_FLAGS = IND_SOURCE) →
      (∀ pg ∈ fresh, 16 ∣ pg) →
      encode_pages phys_to_virt cap page slot fresh es = some stores →
      ∀ pv ∈ stores, pv.2 &&& IND_FLAGS = IND_DESTINATION ∨
        pv.2 &&& IND_FLAGS = IND_INDIRECTION ∨ pv.2 &&& IND_FLAGS = IND_DONE ∨
        pv.2 &&& IND_FLAGS = IND_SOURCE := by
  intro es
  induction es with
  | nil =>
    intro page slot fresh stores _ _ henc pv hpv
    unfold encode_pages at henc
    have hs := (Option.some.inj henc).symm
    subst hs
    rw [List.mem_singleton.mp hpv]
    have h4 : IND_DONE &&& IND_FLAGS = IND_DONE := by decide
    right; right; left; exact h4
  | cons e es ih =>
    intro page slot fresh stores hes hfresh henc pv hpv
    have he := hes e (List.mem_cons_self e es)
    have hes1 := fun q hq => hes q (List.mem_cons_of_mem e hq)
    have hrole : e &&& IND_FLAGS = IND_DESTINATION ∨ e &&& IND_FLAGS = IND_INDIRECTION ∨
        e &&& IND_FLAGS = IND_DONE ∨ e &&& IND_FLAGS = IND_SOURCE := by
      rcases he with h | h
      · exact Or.inl h
      · exact Or.inr (Or.inr (Or.inr h))
    unfold encode_pages at henc
    by_cases hroom : slot + 1 < cap
    · simp only [if_pos hroom, Option.map_eq_some'] at henc
      obtain ⟨r, hr, hs⟩ := henc
      subst hs
      rcases List.mem_cons.mp hpv with h | h
      · rw [h]; exact hrole
      · exact ih page (slot + 1) fresh r hes1 hfresh hr pv h
    · simp only [if_neg hroom] at henc
      cases fresh with
      | nil => simp at henc
      | cons pg fresh1 =>
        simp only [Option.map_eq_some'] at henc
        obtain ⟨r, hr, hs⟩ := henc
        subst hs
        rcases List.mem_cons.mp hpv with h | h
        · rw [h]
          right; left
          exact flag_of_or _ _ (hfresh pg (List.mem_cons_self pg fresh1)) (by decide)
        · rcases List.mem_cons.mp h with h1 | h1
          · rw [h1]; exact hrole
          · exact ih (phys_to_virt pg) 1 fresh1 r hes1
              (fun q hq => hfresh q (List.mem_cons_of_mem pg hq)) hr pv h1

theorem visit_spec_flag (M : kexec_list) (pre : List Nat) (p : Nat)
    (h : M.flag p = IND_DESTINATION ∨ M.flag p = IND_INDIRECTION ∨ M.flag p = IND_DONE ∨
      M.flag p = IND_SOURCE) :
    (visit_spec M pre p).map cb_call.flag = some (M.flag p) := by
  unfold visit_spec
  rcases h with h | h | h | h <;>
    simp [h, IND_DESTINATION, IND_INDIRECTION, IND_DONE, IND_SOURCE]

theorem walk_spec_visits (M : kexec_list) (f : Nat) :
    ∀ (l pre : List Nat),
      (∀ p ∈ l, M.flag p = IND_DESTINATION ∨ M.flag p = IND_INDIRECTION ∨ M.flag p = IND_DONE ∨
        M.flag p = IND_SOURCE) →
      visits f (walk_spec M pre l) = l.countP (fun p => decide (M.flag p = f)) := by
  intro l
  induction l with
  | nil => intro pre _; rfl
  | cons p l ih =>
    intro pre hw
    have hp := visit_spec_flag M pre p (hw p (List.mem_cons_self p l))
    have := ih (pre ++ [p]) (fun q hq => hw q (List.mem_cons_of_mem p hq))
    unfold visits at this ⊢
    unfold walk_spec
    simp only [List.countP_cons, this, hp, Option.some.injEq]

theorem count_stored (M : kexec_list) (f : Nat) :
    ∀ stores : List (Nat × Nat), (∀ pv ∈ stores, M.load pv.1 = pv.2) →
      (stores.map Prod.fst).countP (fun p => decide (M.flag p = f)) =
        stores.countP (fun pv => decide (pv.2 &&& IND_FLAGS = f)) := by
  intro stores
  induction stores with
  | nil => intro _; rfl
  | cons pv stores ih =>
    intro hst
    have h1 : M.flag pv.1 = pv.2 &&& IND_FLAGS := by
      unfold kexec_list.flag
      rw [hst pv (List.mem_cons_self pv stores)]
    have := ih (fun q hq => hst q (List.mem_cons_of_mem pv hq))
    simp only [List.map_cons, List.countP_cons, this, h1]

theorem page_cap (k : Nat) (hk : 4 ≤ k) :
    2 ≤ 2 ^ k / sizeof_kimage_entry_t ∧ 8 * (2 ^ k / sizeof_kimage_entry_t) = 2 ^ k := by
  unfold sizeof_kimage_entry_t
  obtain ⟨j, rfl⟩ : ∃ j, k = 4 + j := ⟨k - 4, by omega⟩
  have h : 2 ^ (4 + j) = 8 * (2 * 2 ^ j) := by rw [pow_add]; ring
  have hpos : 0 < 2 ^ j := by positivity
  rw [h, Nat.mul_div_cancel_left _ (by norm_num : 0 < 8)]
  omega

/-- C13: encode `N` one-page segments (final address and staged page both
page aligned) into list pages of `PAGE_SIZE / 8` entries starting at the head,
linking to the fresh pages `fresh` as the spec describes, and let the memory
hold the words stored.  Then `kexec_list_walk` with enough fuel returns and
reports exactly `N` destination entries, exactly `N` source entries and
exactly one done entry, which is the last report; every entry it visits is
reported; it reports no indirection entry when the `2 * N` entries and the
done entry fit in one list page, and at least one otherwise. -/
theorem encode_walk_counts (M : kexec_list) (segs : List (Nat × Nat)) (fresh : List Nat)
    (stores : List (Nat × Nat)) (fuel : Nat)
    (hk1 : 4 ≤ M.PAGE_SHIFT) (hk2 : M.PAGE_SHIFT ≤ 64)
    (hhead : M.head + M.PAGE_SIZE ≤ 2 ^ 64)
    (hsegs : ∀ s ∈ segs, 2 ^ M.PAGE_SHIFT ∣ s.1 ∧ 2 ^ M.PAGE_SHIFT ∣ s.2)
    (hfresh : ∀ pg ∈ fresh, 2 ^ M.PAGE_SHIFT ∣ pg ∧ pg < 2 ^ 64 ∧
      M.phys_to_virt pg + M.PAGE_SIZE ≤ 2 ^ 64)
    (henc : encode M segs fresh = some stores)
    (hst : ∀ pv ∈ stores, M.load pv.1 = pv.2)
    (hf : stores.length ≤ fuel) :
    (kexec_list_walk M fuel).2 = Halt.ret () ∧
    visits IND_DESTINATION (kexec_list_walk M fuel).1 = segs.length ∧
    visits IND_SOURCE (kexec_list_walk M fuel).1 = segs.length ∧
    visits IND_DONE (kexec_list_walk M fuel).1 = 1 ∧
    (∃ p, (kexec_list_walk M fuel).1.getLast? =
      some (p, some { flag := IND_DONE, addr := 0, dest := 0 })) ∧
    (∀ it ∈ (kexec_list_walk M fuel).1, it.2 ≠ none) ∧
    (2 * segs.length + 1 ≤ M.PAGE_SIZE / sizeof_kimage_entry_t →
      visits IND_INDIRECTION (kexec_list_walk M fuel).1 = 0) ∧
    (M.PAGE_SIZE / sizeof_kimage_entry_t < 2 * segs.length + 1 →
      1 ≤ visits IND_INDIRECTION (kexec_list_walk M fuel).1) := by
  have hcap := page_cap M.PAGE_SHIFT hk1
  have h16 : ∀ s ∈ segs, 16 ∣ s.1 ∧ 16 ∣ s.2 := fun s hs =>
    ⟨dvd_16_of_page _ _ hk1 (hsegs s hs).1, dvd_16_of_page _ _ hk1 (hsegs s hs).2⟩
  have hes := segment_entries_flags segs h16
  have hfresh16 : ∀ pg ∈ fresh, 16 ∣ pg := fun pg hpg =>
    dvd_16_of_page _ _ hk1 (hfresh pg hpg).1
  have hfresh1 : ∀ pg ∈ fresh, 2 ^ M.PAGE_SHIFT ∣ pg ∧ pg < 2 ^ 64 ∧
      M.phys_to_virt pg + 8 * (M.PAGE_SIZE / sizeof_kimage_entry_t) ≤ 2 ^ 64 := by
    intro pg hpg
    have := hfresh pg hpg
    unfold kexec_list.PAGE_SIZE at this ⊢
    rw [hcap.2]
    exact this
  have hhead1 : M.head + 8 * (M.PAGE_SIZE / sizeof_kimage_entry_t) ≤ 2 ^ 64 := by
    unfold kexec_list.PAGE_SIZE at hhead ⊢
    rw [hcap.2]
    exact hhead
  have hcap0 : 0 < M.PAGE_SIZE / sizeof_kimage_entry_t :=
    lt_of_lt_of_le (by norm_num) hcap.1
  unfold encode at henc
  have hpath : Path M M.head (stores.map Prod.fst) := by
    have := encode_pages_path M (M.PAGE_SIZE / sizeof_kimage_entry_t) hcap.1 hk1 hk2
      (segment_entries segs) M.head 0 fresh stores hcap0
      hhead1 hes hfresh1 henc hst
    simpa using this
  have hroles : ∀ p ∈ stores.map Prod.fst, M.flag p = IND_DESTINATION ∨
      M.flag p = IND_INDIRECTION ∨ M.flag p = IND_DONE ∨ M.flag p = IND_SOURCE := by
    intro p hp
    obtain ⟨pv, hpv, rfl⟩ := List.mem_map.mp hp
    have := encode_pages_roles _ _ _ _ _ _ _ hes hfresh16 henc pv hpv
    unfold kexec_list.flag
    rw [hst pv hpv]
    exact this
  have hw : kexec_list_walk M fuel = (walk_spec M [] (stores.map Prod.fst), Halt.ret ()) := by
    unfold kexec_list_walk
    rw [← copy_target_spec_nil M]
    exact walk_loop_path M _ fuel M.head [] hpath (by simpa using hf)
  have hcount : ∀ f, visits f (walk_spec M [] (stores.map Prod.fst)) =
      stores.countP (fun pv => decide (pv.2 &&& IND_FLAGS = f)) := by
    intro f
    rw [walk_spec_visits M f _ [] hroles, count_stored M f stores hst]
  have hsc := segment_entries_count segs h16
  rw [hw]
  refine ⟨rfl, ?_, ?_, ?_, ?_, ?_, ?_, ?_⟩
  · show visits IND_DESTINATION (walk_spec M [] (stores.map Prod.fst)) = _
    rw [hcount, encode_pages_count _ _ IND_DESTINATION (by decide) _ _ _ _ _ hfresh16 henc,
      hsc.1]
    simp [IND_DESTINATION, IND_DONE]
  · show visits IND_SOURCE (walk_spec M [] (stores.map Prod.fst)) = _
    rw [hcount, encode_pages_count _ _ IND_SOURCE (by decide) _ _ _ _ _ hfresh16 henc,
      hsc.2.1]
    simp [IND_SOURCE, IND_DONE]
  · show visits IND_DONE (walk_spec M [] (stores.map Prod.fst)) = _
    rw [hcount, encode_pages_count _ _ IND_DONE (by decide) _ _ _ _ _ hfresh16 henc,
      hsc.2.2]
    simp
  · obtain ⟨pre, last, hl, hd, _⟩ := path_done_last M _ M.head hpath
    refine ⟨last, ?_⟩
    show (walk_spec M [] (stores.map Prod.fst)).getLast? = _
    rw [hl, walk_spec_append]
    simp only [walk_spec, List.nil_append, List.getLast?_append, List.getLast?_singleton]
    have h1 : M.flag last ≠ IND_DESTINATION := by rw [hd]; decide
    have h8 : M.flag last ≠ IND_SOURCE := by rw [hd]; decide
    have h2 : M.flag last ≠ IND_INDIRECTION := by rw [hd]; decide
    simp only [visit_spec, if_neg h1, if_neg h8, if_neg h2, if_pos hd]
    rfl
  · exact walk_spec_some M _ [] hroles
  · intro hfit
    show visits IND_INDIRECTION (walk_spec M [] (stores.map Prod.fst)) = _
    rw [hcount]
    exact encode_pages_links_zero _ _ _ _ _ _ _
      (by rw [segment_entries_length]; omega) hes henc
  · intro hover
    show 1 ≤ visits IND_INDIRECTION (walk_spec M [] (stores.map Prod.fst))
    rw [hcount]
    exact encode_pages_links_pos _ _ _ _ _ _ _ hcap0
      (by rw [segment_entries_length]; omega) hfresh16 henc

/-- Two segments in pages of 4 KiB need no link; one segment in list pages of
two entries needs one. -/
theorem encode_walk_counts_witness :
    (visits IND_DESTINATION (kexec_list_walk list_encoded_small 5).1 = 2 ∧
      visits IND_SOURCE (kexec_list_walk list_encoded_small 5).1 = 2 ∧
      visits IND_DONE (kexec_list_walk list_encoded_small 5).1 = 1 ∧
      visits IND_INDIRECTION (kexec_list_walk list_encoded_small 5).1 = 0) ∧
    (visits IND_DESTINATION (kexec_list_walk list_encoded_linked 4).1 = 1 ∧
      visits IND_SOURCE (kexec_list_walk list_encoded_linked 4).1 = 1 ∧
      visits IND_DONE (kexec_list_walk list_encoded_linked 4).1 = 1 ∧
      1 ≤ visits IND_INDIRECTION (kexec_list_walk list_encoded_linked 4).1) :=
  have a := encode_walk_counts list_encoded_small [(0x80000, 0x5000), (0x81000, 0x6000)] []
    [(0x1000, 0x80001), (0x1008, 0x5008), (0x1010, 0x81001), (0x1018, 0x6008), (0x1020, 0x4)] 5
    (by decide) (by decide) (by decide) (by decide) (by decide) (by decide) (by decide)
    (by decide)
  have b := encode_walk_counts list_encoded_linked [(0x80000, 0x5000)] [0x200]
    [(0x100, 0x80001), (0x108, 0x202), (0x200, 0x5008), (0x208, 0x4)] 4
    (by decide) (by decide) (by decide) (by decide) (by decide) (by decide) (by decide)
    (by decide)
  ⟨⟨a.2.1, a.2.2.1, a.2.2.2.1, a.2.2.2.2.2.2.1 (by decide)⟩,
   ⟨b.2.1, b.2.2.1, b.2.2.2.1, b.2.2.2.2.2.2.2 (by decide)⟩⟩

/-! ## prepare_elf_headers: the range table -/

theorem exclude_range_append (mstart mend : Nat) :
    ∀ a b : List crash_mem_range, exclude_range mstart mend (a ++ b) =
      exclude_range mstart mend a ++ exclude_range mstart mend b := by
  intro a
  induction a with
  | nil => intro b; rfl
  | cons r a ih =>
    intro b
    rw [List.cons_append]
    simp only [exclude_range]
    rw [ih b]
    split_ifs <;> simp

theorem exclude_range_disjoint (mstart mend : Nat) :
    ∀ rs : List crash_mem_range, (∀ r ∈ rs, mend < r.start ∨ r.end_ < mstart) →
      exclude_range mstart mend rs = rs := by
  intro rs
  induction rs with
  | nil => intro _; rfl
  | cons r rs ih =>
    intro h
    simp only [exclude_range]
    rw [if_pos (h r (List.mem_cons_self r rs)),
      ih (fun q hq => h q (List.mem_cons_of_mem r hq))]

theorem u64_sub_one (a : Nat) (h1 : 1 ≤ a) (h2 : a ≤ 2 ^ 64) : u64_sub a 1 = a - 1 := by
  unfold u64_sub
  norm_num at h2 ⊢
  omega

theorem map_inclusive (rs : List (Nat × Nat)) (h : ∀ r ∈ rs, r.1 < r.2 ∧ r.2 ≤ 2 ^ 64) :
    rs.map (fun r => ({ start := r.1, end_ := u64_sub r.2 1 } : crash_mem_range)) =
      rs.map inclusive := by
  apply List.map_congr_left
  intro r hr
  have := h r hr
  unfold inclusive
  rw [u64_sub_one r.2 (by omega) this.2]

theorem inclusive_disjoint (rs : List (Nat × Nat)) (s e cs ce : Nat)
    (hv : ∀ r ∈ rs, r.1 < r.2 ∧ r.2 ≤ 2 ^ 64) (hd : ∀ r ∈ rs, r.2 ≤ s ∨ e ≤ r.1)
    (h1 : s ≤ cs) (h2 : ce < e) :
    ∀ r ∈ rs.map inclusive, ce < r.start ∨ r.end_ < cs := by
  intro r hr
  obtain ⟨q, hq, rfl⟩ := List.mem_map.mp hr
  have hvq := hv q hq
  unfold inclusive
  simp only
  rcases hd q hq with h | h
  · right; omega
  · left; omega

/-- C18: let the `M` live ranges be `pre`, then `[s, e)`, then `post`, all
non-empty and pairwise apart from `[s, e)`, and let the reserved region
`[crashk_res.start, crashk_res.end]` lie inside `[s, e)`.  Then
`prepare_elf_headers` (when its allocation succeeds) builds the table of
capacity `M + 1` that holds the live ranges as `[start, end - 1]` in their
order, and with the exclusion of the spec the table handed to
`crash_prepare_elf64_headers` holds the ranges of `pre`, what is left of
`[s, e)` below and above the region, and the ranges of `post`: `M + 1` ranges
when the region lies strictly inside, `M` when it reaches exactly one end of
`[s, e)`, never more than the capacity. -/
theorem prepare_elf_headers_ranges {β : Type} (E : kexec_env β) (pre post : List (Nat × Nat))
    (s e : Nat)
    (hx : E.crash_exclude_mem_range = crash_exclude_mem_range)
    (hk : E.kmalloc (8 + 16 * (1 + E.memblock_memory.length)) = true)
    (hm : E.memblock_memory = pre ++ (s, e) :: post)
    (hv : ∀ r ∈ E.memblock_memory, r.1 < r.2 ∧ r.2 ≤ 2 ^ 64)
    (hd : ∀ r ∈ pre ++ post, r.2 ≤ s ∨ e ≤ r.1)
    (h1 : s ≤ E.crashk_res.start) (h2 : E.crashk_res.start ≤ E.crashk_res.end_)
    (h3 : E.crashk_res.end_ < e) :
    prepare_elf_headers E =
      (if (E.crash_exclude_mem_range
            { max_nr_ranges := E.memblock_memory.length + 1,
              ranges := E.memblock_memory.map inclusive }
            E.crashk_res.start E.crashk_res.end_).1 = 0 then
        E.crash_prepare_elf64_headers
          (E.crash_exclude_mem_range
            { max_nr_ranges := E.memblock_memory.length + 1,
              ranges := E.memblock_memory.map inclusive }
            E.crashk_res.start E.crashk_res.end_).2 true
      else
        ((E.crash_exclude_mem_range
            { max_nr_ranges := E.memblock_memory.length + 1,
              ranges := E.memblock_memory.map inclusive }
            E.crashk_res.start E.crashk_res.end_).1, [], 0)) ∧
    (crash_exclude_mem_range
        { max_nr_ranges := E.memblock_memory.length + 1,
          ranges := E.memblock_memory.map inclusive }
        E.crashk_res.start E.crashk_res.end_ =
      (0, { max_nr_ranges := E.memblock_memory.length + 1,
            ranges := pre.map inclusive ++
              ((if s < E.crashk_res.start then
                  [{ start := s, end_ := E.crashk_res.start - 1 }] else []) ++
               (if E.crashk_res.end_ + 1 < e then
                  [{ start := E.crashk_res.end_ + 1, end_ := e - 1 }] else [])) ++
              post.map inclusive })) ∧
    prepare_elf_headers E =
      E.crash_prepare_elf64_headers
        { max_nr_ranges := E.memblock_memory.length + 1,
          ranges := pre.map inclusive ++
            ((if s < E.crashk_res.start then
                [{ start := s, end_ := E.crashk_res.start - 1 }] else []) ++
             (if E.crashk_res.end_ + 1 < e then
                [{ start := E.crashk_res.end_ + 1, end_ := e - 1 }] else [])) ++
            post.map inclusive } true ∧
    (s < E.crashk_res.start → E.crashk_res.end_ + 1 < e →
      (exclude_range E.crashk_res.start E.crashk_res.end_
        (E.memblock_memory.map inclusive)).length = E.memblock_memory.length + 1) ∧
    ((s = E.crashk_res.start ∧ E.crashk_res.end_ + 1 < e) ∨
        (s < E.crashk_res.start ∧ E.crashk_res.end_ + 1 = e) →
      (exclude_range E.crashk_res.start E.crashk_res.end_
        (E.memblock_memory.map inclusive)).length = E.memblock_memory.length) ∧
    (exclude_range E.crashk_res.start E.crashk_res.end_
      (E.memblock_memory.map inclusive)).length ≤ E.memblock_memory.length + 1 := by
  have hvpre : ∀ r ∈ pre, r.1 < r.2 ∧ r.2 ≤ 2 ^ 64 := fun r hr =>
    hv r (by rw [hm]; exact List.mem_append_left _ hr)
  have hvpost : ∀ r ∈ post, r.1 < r.2 ∧ r.2 ≤ 2 ^ 64 := fun r hr =>
    hv r (by rw [hm]; exact List.mem_append_right _ (List.mem_cons_of_mem _ hr))
  have hse := hv (s, e) (by rw [hm]; simp)
  simp only at hse
  have hex : exclude_range E.crashk_res.start E.crashk_res.end_
      (E.memblock_memory.map inclusive) =
      pre.map inclusive ++
        ((if s < E.crashk_res.start then
            [{ start := s, end_ := E.crashk_res.start - 1 }] else []) ++
         (if E.crashk_res.end_ + 1 < e then
            [{ start := E.crashk_res.end_ + 1, end_ := e - 1 }] else [])) ++
        post.map inclusive := by
    rw [hm, List.map_append, List.map_cons, exclude_range_append]
    simp only [exclude_range]
    rw [exclude_range_disjoint _ _ (pre.map inclusive)
        (inclusive_disjoint pre s e _ _ hvpre
          (fun r hr => hd r (List.mem_append_left _ hr)) h1 h3),
      exclude_range_disjoint _ _ (post.map inclusive)
        (inclusive_disjoint post s e _ _ hvpost
          (fun r hr => hd r (List.mem_append_right _ hr)) h1 h3)]
    have hov : ¬ (E.crashk_res.end_ < (inclusive (s, e)).start ∨
        (inclusive (s, e)).end_ < E.crashk_res.start) := by
      unfold inclusive
      simp only
      omega
    rw [if_neg hov]
    have hr : (E.crashk_res.end_ < (inclusive (s, e)).end_) ↔ (E.crashk_res.end_ + 1 < e) := by
      unfold inclusive
      simp only
      omega
    simp only [hr]
    simp [inclusive, List.append_assoc]
  have hlen : (exclude_range E.crashk_res.start E.crashk_res.end_
      (E.memblock_memory.map inclusive)).length =
      pre.length + post.length + (if s < E.crashk_res.start then 1 else 0) +
        (if E.crashk_res.end_ + 1 < e then 1 else 0) := by
    rw [hex]
    simp only [List.length_append, List.length_map]
    split_ifs <;> simp <;> omega
  have hM : E.memblock_memory.length = pre.length + post.length + 1 := by
    rw [hm]; simp; omega
  have hle : (exclude_range E.crashk_res.start E.crashk_res.end_
      (E.memblock_memory.map inclusive)).length ≤ E.memblock_memory.length + 1 := by
    rw [hlen, hM]
    split_ifs <;> omega
  have hcx : crash_exclude_mem_range
        { max_nr_ranges := E.memblock_memory.length + 1,
          ranges := E.memblock_memory.map inclusive }
        E.crashk_res.start E.crashk_res.end_ =
      (0, { max_nr_ranges := E.memblock_memory.length + 1,
            ranges := pre.map inclusive ++
              ((if s < E.crashk_res.start then
                  [{ start := s, end_ := E.crashk_res.start - 1 }] else []) ++
               (if E.crashk_res.end_ + 1 < e then
                  [{ start := E.crashk_res.end_ + 1, end_ := e - 1 }] else [])) ++
              post.map inclusive }) := by
    unfold crash_exclude_mem_range
    simp only
    rw [if_neg (not_lt.mpr hle), hex]
  refine ⟨?_, hcx, ?_, ?_, ?_, hle⟩
  · unfold prepare_elf_headers
    simp only [hk, Bool.true_eq_false, if_false]
    simp only [map_inclusive _ hv, Nat.add_comm 1 E.memblock_memory.length]
  · unfold prepare_elf_headers
    simp only [hk, Bool.true_eq_false, if_false]
    simp only [hx, map_inclusive _ hv, Nat.add_comm 1 E.memblock_memory.length, hcx, if_true]
  · intro ha hb
    rw [hlen, hM, if_pos ha, if_pos hb]
  · intro h
    rw [hlen, hM]
    rcases h with ⟨ha, hb⟩ | ⟨ha, hb⟩
    · rw [if_neg (by omega), if_pos hb]
    · rw [if_pos ha, if_neg (by omega)]

/-- The example of the spec: live ranges `[0, 1000)` and `[2000, 3000)` with
the reserved region `[500, 700)` become `[0, 500)`, `[700, 1000)` and
`[2000, 3000)`, three ranges within the capacity of three. -/
theorem prepare_elf_headers_ranges_witness :
    prepare_elf_headers rangeEnv = (0, [0, 499, 700, 999, 2000, 2999], 3) :=
  (prepare_elf_headers_ranges rangeEnv [] [(2000, 3000)] 0 1000 rfl rfl rfl (by decide)
    (by decide) (by decide) (by decide) (by decide)).2.2.1.trans (by decide)

/-! ## create_dtb: the draw only shows in kaslr-seed -/

theorem cpu_to_fdt64_length (v : Nat) : (cpu_to_fdt64 v).length = 8 := by
  simp [cpu_to_fdt64, cpu_to_fdt32]

theorem agree_refl {β : Type} (L : FdtLib β) (b : β) : AgreeButSeed L b b :=
  ⟨fun _ _ => rfl, fun _ _ _ => rfl⟩

theorem setup_dtb_kaslr_seed_rel {β : Type} (L : FdtLib β) (hL : FdtLaws L)
    (hV : FdtValueLaws L) (random_ready : Int) (v w : Nat) (nodeoffset : Int) (dtb : β) :
    (setup_dtb_kaslr L.ops random_ready v nodeoffset dtb).1 =
      (setup_dtb_kaslr L.ops random_ready w nodeoffset dtb).1 ∧
    ((setup_dtb_kaslr L.ops random_ready v nodeoffset dtb).1 = 0 →
      AgreeButSeed L (setup_dtb_kaslr L.ops random_ready v nodeoffset dtb).2
        (setup_dtb_kaslr L.ops random_ready w nodeoffset dtb).2) := by
  unfold setup_dtb_kaslr
  simp only [FdtLib.ops, fdt_setprop_u64]
  by_cases hd : (L.fdt_delprop dtb nodeoffset FDT_PSTR_KASLR_SEED).1 ≠ 0 ∧
      (L.fdt_delprop dtb nodeoffset FDT_PSTR_KASLR_SEED).1 ≠ -FDT_ERR_NOTFOUND
  · simp only [if_pos hd]
    exact ⟨trivial, fun _ => agree_refl L _⟩
  · simp only [if_neg hd]
    by_cases hr : random_ready ≠ 0
    · simp only [if_pos hr]
      have hlen : (cpu_to_fdt64 v).length = (cpu_to_fdt64 w).length := by
        rw [cpu_to_fdt64_length, cpu_to_fdt64_length]
      have hc := hV.setprop_code (L.fdt_delprop dtb nodeoffset FDT_PSTR_KASLR_SEED).2
        nodeoffset FDT_PSTR_KASLR_SEED _ _ hlen
      by_cases h0 : (L.fdt_setprop (L.fdt_delprop dtb nodeoffset FDT_PSTR_KASLR_SEED).2
          nodeoffset FDT_PSTR_KASLR_SEED (cpu_to_fdt64 v)).1 ≠ 0
      · have h0w : (L.fdt_setprop (L.fdt_delprop dtb nodeoffset FDT_PSTR_KASLR_SEED).2
            nodeoffset FDT_PSTR_KASLR_SEED (cpu_to_fdt64 w)).1 ≠ 0 := by rw [← hc]; exact h0
        simp only [if_pos h0, if_pos h0w, hc]
        refine ⟨trivial, ?_⟩
        intro hz
        exfalso
        by_cases hs : (L.fdt_setprop (L.fdt_delprop dtb nodeoffset FDT_PSTR_KASLR_SEED).2
            nodeoffset FDT_PSTR_KASLR_SEED (cpu_to_fdt64 w)).1 = -FDT_ERR_NOSPACE
        · rw [if_pos hs] at hz; exact absurd hz (by decide)
        · rw [if_neg hs] at hz; exact absurd hz (by decide)
      · have h0w : ¬ (L.fdt_setprop (L.fdt_delprop dtb nodeoffset FDT_PSTR_KASLR_SEED).2
            nodeoffset FDT_PSTR_KASLR_SEED (cpu_to_fdt64 w)).1 ≠ 0 := by rw [← hc]; exact h0
        simp only [if_neg h0, if_neg h0w]
        refine ⟨trivial, fun _ => ?_⟩
        have hz : (L.fdt_setprop (L.fdt_delprop dtb nodeoffset FDT_PSTR_KASLR_SEED).2
            nodeoffset FDT_PSTR_KASLR_SEED (cpu_to_fdt64 v)).1 = 0 := not_not.mp h0
        have hzw : (L.fdt_setprop (L.fdt_delprop dtb nodeoffset FDT_PSTR_KASLR_SEED).2
            nodeoffset FDT_PSTR_KASLR_SEED (cpu_to_fdt64 w)).1 = 0 := not_not.mp h0w
        have hframe := hV.setprop_frame (L.fdt_delprop dtb nodeoffset FDT_PSTR_KASLR_SEED).2
          nodeoffset FDT_PSTR_KASLR_SEED (cpu_to_fdt64 v) (cpu_to_fdt64 w)
        have gv := hL.setprop_get (L.fdt_delprop dtb nodeoffset FDT_PSTR_KASLR_SEED).2
          nodeoffset FDT_PSTR_KASLR_SEED (cpu_to_fdt64 v) _ (Prod.ext hz rfl)
        have gw := hL.setprop_get (L.fdt_delprop dtb nodeoffset FDT_PSTR_KASLR_SEED).2
          nodeoffset FDT_PSTR_KASLR_SEED (cpu_to_fdt64 w) _ (Prod.ext hzw rfl)
        constructor
        · intro node name
          by_cases hp : node ≠ nodeoffset ∨ name ≠ FDT_PSTR_KASLR_SEED
          · rw [hframe node name hlen hz hp]
          · have h1 : node = nodeoffset := by
              by_contra hc1; exact hp (Or.inl hc1)
            have h2 : name = FDT_PSTR_KASLR_SEED := by
              by_contra hc2; exact hp (Or.inr hc2)
            rw [h1, h2, gv, gw]
            rfl
        · intro node name hname
          exact hframe node name hlen hz (Or.inr hname)
    · simp only [if_neg hr]
      exact ⟨trivial, fun _ => agree_refl L _⟩

theorem setup_dtb_seed_rel {β : Type} (L : FdtLib β) (hL : FdtLaws L) (hV : FdtValueLaws L)
    (image : kimage β) (crashk_res : resource) (random_ready : Int) (v w : Nat)
    (a l : Nat) (cmdline : Option (List Nat)) (dtb : β) :
    (setup_dtb L.ops image crashk_res random_ready v a l cmdline dtb = none ∧
      setup_dtb L.ops image crashk_res random_ready w a l cmdline dtb = none) ∨
    ∃ r1 r2, setup_dtb L.ops image crashk_res random_ready v a l cmdline dtb = some r1 ∧
      setup_dtb L.ops image crashk_res random_ready w a l cmdline dtb = some r2 ∧
      r1.1 = r2.1 ∧ (r1.1 = 0 → AgreeButSeed L r1.2 r2.2) := by
  unfold setup_dtb
  simp only
  by_cases hn : L.ops.fdt_path_offset dtb "/chosen" < 0
  · simp only [if_pos hn]
    exact Or.inr ⟨_, _, rfl, rfl, rfl, fun _ => agree_refl L _⟩
  · simp only [if_neg hn]
    cases hc : setup_dtb_crash L.ops image crashk_res (L.ops.fdt_path_offset dtb "/chosen") dtb with
    | none => exact Or.inl ⟨rfl, rfl⟩
    | some r1 =>
      simp only
      by_cases h1 : r1.1 ≠ 0
      · simp only [if_pos h1]
        exact Or.inr ⟨_, _, rfl, rfl, rfl, fun _ => agree_refl L _⟩
      · simp only [if_neg h1]
        by_cases h2 : (setup_dtb_bootargs L.ops cmdline (L.ops.fdt_path_offset dtb "/chosen")
            r1.2).1 ≠ 0
        · simp only [if_pos h2]
          exact Or.inr ⟨_, _, rfl, rfl, rfl, fun _ => agree_refl L _⟩
        · simp only [if_neg h2]
          by_cases h3 : (setup_dtb_initrd L.ops a l (L.ops.fdt_path_offset dtb "/chosen")
              (setup_dtb_bootargs L.ops cmdline (L.ops.fdt_path_offset dtb "/chosen")
                r1.2).2).1 ≠ 0
          · simp only [if_pos h3]
            exact Or.inr ⟨_, _, rfl, rfl, rfl, fun _ => agree_refl L _⟩
          · simp only [if_neg h3]
            have := setup_dtb_kaslr_seed_rel L hL hV random_ready v w
              (L.ops.fdt_path_offset dtb "/chosen")
              (setup_dtb_initrd L.ops a l (L.ops.fdt_path_offset dtb "/chosen")
                (setup_dtb_bootargs L.ops cmdline (L.ops.fdt_path_offset dtb "/chosen")
                  r1.2).2).2
            exact Or.inr ⟨_, _, rfl, rfl, this.1, this.2⟩

theorem agree_pack {β : Type} (L : FdtLib β) (hV : FdtValueLaws L) (b1 b2 : β)
    (h : AgreeButSeed L b1 b2) : AgreeButSeed L (L.fdt_pack b1).2 (L.fdt_pack b2).2 := by
  constructor
  · intro node name
    rw [hV.pack_getprop, hV.pack_getprop]
    exact h.1 node name
  · intro node name hn
    rw [hV.pack_getprop, hV.pack_getprop]
    exact h.2 node name hn

theorem create_dtb_loop_seed_rel {β : Type} (E : kexec_env β) (g : Nat → Nat)
    (hL : FdtLaws E.fdt) (hV : FdtValueLaws E.fdt) (image : kimage β) (a l : Nat)
    (cmdline : Option (List Nat)) :
    ∀ fuel n bs,
      (create_dtb_loop E image a l cmdline fuel n bs).2 =
        (create_dtb_loop { E with get_random_bytes := g } image a l cmdline fuel n bs).2 ∧
      SameButSeed E.fdt (create_dtb_loop E image a l cmdline fuel n bs).1
        (create_dtb_loop { E with get_random_bytes := g } image a l cmdline fuel n bs).1 := by
  intro fuel
  induction fuel with
  | zero =>
    intro n bs
    simp only [create_dtb_loop, SameButSeed]
    exact ⟨trivial, trivial⟩
  | succ fuel ih =>
    intro n bs
    unfold create_dtb_loop
    simp only
    by_cases hv : E.vmalloc n bs = false
    · simp only [if_pos hv, SameButSeed]
      exact ⟨trivial, trivial⟩
    · simp only [if_neg hv]
      by_cases ho : (E.fdt.fdt_open_into E.initial_boot_params bs).1 ≠ 0
      · simp only [if_pos ho, SameButSeed]
        exact ⟨trivial, trivial⟩
      · simp only [if_neg ho]
        rcases setup_dtb_seed_rel E.fdt hL hV image E.crashk_res E.random_ready
            (E.get_random_bytes n) (g n) a l cmdline
            (E.fdt.fdt_open_into E.initial_boot_params bs).2 with ⟨h1, h2⟩ | ⟨r1, r2, h1, h2, hc, ha⟩
        · rw [h1, h2]
          simp only [SameButSeed]
          exact ⟨trivial, trivial⟩
        · rw [h1, h2]
          simp only
          by_cases hz : r1.1 ≠ 0
          · have hz2 : r2.1 ≠ 0 := by rw [← hc]; exact hz
            simp only [if_pos hz, if_pos hz2]
            by_cases hm : r1.1 = -ENOMEM
            · have hm2 : r2.1 = -ENOMEM := by rw [← hc]; exact hm
              simp only [if_pos hm, if_pos hm2]
              have := ih (n + 1) (u64_add bs DTB_EXTRA_SPACE)
              exact ⟨by rw [this.1], this.2⟩
            · have hm2 : ¬ r2.1 = -ENOMEM := by rw [← hc]; exact hm
              simp only [if_neg hm, if_neg hm2, SameButSeed]
              exact ⟨trivial, hc⟩
          · have hz2 : ¬ r2.1 ≠ 0 := by rw [← hc]; exact hz
            simp only [if_neg hz, if_neg hz2, SameButSeed]
            exact ⟨trivial, trivial, agree_pack E.fdt hV _ _ (ha (not_not.mp hz))⟩

theorem refLib_value_laws : FdtValueLaws refLib where
  setprop_code := by
    intro b n name v w _
    simp only [refLib]
    by_cases hn : n = 8
    · simp only [hn, if_true]
    · simp only [hn, if_false]
  setprop_frame := by
    intro b n name v w node other _ hz hp
    simp only [refLib] at hz ⊢
    by_cases hn : n = 8
    · simp only [hn, if_true] at hz ⊢
      by_cases hnode : node = 8
      · simp only [hnode, if_true]
        have ho : other ≠ name := by
          rcases hp with h | h
          · exact absurd (hnode.trans hn.symm) h
          · exact h
        simp only [prop_get]
        rw [if_neg (fun e => ho e.symm), if_neg (fun e => ho e.symm)]
      · simp only [hnode, if_false]
    · simp only [hn, if_false]
  pack_getprop := by
    intro b node name
    rfl

/-- C11: under the laws of the device-tree library, two runs of `create_dtb`
on the same template, image and arguments whose environments differ only in
the values drawn by `get_random_bytes` make the same attempts (the same
sequence of buffer sizes) and end in outcomes that are identical except for
the value of kaslr-seed: the same kind of outcome and the same return code,
and, when a blob is stored, blobs with the same set of properties and the
same value for every property other than kaslr-seed. -/
theorem create_dtb_seed_only {β : Type} (E : kexec_env β) (g : Nat → Nat)
    (hL : FdtLaws E.fdt) (hV : FdtValueLaws E.fdt) (fuel : Nat) (image : kimage β)
    (initrd_load_addr initrd_len : Nat) (cmdline : Option (List Nat)) :
    (create_dtb E fuel image initrd_load_addr initrd_len cmdline).2 =
      (create_dtb { E with get_random_bytes := g } fuel image initrd_load_addr initrd_len
        cmdline).2 ∧
    SameButSeed E.fdt (create_dtb E fuel image initrd_load_addr initrd_len cmdline).1
      (create_dtb { E with get_random_bytes := g } fuel image initrd_load_addr initrd_len
        cmdline).1 := by
  unfold create_dtb
  cases hs : strlen cmdline with
  | none =>
    simp only [SameButSeed]
    exact ⟨trivial, trivial⟩
  | some len =>
    simp only
    exact create_dtb_loop_seed_rel E g hL hV image initrd_load_addr initrd_len cmdline fuel 0 _

/-- With the reference library, the builds with the draws 7 and 9 agree but
for the seed, and they do differ. -/
theorem create_dtb_seed_only_witness :
    SameButSeed refLib
      (create_dtb refEnv 1 (kimage_empty RefFdt KEXEC_TYPE_DEFAULT) 0 0 (some [97])).1
      (create_dtb { refEnv with get_random_bytes := fun _ => 9 } 1
        (kimage_empty RefFdt KEXEC_TYPE_DEFAULT) 0 0 (some [97])).1 ∧
    (create_dtb refEnv 1 (kimage_empty RefFdt KEXEC_TYPE_DEFAULT) 0 0 (some [97])).1 =
      Res.ret (0, some { chosen := [("kaslr-seed", [0, 0, 0, 0, 0, 0, 0, 7]),
                                    ("bootargs", [97, 0])], totalsize := 0x1101 }) ∧
    (create_dtb { refEnv with get_random_bytes := fun _ => 9 } 1
        (kimage_empty RefFdt KEXEC_TYPE_DEFAULT) 0 0 (some [97])).1 =
      Res.ret (0, some { chosen := [("kaslr-seed", [0, 0, 0, 0, 0, 0, 0, 9]),
                                    ("bootargs", [97, 0])], totalsize := 0x1101 }) :=
  ⟨(create_dtb_seed_only refEnv (fun _ => 9) refLib_laws refLib_value_laws 1
      (kimage_empty RefFdt KEXEC_TYPE_DEFAULT) 0 0 (some [97])).2,
   by decide, by decide⟩

/-! ## load_other_segments: the placement requests -/

theorem kexec_add_buffer_requests {β : Type} (E : kexec_env β) (kbuf : kexec_buf)
    (s : LoadState β) :
    (kexec_add_buffer E kbuf s).2.2.requests =
      s.requests ++ [(kbuf, (kexec_add_buffer E kbuf s).1)] :=
  (kexec_add_buffer_grows E kbuf s).requests

theorem load_elf_headers_requests {β : Type} (E : kexec_env β) (K S : Nat) (s : LoadState β) :
    ∃ new, (load_elf_headers E (u64_add K S) s).2.requests = s.requests ++ new ∧
      (∀ q ∈ new, PayloadRequest K S q.1 ∧ q.1.buffer = Buffer.elf_headers) ∧
      (s.image.type = KEXEC_TYPE_CRASH → (load_elf_headers E (u64_add K S) s).1 = 0 →
        new ≠ []) := by
  unfold load_elf_headers
  by_cases ht : s.image.type = KEXEC_TYPE_CRASH
  · simp only [if_pos ht]
    by_cases hh : (prepare_elf_headers E).1 ≠ 0
    · simp only [if_pos hh]
      exact ⟨[], by simp, by simp, fun _ h0 => absurd h0 hh⟩
    · simp only [if_neg hh]
      obtain ⟨kb, hkb⟩ : ∃ kb : kexec_buf, kb =
          { buffer := Buffer.elf_headers, bufsz := (prepare_elf_headers E).2.2, mem := 0,
            memsz := (prepare_elf_headers E).2.2, buf_align := SZ_64K,
            buf_min := u64_add K S, buf_max := ULONG_MAX, top_down := true } := ⟨_, rfl⟩
      simp only [← hkb]
      have hreq := kexec_add_buffer_requests E kb s
      have hP : PayloadRequest K S kb ∧ kb.buffer = Buffer.elf_headers := by
        rw [hkb]
        exact ⟨⟨rfl, rfl, rfl, rfl, rfl, rfl⟩, rfl⟩
      refine ⟨[(kb, (kexec_add_buffer E kb s).1)], ?_, ?_, fun _ _ => by simp⟩
      · by_cases hr : (kexec_add_buffer E kb s).1 ≠ 0
        · simp only [if_pos hr]; exact hreq
        · simp only [if_neg hr]; exact hreq
      · intro q hq
        rw [List.mem_singleton.mp hq]
        exact hP
  · simp only [if_neg ht]
    exact ⟨[], by simp, by simp, fun h => absurd h ht⟩

theorem load_initrd_requests {β : Type} (E : kexec_env β) (K S : Nat) (initrd : Option Mem)
    (initrd_len : Nat) (s : LoadState β) :
    ∃ new, (load_initrd E (u64_add K S) K initrd initrd_len s).2.2.requests =
        s.requests ++ new ∧
      (∀ q ∈ new, PayloadRequest K S q.1 ∧ q.1.buffer = Buffer.initrd ∧
        q.1.bufsz = initrd_len) ∧
      (initrd ≠ none → new ≠ []) := by
  unfold load_initrd
  cases initrd with
  | none => exact ⟨[], by simp, by simp, fun h => absurd rfl h⟩
  | some m =>
    simp only
    obtain ⟨kb, hkb⟩ : ∃ kb : kexec_buf, kb =
        { buffer := Buffer.initrd, bufsz := initrd_len, mem := 0, memsz := initrd_len,
          buf_align := 0, buf_min := u64_add K S,
          buf_max := u64_add (K - K % SZ_1G) (SZ_1G * 32), top_down := false } := ⟨_, rfl⟩
    simp only [← hkb]
    have hreq := kexec_add_buffer_requests E kb s
    have hP : PayloadRequest K S kb ∧ kb.buffer = Buffer.initrd ∧ kb.bufsz = initrd_len := by
      rw [hkb]
      exact ⟨⟨rfl, rfl, rfl, rfl, rfl, rfl⟩, rfl, rfl⟩
    refine ⟨[(kb, (kexec_add_buffer E kb s).1)], ?_, ?_, fun _ => by simp⟩
    · by_cases hr : (kexec_add_buffer E kb s).1 ≠ 0
      · simp only [if_pos hr]; exact hreq
      · simp only [if_neg hr]; exact hreq
    · intro q hq
      rw [List.mem_singleton.mp hq]
      exact hP

theorem load_other_segments_requests {β : Type} (E : kexec_env β) (fuel : Nat)
    (s : LoadState β) (K S : Nat) (initrd : Option Mem) (initrd_len : Nat)
    (cmdline : Option (List Nat)) :
    ∃ new, (load_other_segments E fuel s K S initrd initrd_len cmdline).2.requests =
        s.requests ++ new ∧
      (∀ q ∈ new, PayloadRequest K S q.1) ∧
      ((load_other_segments E fuel s K S initrd initrd_len cmdline).1 = Res.ret 0 →
        (s.image.type = KEXEC_TYPE_CRASH → ∃ q ∈ new, q.1.buffer = Buffer.elf_headers) ∧
        (initrd ≠ none → ∃ q ∈ new, q.1.buffer = Buffer.initrd) ∧
        ∃ q ∈ new, q.1.buffer = Buffer.dtb) := by
  unfold load_other_segments
  simp only
  obtain ⟨n1, h1, p1, e1⟩ := load_elf_headers_requests E K S s
  by_cases hr1 : (load_elf_headers E (u64_add K S) s).1 ≠ 0
  · simp only [if_pos hr1]
    refine ⟨n1, h1, fun q hq => (p1 q hq).1, ?_⟩
    intro h
    exact absurd (Res.ret.inj h) hr1
  · simp only [if_neg hr1]
    obtain ⟨n2, h2, p2, e2⟩ := load_initrd_requests E K S initrd initrd_len
      (load_elf_headers E (u64_add K S) s).2
    have h12 : (load_initrd E (u64_add K S) K initrd initrd_len
        (load_elf_headers E (u64_add K S) s).2).2.2.requests = s.requests ++ (n1 ++ n2) := by
      rw [h2, h1, List.append_assoc]
    have p12 : ∀ q ∈ n1 ++ n2, PayloadRequest K S q.1 := by
      intro q hq
      rcases List.mem_append.mp hq with h | h
      · exact (p1 q h).1
      · exact (p2 q h).1
    by_cases hr2 : (load_initrd E (u64_add K S) K initrd initrd_len
        (load_elf_headers E (u64_add K S) s).2).1 ≠ 0
    · simp only [if_pos hr2]
      refine ⟨n1 ++ n2, h12, p12, ?_⟩
      intro h
      exact absurd (Res.ret.inj h) hr2
    · simp only [if_neg hr2]
      cases hc : (create_dtb E fuel
          (load_initrd E (u64_add K S) K initrd initrd_len
            (load_elf_headers E (u64_add K S) s).2).2.2.image
          (load_initrd E (u64_add K S) K initrd initrd_len
            (load_elf_headers E (u64_add K S) s).2).2.1 initrd_len cmdline).1 with
      | fault => exact ⟨n1 ++ n2, h12, p12, fun h => absurd h (by simp)⟩
      | fuel => exact ⟨n1 ++ n2, h12, p12, fun h => absurd h (by simp)⟩
      | ret v =>
        obtain ⟨ret, dtb⟩ := v
        simp only
        by_cases hr3 : ret ≠ 0
        · simp only [if_pos hr3]
          refine ⟨n1 ++ n2, h12, p12, ?_⟩
          intro h
          exact absurd (Res.ret.inj h) hr3
        · simp only [if_neg hr3]
          cases dtb with
          | none => exact ⟨n1 ++ n2, h12, p12, fun h => absurd h (by simp)⟩
          | some d =>
            simp only
            obtain ⟨kb, hkb⟩ : ∃ kb : kexec_buf, kb =
                { buffer := Buffer.dtb, bufsz := E.fdt.fdt_totalsize d, mem := 0,
                  memsz := E.fdt.fdt_totalsize d, buf_align := SZ_2M,
                  buf_min := u64_add K S, buf_max := ULONG_MAX, top_down := true } :=
              ⟨_, rfl⟩
            simp only [← hkb]
            have hreq := kexec_add_buffer_requests E kb
              (load_initrd E (u64_add K S) K initrd initrd_len
                (load_elf_headers E (u64_add K S) s).2).2.2
            have hP : PayloadRequest K S kb ∧ kb.buffer = Buffer.dtb := by
              rw [hkb]
              exact ⟨⟨rfl, rfl, rfl, rfl, rfl, rfl⟩, rfl⟩
            refine ⟨n1 ++ n2 ++ [(kb, (kexec_add_buffer E kb
              (load_initrd E (u64_add K S) K initrd initrd_len
                (load_elf_headers E (u64_add K S) s).2).2.2).1)], ?_, ?_, ?_⟩
            · by_cases hr : (kexec_add_buffer E kb
                  (load_initrd E (u64_add K S) K initrd initrd_len
                    (load_elf_headers E (u64_add K S) s).2).2.2).1 ≠ 0
              · simp only [if_pos hr]
                rw [hreq, h12, List.append_assoc]
              · simp only [if_neg hr]
                rw [hreq, h12, List.append_assoc]
            · intro q hq
              rcases List.mem_append.mp hq with h | h
              · exact p12 q h
              · rw [List.mem_singleton.mp h]; exact hP.1
            · intro _
              refine ⟨?_, ?_, _, List.mem_append_right _ (List.mem_singleton.mpr rfl), hP.2⟩
              · intro ht
                obtain ⟨q, hq⟩ := List.exists_mem_of_ne_nil n1 (e1 ht (not_not.mp hr1))
                exact ⟨q, List.mem_append_left _ (List.mem_append_left _ hq), (p1 q hq).2⟩
              · intro hi
                obtain ⟨q, hq⟩ := List.exists_mem_of_ne_nil n2 (e2 hi)
                exact ⟨q, List.mem_append_left _ (List.mem_append_right _ hq), (p2 q hq).2.1⟩

/-- C21: every placement request `load_other_segments` makes for the kernel
load address `K` and size `S` has the minimum address `K + S` (a 64-bit sum,
the plain sum when it is below 2^64) and is for the dump header, the ramdisk
or the device tree; the ramdisk request is bottom-up with the ceiling
`round_down(K, 1 GiB) + 32 GiB` (a 64-bit sum); the dump-header request is
top-down, aligned to 64 KiB, with the ceiling `ULONG_MAX`; the device-tree
request is top-down, aligned to 2 MiB, with the ceiling `ULONG_MAX`.  A run
that returns 0 has made the device-tree request, the ramdisk request when a
ramdisk was given and the dump-header request for a crash image. -/
theorem load_other_segments_placement {β : Type} (E : kexec_env β) (fuel : Nat)
    (s : LoadState β) (K S : Nat) (initrd : Option Mem) (initrd_len : Nat)
    (cmdline : Option (List Nat)) :
    ∃ new, (load_other_segments E fuel s K S initrd initrd_len cmdline).2.requests =
        s.requests ++ new ∧
      (∀ q ∈ new,
        q.1.buf_min = u64_add K S ∧ (K + S < 2 ^ 64 → q.1.buf_min = K + S) ∧
        (q.1.buffer = Buffer.elf_headers ∨ q.1.buffer = Buffer.initrd ∨
          q.1.buffer = Buffer.dtb) ∧
        (q.1.buffer = Buffer.initrd →
          q.1.top_down = false ∧
          q.1.buf_max = u64_add (K - K % SZ_1G) (SZ_1G * 32) ∧
          (K - K % SZ_1G + SZ_1G * 32 < 2 ^ 64 →
            q.1.buf_max = K - K % SZ_1G + SZ_1G * 32)) ∧
        (q.1.buffer = Buffer.elf_headers →
          q.1.top_down = true ∧ q.1.buf_align = SZ_64K ∧ q.1.buf_max = ULONG_MAX) ∧
        (q.1.buffer = Buffer.dtb →
          q.1.top_down = true ∧ q.1.buf_align = SZ_2M ∧ q.1.buf_max = ULONG_MAX)) ∧
      ((load_other_segments E fuel s K S initrd initrd_len cmdline).1 = Res.ret 0 →
        (s.image.type = KEXEC_TYPE_CRASH → ∃ q ∈ new, q.1.buffer = Buffer.elf_headers) ∧
        (initrd ≠ none → ∃ q ∈ new, q.1.buffer = Buffer.initrd) ∧
        ∃ q ∈ new, q.1.buffer = Buffer.dtb) := by
  obtain ⟨new, h1, h2, h3⟩ :=
    load_other_segments_requests E fuel s K S initrd initrd_len cmdline
  refine ⟨new, h1, ?_, h3⟩
  intro q hq
  obtain ⟨hmin, _, _, hb⟩ := h2 q hq
  refine ⟨hmin, ?_, ?_, ?_, ?_, ?_⟩
  · intro hlt
    rw [hmin]
    exact Nat.mod_eq_of_lt hlt
  · cases hbuf : q.1.buffer with
    | kernel => rw [hbuf] at hb; exact absurd hb (by simp)
    | elf_headers => exact Or.inl rfl
    | initrd => exact Or.inr (Or.inl rfl)
    | dtb => exact Or.inr (Or.inr rfl)
  · intro hbuf
    rw [hbuf] at hb
    refine ⟨hb.1, hb.2.2, ?_⟩
    intro hlt
    rw [hb.2.2]
    exact Nat.mod_eq_of_lt hlt
  · intro hbuf
    rw [hbuf] at hb
    exact hb
  · intro hbuf
    rw [hbuf] at hb
    exact hb

/-- A crash load with a ramdisk for the kernel at 0x40080000 of size 0x10000:
the three requests, each with the minimum address 0x40090000. -/
theorem load_other_segments_placement_witness :
    (load_other_segments crashEnv 1 (state_empty RefFdt KEXEC_TYPE_CRASH) 0x40080000 0x10000
        (some (fun _ => 0)) 0x2000 (some [97])).2.requests =
      [({ buffer := Buffer.elf_headers, bufsz := 0x400, mem := 0, memsz := 0x400,
          buf_align := 0x10000, buf_min := 0x40090000, buf_max := 0xffffffffffffffff,
          top_down := true }, 0),
       ({ buffer := Buffer.initrd, bufsz := 0x2000, mem := 0, memsz := 0x2000,
          buf_align := 0, buf_min := 0x40090000, buf_max := 0x840000000,
          top_down := false }, 0),
       ({ buffer := Buffer.dtb, bufsz := 0x1101, mem := 0, memsz := 0x1101,
          buf_align := 0x200000, buf_min := 0x40090000, buf_max := 0xffffffffffffffff,
          top_down := true }, 0)] ∧
    ∃ new, (load_other_segments crashEnv 1 (state_empty RefFdt KEXEC_TYPE_CRASH) 0x40080000
        0x10000 (some (fun _ => 0)) 0x2000 (some [97])).2.requests =
        (state_empty RefFdt KEXEC_TYPE_CRASH).requests ++ new ∧
      ∀ q ∈ new, q.1.buf_min = 0x40090000 :=
  ⟨by decide,
   (load_other_segments_placement crashEnv 1 (state_empty RefFdt KEXEC_TYPE_CRASH) 0x40080000
      0x10000 (some (fun _ => 0)) 0x2000 (some [97])).elim
    (fun new h => ⟨new, h.1, fun q hq => ((h.2.1 q hq).2.1 (by decide)).trans (by decide)⟩)⟩

/-! ## image_load: the kernel window -/

theorem image_load_segment_u64 {β : Type} (E : kexec_env β) (fuel : Nat) (s : LoadState β)
    (kernel : Mem) (kernel_len : Nat) (initrd : Option Mem) (initrd_len : Nat)
    (cmdline : Option (List Nat)) (cmdline_len : Nat) (A : Nat)
    (hsize : (header_of kernel).image_size ≠ 0)
    (hA : E.kexec_locate_mem_hole s.image
      { buffer := Buffer.kernel, bufsz := kernel_len, mem := 0,
        memsz := u64_add (header_of kernel).image_size (header_of kernel).text_offset,
        buf_align := E.MIN_KIMG_ALIGN, buf_min := 0, buf_max := ULONG_MAX,
        top_down := false } = (0, A)) :
    (image_load E fuel s kernel kernel_len initrd initrd_len cmdline
        cmdline_len).2.image.segment[s.image.segment.length]? =
      some { kbuf := Buffer.kernel, bufsz := kernel_len,
             mem := u64_add A (header_of kernel).text_offset,
             memsz := u64_sub
               (u64_add (header_of kernel).image_size (header_of kernel).text_offset)
               (header_of kernel).text_offset } ∧
    (image_load E fuel s kernel kernel_len initrd initrd_len cmdline
        cmdline_len).2.image.start = u64_add A (header_of kernel).text_offset := by
  obtain ⟨kb, hkb⟩ : ∃ kb : kexec_buf, kb =
      { buffer := Buffer.kernel, bufsz := kernel_len, mem := 0,
        memsz := u64_add (header_of kernel).image_size (header_of kernel).text_offset,
        buf_align := E.MIN_KIMG_ALIGN, buf_min := 0, buf_max := ULONG_MAX,
        top_down := false } := ⟨_, rfl⟩
  simp only [← hkb] at hA ⊢
  have hf : (E.kexec_locate_mem_hole s.image kb).1 = 0 := by rw [hA]
  have h2 : (E.kexec_locate_mem_hole s.image kb).2 = A := by rw [hA]
  have heq := image_load_alloc_ok E fuel s kernel kernel_len initrd initrd_len cmdline
    cmdline_len hsize kb hkb hf
  rw [h2] at heq
  obtain ⟨s1, hs1⟩ : ∃ s1 : LoadState β, s1 =
      { image := { s.image with
          segment := s.image.segment ++
            [{ kbuf := Buffer.kernel, bufsz := kernel_len,
               mem := u64_add A (header_of kernel).text_offset,
               memsz := u64_sub
                 (u64_add (header_of kernel).image_size (header_of kernel).text_offset)
                 (header_of kernel).text_offset }]
          start := u64_add A (header_of kernel).text_offset }
        requests := s.requests ++ [(kb, 0)] } := ⟨_, rfl⟩
  rw [← hs1] at heq
  have hseg : s1.image.segment = s.image.segment ++
      [{ kbuf := Buffer.kernel, bufsz := kernel_len,
         mem := u64_add A (header_of kernel).text_offset,
         memsz := u64_sub
           (u64_add (header_of kernel).image_size (header_of kernel).text_offset)
           (header_of kernel).text_offset }] := by rw [hs1]
  have hstart : s1.image.start = u64_add A (header_of kernel).text_offset := by rw [hs1]
  obtain ⟨new, g, -, -⟩ := load_other_segments_grows E fuel s1
    (u64_add A (header_of kernel).text_offset)
    (u64_sub (u64_add (header_of kernel).image_size (header_of kernel).text_offset)
      (header_of kernel).text_offset) initrd initrd_len cmdline
  rw [← heq] at g
  constructor
  · obtain ⟨segs, hs, -⟩ := g.segment
    rw [hs, hseg, List.append_assoc, List.getElem?_append_right (le_refl _)]
    simp
  · rw [g.start, hstart]

/-- C23: for a header with non-zero `image_size` and
`image_size + text_offset < 2^64`, and an allocator that answers the kernel
request with an address `A` such that `A + image_size + text_offset < 2^64`:
the window asked for has `image_size + text_offset` bytes, and the kernel
segment `[mem, mem + memsz)` in the state `image_load` ends in starts exactly
`text_offset` bytes above `A`, has `memsz` equal to `image_size`, ends exactly
at the end `A + image_size + text_offset` of the window, and so lies inside
the window; the entry address is its start. -/
theorem image_load_kernel_window {β : Type} (E : kexec_env β) (fuel : Nat) (s : LoadState β)
    (kernel : Mem) (kernel_len : Nat) (initrd : Option Mem) (initrd_len : Nat)
    (cmdline : Option (List Nat)) (cmdline_len : Nat) (A : Nat)
    (hsize : (header_of kernel).image_size ≠ 0)
    (h1 : (header_of kernel).image_size + (header_of kernel).text_offset < 2 ^ 64)
    (h2 : A + (header_of kernel).image_size + (header_of kernel).text_offset < 2 ^ 64)
    (hA : E.kexec_locate_mem_hole s.image
      { buffer := Buffer.kernel, bufsz := kernel_len, mem := 0,
        memsz := (header_of kernel).image_size + (header_of kernel).text_offset,
        buf_align := E.MIN_KIMG_ALIGN, buf_min := 0, buf_max := ULONG_MAX,
        top_down := false } = (0, A)) :
    ∃ seg : kexec_segment,
      (image_load E fuel s kernel kernel_len initrd initrd_len cmdline
        cmdline_len).2.image.segment[s.image.segment.length]? = some seg ∧
      seg.kbuf = Buffer.kernel ∧
      seg.mem = A + (header_of kernel).text_offset ∧
      seg.memsz = (header_of kernel).image_size ∧
      seg.mem + seg.memsz = A + ((header_of kernel).image_size + (header_of kernel).text_offset) ∧
      A ≤ seg.mem ∧
      seg.mem + seg.memsz ≤ A + ((header_of kernel).image_size + (header_of kernel).text_offset) ∧
      (image_load E fuel s kernel kernel_len initrd initrd_len cmdline
        cmdline_len).2.image.start = seg.mem := by
  have hu : u64_add (header_of kernel).image_size (header_of kernel).text_offset =
      (header_of kernel).image_size + (header_of kernel).text_offset := by
    unfold u64_add
    exact Nat.mod_eq_of_lt h1
  rw [← hu] at hA
  obtain ⟨hseg, hstart⟩ := image_load_segment_u64 E fuel s kernel kernel_len initrd initrd_len
    cmdline cmdline_len A hsize hA
  have hm : u64_add A (header_of kernel).text_offset = A + (header_of kernel).text_offset := by
    unfold u64_add
    exact Nat.mod_eq_of_lt (by omega)
  have hz : u64_sub (u64_add (header_of kernel).image_size (header_of kernel).text_offset)
      (header_of kernel).text_offset = (header_of kernel).image_size := by
    rw [hu]
    unfold u64_sub
    have ht : (header_of kernel).text_offset < 2 ^ 64 := by omega
    rw [Nat.mod_eq_of_lt h1, Nat.mod_eq_of_lt ht]
    have : (header_of kernel).image_size + (header_of kernel).text_offset + 2 ^ 64 -
        (header_of kernel).text_offset = (header_of kernel).image_size + 2 ^ 64 := by omega
    rw [this, Nat.add_mod_right]
    exact Nat.mod_eq_of_lt (by omega)
  rw [hm, hz] at hseg
  rw [hm] at hstart
  refine ⟨_, hseg, rfl, rfl, rfl, ?_, ?_, ?_, hstart⟩
  · show A + (header_of kernel).text_offset + (header_of kernel).image_size = _
    omega
  · show A ≤ A + (header_of kernel).text_offset
    omega
  · show A + (header_of kernel).text_offset + (header_of kernel).image_size ≤ _
    omega

/-- The header `hdr_good` (text_offset 0x80000, image_size 0x10000) with the
window placed at 1 GiB: the kernel segment is `[0x40080000, 0x40090000)`. -/
theorem image_load_kernel_window_witness :
    ∃ seg : kexec_segment,
      (image_load refEnv 2 (state_empty RefFdt KEXEC_TYPE_DEFAULT) hdr_good 0x10000
        none 0 (some []) 1).2.image.segment[0]? = some seg ∧
      seg.mem = 0x40080000 ∧ seg.memsz = 0x10000 ∧ seg.mem + seg.memsz = 0x40090000 :=
  (image_load_kernel_window refEnv 2 (state_empty RefFdt KEXEC_TYPE_DEFAULT) hdr_good 0x10000
      none 0 (some []) 1 0x40000000 (by decide) (by decide) (by decide) (by decide)).elim
    (fun seg h => ⟨seg, h.1, h.2.2.1.trans (by decide), h.2.2.2.1.trans (by decide),
      h.2.2.2.2.1.trans (by decide)⟩)

/-! ## fdt_setprop_reg: the value written -/

theorem cells_eq_spec (x cells : Nat) (hc : cells = 1 ∨ cells = 2) :
    cpu64_to_fdt_cells x cells = be_cells_spec x cells := by
  rcases hc with rfl | rfl
  · simp only [cpu64_to_fdt_cells, cpu_to_fdt32, be_cells_spec, Nat.shiftRight_eq_div_pow]
    simp [List.range_succ]
  · simp only [cpu64_to_fdt_cells, cpu_to_fdt32, be_cells_spec, Nat.shiftRight_eq_div_pow]
    simp [List.range_succ, Nat.div_div_eq_div_mul]

theorem toNat_cells (c : Int) (hc : c = 1 ∨ c = 2) : c.toNat = 1 ∨ c.toNat = 2 := by
  rcases hc with h | h <;> rw [h]
  · left; rfl
  · right; rfl

/-- C25: for 64-bit `addr` and `size` and root cell counts `ac`, `sc` in
{1, 2} that pass the two range checks of `fdt_setprop_reg`, the call is the
call of `fdt_setprop` with a value of exactly `4 * (ac + sc)` bytes, namely
`addr` as `ac` big-endian 32-bit cells (most significant cell first) followed
by `size` as `sc` such cells; every byte is below 256, and reading the first
`ac` cells and the following `sc` cells back as big-endian integers gives
exactly `addr` and `size`. -/
theorem fdt_setprop_reg_encoding {β : Type} (L : FdtLib β) (fdt : β) (nodeoffset : Int)
    (name : String) (addr size : Nat) (ha : addr < 2 ^ 64) (hs : size < 2 ^ 64)
    (hac : L.fdt_address_cells fdt 0 = 1 ∨ L.fdt_address_cells fdt 0 = 2)
    (hsc : L.fdt_size_cells fdt 0 = 1 ∨ L.fdt_size_cells fdt 0 = 2)
    (hc1 : ¬ (L.fdt_address_cells fdt 0 = 1 ∧ (addr > U32_MAX ∨ u64_add addr size > U32_MAX)))
    (hc2 : ¬ (L.fdt_size_cells fdt 0 = 1 ∧ size > U32_MAX)) :
    ∃ v : List Nat,
      fdt_setprop_reg L fdt nodeoffset name addr size =
        some (L.fdt_setprop fdt nodeoffset name v) ∧
      v = be_cells_spec addr (L.fdt_address_cells fdt 0).toNat ++
        be_cells_spec size (L.fdt_size_cells fdt 0).toNat ∧
      v.length = 4 * ((L.fdt_address_cells fdt 0).toNat + (L.fdt_size_cells fdt 0).toNat) ∧
      (∀ b ∈ v, b < 256) ∧
      be_to_cpu (v.take (4 * (L.fdt_address_cells fdt 0).toNat)) = addr ∧
      be_to_cpu ((v.drop (4 * (L.fdt_address_cells fdt 0).toNat)).take
        (4 * (L.fdt_size_cells fdt 0).toNat)) = size ∧
      v.drop (4 * (L.fdt_address_cells fdt 0).toNat + 4 * (L.fdt_size_cells fdt 0).toNat) =
        [] := by
  have hA := toNat_cells _ hac
  have hS := toNat_cells _ hsc
  have h0 : ¬ L.fdt_address_cells fdt 0 < 0 := by rcases hac with h | h <;> rw [h] <;> decide
  have h1 : ¬ L.fdt_size_cells fdt 0 < 0 := by rcases hsc with h | h <;> rw [h] <;> decide
  have h2 : ¬ (2 < L.fdt_address_cells fdt 0 ∨ 2 < L.fdt_size_cells fdt 0) := by
    rcases hac with h | h <;> rcases hsc with h' | h' <;> rw [h, h'] <;> decide
  have ha1 : (L.fdt_address_cells fdt 0).toNat = 1 → addr ≤ U32_MAX := by
    intro h
    have hc : L.fdt_address_cells fdt 0 = 1 := by
      rcases hac with h' | h'
      · exact h'
      · rw [h'] at h; exact absurd h (by decide)
    by_contra hcon
    exact hc1 ⟨hc, Or.inl (not_le.mp hcon)⟩
  have hs1 : (L.fdt_size_cells fdt 0).toNat = 1 → size ≤ U32_MAX := by
    intro h
    have hc : L.fdt_size_cells fdt 0 = 1 := by
      rcases hsc with h' | h'
      · exact h'
      · rw [h'] at h; exact absurd h (by decide)
    by_contra hcon
    exact hc2 ⟨hc, not_le.mp hcon⟩
  have hdec := reg_decode addr size _ _ hA hS ha hs ha1 hs1
  have hlen : (cpu64_to_fdt_cells addr (L.fdt_address_cells fdt 0).toNat ++
      cpu64_to_fdt_cells size (L.fdt_size_cells fdt 0).toNat).length =
      4 * ((L.fdt_address_cells fdt 0).toNat + (L.fdt_size_cells fdt 0).toNat) := by
    rw [List.length_append, cells_length, cells_length]
    omega
  refine ⟨cpu64_to_fdt_cells addr (L.fdt_address_cells fdt 0).toNat ++
      cpu64_to_fdt_cells size (L.fdt_size_cells fdt 0).toNat, ?_, ?_, hlen, ?_, ?_, ?_, ?_⟩
  · unfold fdt_setprop_reg
    simp only [if_neg h0, if_neg h1, if_neg hc1, if_neg hc2, if_neg h2]
  · rw [cells_eq_spec addr _ hA, cells_eq_spec size _ hS]
  · intro b hb
    rw [cells_eq_spec addr _ hA, cells_eq_spec size _ hS] at hb
    rcases List.mem_append.mp hb with h | h
    · unfold be_cells_spec at h
      obtain ⟨i, _, rfl⟩ := List.mem_map.mp h
      exact Nat.mod_lt _ (by norm_num)
    · unfold be_cells_spec at h
      obtain ⟨i, _, rfl⟩ := List.mem_map.mp h
      exact Nat.mod_lt _ (by norm_num)
  · exact (Prod.mk.inj hdec).1
  · exact (Prod.mk.inj hdec).2
  · apply List.drop_eq_nil_of_le
    rw [hlen]
    omega

/-- One address cell and two size cells: the region at 0x1000 of 0x2000 bytes
is written as 00 00 10 00, 00 00 00 00 00 00 20 00. -/
theorem fdt_setprop_reg_encoding_witness :
    ∃ v : List Nat,
      fdt_setprop_reg (cellsLib 1 2) ref_template 8 "reg" 0x1000 0x2000 =
        some ((cellsLib 1 2).fdt_setprop ref_template 8 "reg" v) ∧
      v = [0, 0, 0x10, 0, 0, 0, 0, 0, 0, 0, 0x20, 0] :=
  (fdt_setprop_reg_encoding (cellsLib 1 2) ref_template 8 "reg" 0x1000 0x2000 (by decide)
      (by decide) (Or.inl rfl) (Or.inr rfl) (by decide) (by decide)).elim
    (fun v h => ⟨v, h.1, h.2.1.trans (by decide)⟩)

/-! ## fdt_setprop_reg: the end of the region with one address cell -/

/-- C26, the code at the failing input and around it: with one address cell
and two size cells, `addr = 1` and `size = 2^64 - 1` pass the checks, because
the sum `addr + size` is computed in 64 bits and wraps to 0: the property is
written (here with result 0) although `addr + size`, as a sum of natural
numbers, is 2^64 and so above 0xFFFFFFFF.  In general, with one address cell
the call passes the checks exactly when `addr <= U32_MAX`,
`(addr + size) mod 2^64 <= U32_MAX` and, with one size cell,
`size <= U32_MAX`, and is rejected with `-FDT_ERR_BADVALUE` otherwise; with
one size cell, or whenever `addr + size < 2^64`, a call that passes has
`addr + size <= 0xFFFFFFFF`. -/
theorem fdt_setprop_reg_sum_wraps {β : Type} (L : FdtLib β) (fdt : β) (nodeoffset : Int)
    (name : String) (addr size : Nat) :
    (fdt_setprop_reg (cellsLib 1 2) ref_template 8 "reg" 1 (2 ^ 64 - 1) =
        some (0, { ref_template with
          chosen := ("reg", [0, 0, 0, 1, 255, 255, 255, 255, 255, 255, 255, 255]) ::
            ref_template.chosen }) ∧
      1 < 2 ^ 64 ∧ 2 ^ 64 - 1 < 2 ^ 64 ∧ ¬ (1 + (2 ^ 64 - 1) ≤ 0xFFFFFFFF)) ∧
    (L.fdt_address_cells fdt 0 = 1 →
      (L.fdt_size_cells fdt 0 = 1 ∨ L.fdt_size_cells fdt 0 = 2) →
      ((addr ≤ U32_MAX ∧ (addr + size) % 2 ^ 64 ≤ U32_MAX ∧
          (L.fdt_size_cells fdt 0 = 1 → size ≤ U32_MAX)) →
        fdt_setprop_reg L fdt nodeoffset name addr size =
          some (L.fdt_setprop fdt nodeoffset name
            (cpu64_to_fdt_cells addr 1 ++
              cpu64_to_fdt_cells size (L.fdt_size_cells fdt 0).toNat))) ∧
      (¬ (addr ≤ U32_MAX ∧ (addr + size) % 2 ^ 64 ≤ U32_MAX ∧
          (L.fdt_size_cells fdt 0 = 1 → size ≤ U32_MAX)) →
        fdt_setprop_reg L fdt nodeoffset name addr size = some (-FDT_ERR_BADVALUE, fdt)) ∧
      ((addr ≤ U32_MAX ∧ (addr + size) % 2 ^ 64 ≤ U32_MAX ∧
          (L.fdt_size_cells fdt 0 = 1 → size ≤ U32_MAX)) →
        (L.fdt_size_cells fdt 0 = 1 ∨ addr + size < 2 ^ 64) →
        addr + size ≤ 0xFFFFFFFF)) := by
  constructor
  · refine ⟨by decide, by decide, by decide, by decide⟩
  · intro hac hsc
    have h0 : ¬ L.fdt_address_cells fdt 0 < 0 := by rw [hac]; decide
    have h1 : ¬ L.fdt_size_cells fdt 0 < 0 := by rcases hsc with h | h <;> rw [h] <;> decide
    have h2 : ¬ (2 < L.fdt_address_cells fdt 0 ∨ 2 < L.fdt_size_cells fdt 0) := by
      rcases hsc with h | h <;> rw [hac, h] <;> decide
    refine ⟨?_, ?_, ?_⟩
    · intro hok
      have hc1 : ¬ (L.fdt_address_cells fdt 0 = 1 ∧
          (addr > U32_MAX ∨ u64_add addr size > U32_MAX)) := by
        intro hcon
        rcases hcon.2 with h | h
        · exact absurd hok.1 (not_le.mpr h)
        · exact absurd hok.2.1 (not_le.mpr h)
      have hc2 : ¬ (L.fdt_size_cells fdt 0 = 1 ∧ size > U32_MAX) := by
        intro hcon
        exact absurd (hok.2.2 hcon.1) (not_le.mpr hcon.2)
      unfold fdt_setprop_reg
      simp only [if_neg h0, if_neg h1, if_neg hc1, if_neg hc2, if_neg h2]
      rw [hac]
      rfl
    · intro hbad
      unfold fdt_setprop_reg
      simp only [if_neg h0, if_neg h1]
      by_cases hc1 : L.fdt_address_cells fdt 0 = 1 ∧
          (addr > U32_MAX ∨ u64_add addr size > U32_MAX)
      · simp only [if_pos hc1]
      · simp only [if_neg hc1]
        have hc2 : L.fdt_size_cells fdt 0 = 1 ∧ size > U32_MAX := by
          by_contra hcon
          apply hbad
          refine ⟨?_, ?_, ?_⟩
          · by_contra h
            exact hc1 ⟨hac, Or.inl (not_le.mp h)⟩
          · by_contra h
            exact hc1 ⟨hac, Or.inr (not_le.mp h)⟩
          · intro hs
            by_contra h
            exact hcon ⟨hs, not_le.mp h⟩
        simp only [if_pos hc2]
    · intro hok hcase
      have hU : U32_MAX = 0xFFFFFFFF := by decide
      rw [hU] at hok
      rcases hcase with h | h
      · have := hok.2.2 h
        have h3 := hok.2.1
        have h4 := hok.1
        have hlt : addr + size < 2 ^ 64 := by norm_num; omega
        rw [Nat.mod_eq_of_lt hlt] at h3
        exact h3
      · have h3 := hok.2.1
        rw [Nat.mod_eq_of_lt h] at h3
        exact h3

/-! ## kexec_list_walk: termination -/

theorem walk_loop_ret_path (M : kexec_list) :
    ∀ (fuel entry dest : Nat), (kexec_list_walk_loop M fuel entry dest).2 = Halt.ret () →
      Path M entry ((kexec_list_walk_loop M fuel entry dest).1.map Prod.fst) := by
  intro fuel
  induction fuel with
  | zero => intro entry dest h; simp [kexec_list_walk_loop] at h
  | succ fuel ih =>
    intro entry dest
    unfold kexec_list_walk_loop
    simp only
    by_cases h2 : M.flag entry = IND_INDIRECTION
    · have h4 : M.flag entry ≠ IND_DONE := by rw [h2]; decide
      simp only [if_pos h2, List.map_cons]
      intro h
      unfold Path
      refine ⟨rfl, ?_⟩
      simp only [if_neg h4, if_pos h2]
      have := ih _ dest h
      rw [u64_ptr_step _ (addr_lt M entry)] at this
      rw [u64_ptr_step _ (addr_lt M entry)]
      exact this
    · by_cases h1 : M.flag entry = IND_DESTINATION
      · have h4 : M.flag entry ≠ IND_DONE := by rw [h1]; decide
        simp only [if_neg h2, if_pos h1, List.map_cons]
        intro h
        unfold Path
        refine ⟨rfl, ?_⟩
        simp only [if_neg h4, if_neg h2]
        exact ih _ _ h
      · by_cases h8 : M.flag entry = IND_SOURCE
        · have h4 : M.flag entry ≠ IND_DONE := by rw [h8]; decide
          simp only [if_neg h2, if_neg h1, if_pos h8, List.map_cons]
          intro h
          unfold Path
          refine ⟨rfl, ?_⟩
          simp only [if_neg h4, if_neg h2]
          exact ih _ _ h
        · by_cases h4 : M.flag entry = IND_DONE
          · simp only [if_neg h2, if_neg h1, if_neg h8, if_pos h4, List.map_cons, List.map_nil]
            intro _
            unfold Path
            refine ⟨rfl, ?_⟩
            simp only [if_pos h4]
          · simp only [if_neg h2, if_neg h1, if_neg h8, if_neg h4, List.map_cons]
            intro h
            unfold Path
            refine ⟨rfl, ?_⟩
            simp only [if_neg h4, if_neg h2]
            exact ih _ _ h

theorem walk_loop_short (M : kexec_list) :
    ∀ (l : List Nat) (fuel entry dest : Nat), Path M entry l → fuel < l.length →
      (kexec_list_walk_loop M fuel entry dest).2 = Halt.fuel := by
  intro l
  induction l with
  | nil => intro fuel entry dest hp; exact absurd hp (by simp [Path])
  | cons p l ih =>
    intro fuel entry dest hp hf
    cases fuel with
    | zero => rfl
    | succ fuel =>
      have hf1 : fuel < l.length := by simpa using hf
      unfold Path at hp
      obtain ⟨rfl, hp⟩ := hp
      unfold kexec_list_walk_loop
      simp only
      by_cases h4 : M.flag p = IND_DONE
      · simp only [if_pos h4] at hp
        subst hp
        exact absurd hf1 (by simp)
      · simp only [if_neg h4] at hp
        by_cases h2 : M.flag p = IND_INDIRECTION
        · simp only [if_pos h2] at hp
          simp only [if_pos h2, u64_ptr_step _ (addr_lt M p)]
          exact ih fuel _ dest hp hf1
        · simp only [if_neg h2] at hp
          simp only [if_neg h2]
          split_ifs
          · exact ih fuel _ _ hp hf1
          · exact ih fuel _ _ hp hf1
          · exact ih fuel _ _ hp hf1

theorem visit_spec_none (M : kexec_list) (pre : List Nat) (p : Nat) :
    visit_spec M pre p = none ↔
      ¬ (M.flag p = IND_DESTINATION ∨ M.flag p = IND_INDIRECTION ∨ M.flag p = IND_DONE ∨
        M.flag p = IND_SOURCE) := by
  unfold visit_spec
  by_cases h1 : M.flag p = IND_DESTINATION
  · simp only [if_pos h1]
    exact ⟨fun h => absurd h (by simp), fun h => absurd (Or.inl h1) h⟩
  · simp only [if_neg h1]
    by_cases h8 : M.flag p = IND_SOURCE
    · simp only [if_pos h8]
      exact ⟨fun h => absurd h (by simp),
        fun h => absurd (Or.inr (Or.inr (Or.inr h8))) h⟩
    · simp only [if_neg h8]
      by_cases h2 : M.flag p = IND_INDIRECTION
      · simp only [if_pos h2]
        exact ⟨fun h => absurd h (by simp), fun h => absurd (Or.inr (Or.inl h2)) h⟩
      · simp only [if_neg h2]
        by_cases h4 : M.flag p = IND_DONE
        · simp only [if_pos h4]
          exact ⟨fun h => absurd h (by simp),
            fun h => absurd (Or.inr (Or.inr (Or.inl h4))) h⟩
        · simp only [if_neg h4]
          refine ⟨fun _ => ?_, fun _ => trivial⟩
          intro h
          rcases h with h | h | h | h
          · exact h1 h
          · exact h2 h
          · exact h4 h
          · exact h8 h

theorem visit_spec_done (M : kexec_list) (pre : List Nat) (p : Nat) :
    (visit_spec M pre p).map cb_call.flag = some IND_DONE ↔ M.flag p = IND_DONE := by
  unfold visit_spec
  by_cases h1 : M.flag p = IND_DESTINATION
  · simp only [if_pos h1, Option.map_some']
    constructor
    · intro h; exact absurd (Option.some.inj h) (by decide)
    · intro h; rw [h1] at h; exact absurd h (by decide)
  · simp only [if_neg h1]
    by_cases h8 : M.flag p = IND_SOURCE
    · simp only [if_pos h8, Option.map_some']
      constructor
      · intro h; exact absurd (Option.some.inj h) (by decide)
      · intro h; rw [h8] at h; exact absurd h (by decide)
    · simp only [if_neg h8]
      by_cases h2 : M.flag p = IND_INDIRECTION
      · simp only [if_pos h2, Option.map_some']
        constructor
        · intro h; exact absurd (Option.some.inj h) (by decide)
        · intro h; rw [h2] at h; exact absurd h (by decide)
      · simp only [if_neg h2]
        by_cases h4 : M.flag p = IND_DONE
        · simp only [if_pos h4, Option.map_some']
          exact ⟨fun _ => h4, fun _ => trivial⟩
        · simp only [if_neg h4, Option.map_none']
          exact ⟨fun h => absurd h (by simp), fun h => absurd h h4⟩

theorem walk_spec_visits_done (M : kexec_list) :
    ∀ (l pre : List Nat),
      visits IND_DONE (walk_spec M pre l) = l.countP (fun p => decide (M.flag p = IND_DONE)) := by
  intro l
  induction l with
  | nil => intro pre; rfl
  | cons p l ih =>
    intro pre
    have := ih (pre ++ [p])
    unfold visits at this ⊢
    unfold walk_spec
    simp only [List.countP_cons, this, visit_spec_done]

theorem walk_spec_mem (M : kexec_list) :
    ∀ (l pre : List Nat) (it : Nat × Option cb_call), it ∈ walk_spec M pre l →
      ∃ pre1, it.2 = visit_spec M pre1 it.1 := by
  intro l
  induction l with
  | nil => intro pre it h; simp [walk_spec] at h
  | cons p l ih =>
    intro pre it h
    unfold walk_spec at h
    rcases List.mem_cons.mp h with h | h
    · exact ⟨pre, by rw [h]⟩
    · exact ih _ it h

/-- C24: `kexec_list_walk` returns for some amount of fuel exactly when the
entries reachable from the head (following indirection links) reach an entry
whose flag bits are exactly the done flag.  In that case, with `l` the entries
up to that done entry: the walk returns for every fuel of at least the length
of `l` (and runs out of fuel below it), always with the same reports; it
visits exactly the entries `l`, so nothing located after the done entry; the
done entry is reported exactly once, as the last report; and an entry is
passed over without a call of the visitor exactly when its flag bits are none
of the four roles. -/
theorem kexec_list_walk_terminates (M : kexec_list) :
    ((∃ fuel, (kexec_list_walk M fuel).2 = Halt.ret ()) ↔ ∃ l, Path M M.head l) ∧
    (∀ l, Path M M.head l →
      (∀ fuel, l.length ≤ fuel → kexec_list_walk M fuel = (walk_spec M [] l, Halt.ret ())) ∧
      (∀ fuel, fuel < l.length → (kexec_list_walk M fuel).2 = Halt.fuel) ∧
      (walk_spec M [] l).map Prod.fst = l ∧
      visits IND_DONE (walk_spec M [] l) = 1 ∧
      (∃ pre last, l = pre ++ [last] ∧ M.flag last = IND_DONE ∧
        (∀ p ∈ pre, M.flag p ≠ IND_DONE) ∧
        walk_spec M [] l =
          walk_spec M [] pre ++ [(last, some { flag := IND_DONE, addr := 0, dest := 0 })]) ∧
      (∀ it ∈ walk_spec M [] l,
        it.2 = none ↔
          ¬ (M.flag it.1 = IND_DESTINATION ∨ M.flag it.1 = IND_INDIRECTION ∨
            M.flag it.1 = IND_DONE ∨ M.flag it.1 = IND_SOURCE))) := by
  constructor
  · constructor
    · rintro ⟨fuel, h⟩
      exact ⟨_, walk_loop_ret_path M fuel M.head 0 h⟩
    · rintro ⟨l, hp⟩
      refine ⟨l.length, ?_⟩
      unfold kexec_list_walk
      rw [← copy_target_spec_nil M, walk_loop_path M l l.length M.head [] hp (le_refl _)]
  · intro l hp
    refine ⟨?_, ?_, walk_spec_fst M l [], ?_, ?_, ?_⟩
    · intro fuel hf
      unfold kexec_list_walk
      rw [← copy_target_spec_nil M]
      exact walk_loop_path M l fuel M.head [] hp hf
    · intro fuel hf
      exact walk_loop_short M l fuel M.head 0 hp hf
    · obtain ⟨pre, last, hl, hd, hpre⟩ := path_done_last M l M.head hp
      rw [walk_spec_visits_done, hl, List.countP_append]
      have h0 : pre.countP (fun p => decide (M.flag p = IND_DONE)) = 0 := by
        rw [List.countP_eq_zero]
        intro p hp1
        simpa using hpre p hp1
      rw [h0]
      simp [hd]
    · obtain ⟨pre, last, hl, hd, hpre⟩ := path_done_last M l M.head hp
      refine ⟨pre, last, hl, hd, hpre, ?_⟩
      rw [hl, walk_spec_append]
      simp only [walk_spec, List.nil_append]
      have h1 : M.flag last ≠ IND_DESTINATION := by rw [hd]; decide
      have h8 : M.flag last ≠ IND_SOURCE := by rw [hd]; decide
      have h2 : M.flag last ≠ IND_INDIRECTION := by rw [hd]; decide
      simp only [visit_spec, if_neg h1, if_neg h8, if_neg h2, if_pos hd]
    · intro it hit
      obtain ⟨pre1, h⟩ := walk_spec_mem M l [] it hit
      rw [h]
      exact visit_spec_none M pre1 it.1

/-- The list `list_norole`: the head entry has no role and is passed over,
the done entry after it is reported, and two iterations are needed. -/
theorem kexec_list_walk_terminates_witness :
    Path list_norole list_norole.head [0x1000, 0x1008] ∧
    kexec_list_walk list_norole 2 =
      ([(0x1000, none), (0x1008, some { flag := IND_DONE, addr := 0, dest := 0 })],
        Halt.ret ()) ∧
    (kexec_list_walk list_norole 1).2 = Halt.fuel :=
  ⟨by decide,
   (((kexec_list_walk_terminates list_norole).2 [0x1000, 0x1008] (by decide)).1 2
      (by decide)).trans (by decide),
   ((kexec_list_walk_terminates list_norole).2 [0x1000, 0x1008] (by decide)).2.1 1
      (by decide)⟩

/-! ## Protecting and unprotecting the crash image -/

theorem refPages_laws (PAGE_SHIFT : Nat) : PageLaws (refPages PAGE_SHIFT) PAGE_SHIFT where
  set_valid := by
    intro st addr numpages enable p
    rfl

theorem set_segments_valid_spec {σ : Type} (P : page_attr σ) (M : kexec_list)
    (hP : PageLaws P M.PAGE_SHIFT) (enable : Nat) :
    ∀ (segs : List kexec_segment) (st : σ) (p : Nat),
      P.valid (set_segments_valid P M enable segs st) p =
        if segment_page M segs p = true then decide (enable ≠ 0) else P.valid st p := by
  intro segs
  induction segs with
  | nil => intro st p; simp [set_segments_valid, segment_page]
  | cons s rest ih =>
    intro st p
    unfold set_segments_valid
    rw [ih, hP.set_valid]
    unfold segment_page
    simp only [List.any_cons, Bool.or_eq_true, decide_eq_true_eq]
    by_cases hr : (rest.any (fun s =>
        decide ((M.phys_to_virt s.mem % 2 ^ 64) / 2 ^ M.PAGE_SHIFT ≤ p ∧
          p < (M.phys_to_virt s.mem % 2 ^ 64) / 2 ^ M.PAGE_SHIFT +
            (s.memsz >>> M.PAGE_SHIFT)))) = true
    · simp only [hr, if_true, or_true]
    · simp only [hr, Bool.false_eq_true, if_false, or_false]

/-- C22: over a page state that `set_memory_valid` changes as the spec
describes, and for every loaded crash image: `arch_kexec_protect_crashkres`
makes the pages of the image (the `memsz >> PAGE_SHIFT` pages from the start
of each segment) invalid and leaves every other page as it was;
`arch_kexec_unprotect_crashkres`, from any state, makes exactly these pages
valid and leaves every other page as it was; so after protect followed by
unprotect a page is valid exactly when it belongs to the image or was valid
before, and every page that was valid before is valid again.  With no crash
image loaded, both functions dereference NULL. -/
theorem protect_unprotect_crashkres {β σ : Type} (P : page_attr σ) (M : kexec_list)
    (hP : PageLaws P M.PAGE_SHIFT) (image : kimage β) (st : σ) :
    ∃ st1 st2,
      arch_kexec_protect_crashkres P M (some image) st =
        some (kexec_segment_flush M image, st1) ∧
      arch_kexec_unprotect_crashkres P M (some image) st1 = some st2 ∧
      (∀ p, P.valid st1 p =
        if segment_page M image.segment p = true then false else P.valid st p) ∧
      (∀ st3 p, ∃ st4, arch_kexec_unprotect_crashkres P M (some image) st3 = some st4 ∧
        P.valid st4 p =
          if segment_page M image.segment p = true then true else P.valid st3 p) ∧
      (∀ p, P.valid st2 p = (segment_page M image.segment p || P.valid st p)) ∧
      (∀ p, P.valid st p = true → P.valid st2 p = true) ∧
      arch_kexec_protect_crashkres P M (none : Option (kimage β)) st = none ∧
      arch_kexec_unprotect_crashkres P M (none : Option (kimage β)) st = none := by
  have h0 := set_segments_valid_spec P M hP 0 image.segment
  have h1 := set_segments_valid_spec P M hP 1 image.segment
  have e0 : decide ((0 : Nat) ≠ 0) = false := by decide
  have e1 : decide ((1 : Nat) ≠ 0) = true := by decide
  rw [e0] at h0
  rw [e1] at h1
  have h2 : ∀ p, P.valid (set_segments_valid P M 1 image.segment
      (set_segments_valid P M 0 image.segment st)) p =
      (segment_page M image.segment p || P.valid st p) := by
    intro p
    rw [h1, h0]
    cases segment_page M image.segment p <;> simp
  refine ⟨set_segments_valid P M 0 image.segment st,
    set_segments_valid P M 1 image.segment (set_segments_valid P M 0 image.segment st),
    rfl, rfl, h0 st, ?_, h2, ?_, rfl, rfl⟩
  · intro st3 p
    exact ⟨_, rfl, h1 st3 p⟩
  · intro p hv
    rw [h2, hv]
    simp

/-- The image `ref_image_loaded` with pages of 4 KiB and every page valid at
first: the kernel segment of 0x10000 bytes at 0x40080000 covers the pages
0x40080 to 0x4008f, which protect makes invalid and unprotect valid again;
the page 0x40090 stays valid throughout. -/
theorem protect_unprotect_crashkres_witness :
    ∃ st1 st2,
      arch_kexec_protect_crashkres (refPages 12) list_two_pages (some ref_image_loaded)
        (fun _ => true) = some (kexec_segment_flush list_two_pages ref_image_loaded, st1) ∧
      arch_kexec_unprotect_crashkres (refPages 12) list_two_pages (some ref_image_loaded)
        st1 = some st2 ∧
      st1 0x40080 = false ∧ st1 0x4008f = false ∧ st1 0x40090 = true ∧
      st2 0x40080 = true ∧ st2 0x40090 = true :=
  (protect_unprotect_crashkres (refPages 12) list_two_pages (refPages_laws 12)
      ref_image_loaded (fun _ => true)).elim
    (fun st1 h => h.elim (fun st2 h =>
      ⟨st1, st2, h.1, h.2.1,
        (h.2.2.1 0x40080).trans (by decide), (h.2.2.1 0x4008f).trans (by decide),
        (h.2.2.1 0x40090).trans (by decide),
        (h.2.2.2.2.1 0x40080).trans (by decide), (h.2.2.2.2.1 0x40090).trans (by decide)⟩))

end Kexec
